import Mathlib

/-!
# nbudstee: registry, fan-out, drain and the reactor loop

A shallow embedding of `src/nbudstee.cpp`: the descriptor registry
(`addpollfd`, `delpollfd`, `setpollfdevents`), the buffer pool (`getbuffer`,
`finished_with_buffer`), the fan-out of one read and the reopening of the input
(`read_input_fd`), the cases of the reactor loop (`dispatch_input`,
`dispatch_listener`, `dispatch_sink`), one pass of the loop (`pass_loop`) and
the option `-m` (`option_max_queue`).

Conventions
* descriptors are `Nat` (every descriptor the program registers is the
  non-negative result of `open`, `socket` or `accept`);
* `size_t` counters (`buffered_data`) are `Nat` with explicit `% SIZE_MOD`;
* a `std::shared_ptr<std::vector<unsigned char>>` is the index of the vector
  in `State.buffers`; the vectors themselves live in that list, so that two
  queue entries holding the same pointer see the same bytes;
* what the program does to the outside world (stderr lines, `write`, `close`)
  is appended to `State.trace`.
-/

namespace Nbudstee

/-! ## Data model -/

/-- Role of a descriptor, `enum class FDTYPE`. -/
inductive FDTYPE where
  | NONE
  | INPUT
  | LISTENER
  | CONN
  | FIFO
deriving DecidableEq, Repr

/-- One queue entry, `struct fd_out_buffer`: the shared vector and the number of
its bytes already written to this sink. -/
structure fd_out_buffer where
  buffer : Nat
  offset : Nat
deriving DecidableEq, Repr

/-- Per-descriptor state, `struct fdinfo`, with the default member initialisers of
the source (`pollfd_offset` is zero after value-initialisation). -/
structure fdinfo where
  type : FDTYPE := FDTYPE.NONE
  pollfd_offset : Nat := 0
  name : String := ""
  out_buffers : List fd_out_buffer := []
  buffered_data : Nat := 0
  have_overflowed : Bool := false
deriving DecidableEq, Repr

instance : Inhabited fdinfo := ⟨{}⟩

/-- The member function `fdinfo::clear`: it empties the queue and touches nothing else. -/
def fdinfo.clear (x : fdinfo) : fdinfo :=
  { x with out_buffers := [] }

/-- One poll slot, `struct pollfd`. -/
structure pollfd where
  fd : Nat := 0
  events : Nat := 0
  revents : Nat := 0
deriving DecidableEq, Repr

instance : Inhabited pollfd := ⟨{}⟩

/-- What the program does to its environment, in program order. The descriptor is
recorded with every stderr line so that a line can be attributed to its sink
(accepted connections share the name of their listener). -/
inductive Effect where
  | duplicate_add (fd : Nat)
  | remove_missing (fd : Nat)
  | overflow (fd : Nat) (name : String) (closing : Bool)
  | write_failed (fd : Nat) (name : String)
  | wrote (fd : Nat) (bytes : List Nat)
  | closed (fd : Nat)
  | stdout (bytes : List Nat)
deriving DecidableEq, Repr

/-- The globals of the program that the registry, the pool and the reactor use. -/
structure State where
  use_stdout : Bool := true
  max_queue : Nat := 65536
  no_overflow : Bool := false
  input_fd : Nat := 0
  input_name : String := "STDIN"
  reopen_input : Bool := false
  pollfds : List pollfd := []
  fdinfos : List fdinfo := []
  free_buffers : List Nat := []
  buffers : List (List Nat) := []
  trace : List Effect := []
deriving DecidableEq, Repr

/-- Modulus of `size_t` arithmetic. -/
def SIZE_MOD : Nat := 2 ^ 64

def POLLIN : Nat := 1
def POLLOUT : Nat := 4
def POLLERR : Nat := 8

/-- The constant `buffer_count_shrink_threshold`. -/
def buffer_count_shrink_threshold : Nat := 4

/-- The entry `fdinfos[fd]`; out of range (undefined in C++) reads as a
default-constructed entry, whose type is `NONE`. -/
def State.info (s : State) (fd : Nat) : fdinfo :=
  s.fdinfos.getD fd default

/-- The slot `pollfds[i]`. -/
def State.slot (s : State) (i : Nat) : pollfd :=
  s.pollfds.getD i default

/-- Assignment to `fdinfos[fd]`. -/
def State.set_info (s : State) (fd : Nat) (x : fdinfo) : State :=
  { s with fdinfos := s.fdinfos.set fd x }

/-- Assignment to `pollfds[i]`. -/
def State.set_slot (s : State) (i : Nat) (p : pollfd) : State :=
  { s with pollfds := s.pollfds.set i p }

/-- Append one effect to the trace. -/
def State.emit (s : State) (e : Effect) : State :=
  { s with trace := s.trace ++ [e] }

/-- The call `std::deque::resize(n)` on the descriptor table. -/
def resize_fdinfos (l : List fdinfo) (n : Nat) : List fdinfo :=
  l.take n ++ List.replicate (n - l.length) default

/-- The call `std::vector::resize(n)` on a byte vector (new bytes are zero). -/
def vector_resize (v : List Nat) (n : Nat) : List Nat :=
  v.take n ++ List.replicate (n - v.length) 0

/-! ## Descriptor registry -/

/-- Line 85, `if(fdinfos.size() <= (size_t) fd) fdinfos.resize(fd + 1);`. -/
def grow (s : State) (fd : Nat) : State :=
  if s.fdinfos.length ≤ fd then { s with fdinfos := resize_fdinfos s.fdinfos (fd + 1) } else s

/-- The function `addpollfd` (lines 84-95). -/
def addpollfd (s : State) (fd events : Nat) (type : FDTYPE) (name : String) : State :=
  let s1 := grow s fd
  if (s1.info fd).type ≠ FDTYPE.NONE then
    s1.emit (Effect.duplicate_add fd)
  else
    let s2 := s1.set_info fd
      { s1.info fd with type := type, pollfd_offset := s1.pollfds.length, name := name }
    { s2 with pollfds := s2.pollfds ++ [{ fd := fd, events := events, revents := 0 }] }

/-- Lines 107-111 of `delpollfd`: if the slot at `offset` is not the last one, the last
slot is moved into it and its owner records the new index. -/
def fill_slot (s : State) (offset : Nat) : State :=
  if offset < s.pollfds.length - 1 then
    let s0 := s.set_slot offset (s.pollfds.getLastD default)
    let new_fd_in_slot := (s0.slot offset).fd
    s0.set_info new_fd_in_slot { s0.info new_fd_in_slot with pollfd_offset := offset }
  else s

/-- The function `delpollfd` (lines 97-115). `pollfds.size() - 1` is only evaluated
for a registered descriptor; with an empty slot array the source would index an
empty vector. -/
def delpollfd (s : State) (fd : Nat) : State :=
  if fd ≥ s.fdinfos.length ∨ (s.info fd).type = FDTYPE.NONE then
    s.emit (Effect.remove_missing fd)
  else
    let offset := (s.info fd).pollfd_offset
    let s1 := fill_slot s offset
    let s2 : State := { s1 with pollfds := s1.pollfds.dropLast }
    let s3 := s2.set_info fd { s2.info fd with type := FDTYPE.NONE }
    s3.set_info fd (s3.info fd).clear

/-- The function `setpollfdevents` (lines 117-120). -/
def setpollfdevents (s : State) (fd events : Nat) : State :=
  let offset := (s.info fd).pollfd_offset
  s.set_slot offset { s.slot offset with events := events }

/-- The system call `close(fd)`, recorded in the trace. -/
def close (s : State) (fd : Nat) : State :=
  s.emit (Effect.closed fd)

/-! ## Buffer pool -/

/-- The function `getbuffer` (lines 133-140): the last idle vector, or a freshly
allocated empty one. -/
def getbuffer (s : State) : Nat × State :=
  match s.free_buffers.getLast? with
  | none => (s.buffers.length, { s with buffers := s.buffers ++ [[]] })
  | some b => (b, { s with free_buffers := s.free_buffers.dropLast })

/-- Some queue entry of some descriptor holds the vector `b`. -/
def queue_holds (s : State) (b : Nat) : Bool :=
  s.fdinfos.any (fun x => x.out_buffers.any (fun e => e.buffer == b))

/-- The test `buffer.unique()` made by a caller that holds one reference to `b`: no
queue entry and no slot of the idle pool holds another one. -/
def unique (s : State) (b : Nat) : Bool :=
  !(queue_holds s b) && !(s.free_buffers.contains b)

/-- The function `finished_with_buffer` (lines 142-146). -/
def finished_with_buffer (s : State) (b : Nat) : State :=
  if unique s b then { s with free_buffers := s.free_buffers ++ [b] } else s

/-! ## Input: one read and its fan-out -/

/-- Result of the `read` loop of `read_input_fd` once it leaves the loop: the bytes
stored (their number is `bread`, zero at end of stream), or a failure other than
an interrupted call. -/
inductive ReadResult where
  | bytes (data : List Nat)
  | error
deriving DecidableEq, Repr

/-- What the environment answers during one call of `read_input_fd`: the read, and
the descriptor that `open_named_input` obtains when the input is reopened
(`none` when `open` or the following `fcntl` fails). -/
structure InputEnv where
  read : ReadResult
  reopen : Option Nat := none
deriving DecidableEq, Repr

/-- Body of the loop at lines 208-232 for one descriptor `fd`; `b` is the shared
vector just read, `n` its size, and the second component is `pending_close_fds`.
`shrink_to_fit` changes the capacity of an older vector only and has no
counterpart here. -/
def fanout_fd (b n : Nat) (acc : State × List Nat) (fd : Nat) : State × List Nat :=
  let s := acc.1
  if (s.info fd).type = FDTYPE.CONN ∨ (s.info fd).type = FDTYPE.FIFO then
    if (s.info fd).buffered_data < s.max_queue then
      let s1 := s.set_info fd
        { s.info fd with out_buffers := (s.info fd).out_buffers ++ [{ buffer := b, offset := 0 }] }
      let s2 := s1.set_info fd
        { s1.info fd with buffered_data := ((s1.info fd).buffered_data + n) % SIZE_MOD }
      (setpollfdevents s2 fd (POLLOUT ||| POLLERR), acc.2)
    else if !(s.info fd).have_overflowed then
      let s1 := s.set_info fd { s.info fd with have_overflowed := true }
      if s1.no_overflow then
        (s1.emit (Effect.overflow fd (s1.info fd).name true), acc.2 ++ [fd])
      else
        (s1.emit (Effect.overflow fd (s1.info fd).name false), acc.2)
    else acc
  else acc

/-- The loop `for(int fd = 0; fd < (int) fdinfos.size(); fd++)` of lines 208-232. -/
def fanout_loop (s : State) (b n : Nat) : State × List Nat :=
  (List.range s.fdinfos.length).foldl (fanout_fd b n) (s, [])

/-- The loop over `pending_close_fds` at lines 236-239. -/
def close_pending (s : State) (fds : List Nat) : State :=
  fds.foldl (fun t fd => delpollfd (close t fd) fd) s

/-- The function `read_input_fd` (lines 170-243). The result is the returned
pointer (`none` for the empty pointer), the value of `continue_flag` afterwards
and the new state; `Except.error c` is `exit(c)`. -/
def read_input_fd (s : State) (fd : Nat) (continue_flag : Bool) (env : InputEnv) :
    Except Nat (Option Nat × Bool × State) :=
  let (b, s1) := getbuffer s
  let s2 : State := { s1 with buffers := s1.buffers.set b (vector_resize (s1.buffers.getD b []) 4096) }
  match env.read with
  | ReadResult.error => Except.error 1
  | ReadResult.bytes data =>
    if data.length = 0 then
      if s2.reopen_input ∧ fd = s2.input_fd then
        let s3 := delpollfd (close s2 fd) fd
        match env.reopen with
        | none => Except.error 1
        | some new_fd =>
          let s4 : State := { s3 with input_fd := new_fd }
          let s5 := addpollfd s4 s4.input_fd (POLLIN ||| POLLERR) FDTYPE.INPUT s4.input_name
          Except.ok (none, false, s5)
      else Except.error 0
    else
      -- `read` stored `bread` bytes at the front of the vector; `resize(bread)` keeps them
      let stored := data ++ (s2.buffers.getD b []).drop data.length
      let s3 : State := { s2 with buffers := s2.buffers.set b (vector_resize stored data.length) }
      let (s4, pending_close_fds) := fanout_loop s3 b (s3.buffers.getD b []).length
      if pending_close_fds.length ≠ 0 then
        Except.ok (some b, false, close_pending s4 pending_close_fds)
      else
        Except.ok (some b, continue_flag, s4)

/-- The `FDTYPE::INPUT` case of the reactor loop (lines 422-440). `mirror_ok` tells
whether the blocking copy to standard output succeeds (it is only consulted when
`use_stdout` is set); a failure there is `exit(1)`. -/
def dispatch_input (s : State) (fd : Nat) (continue_flag : Bool) (env : InputEnv)
    (mirror_ok : Bool) : Except Nat (State × Bool) :=
  match read_input_fd s fd continue_flag env with
  | Except.error c => Except.error c
  | Except.ok (none, cf, s1) => Except.ok (s1, cf)
  | Except.ok (some b, cf, s1) =>
    if s1.use_stdout then
      if mirror_ok then
        Except.ok (finished_with_buffer (s1.emit (Effect.stdout (s1.buffers.getD b []))) b, cf)
      else Except.error 1
    else
      Except.ok (finished_with_buffer s1 b, cf)

/-! ## Sinks: draining one queue entry -/

/-- Result of one `write` on a sink: the number of bytes taken (at most the
number offered), a would-block or interrupted call, or any other failure
(`epipe` tells whether it is the broken-peer one, which is not reported). -/
inductive WriteResult where
  | wrote (n : Nat)
  | again
  | failed (epipe : Bool)
deriving DecidableEq, Repr

/-- The loop `while(buffer_item.buffer->size() > buffer_item.offset)` of lines
467-488 together with the call of `finished_with_buffer` that follows it. `ws`
are the results of the successive `write` calls; the result is `none` when `ws`
ends while the loop is still running or when a `write` claims more bytes than
it was offered. -/
def write_loop (s : State) (fd : Nat) (continue_flag : Bool) (item : fd_out_buffer) :
    List WriteResult → Option (State × Bool)
  | [] =>
    if (s.buffers.getD item.buffer []).length > item.offset then none
    else some (finished_with_buffer s item.buffer, continue_flag)
  | w :: ws =>
    if (s.buffers.getD item.buffer []).length > item.offset then
      match w with
      | WriteResult.again =>
        some (s.set_info fd { s.info fd with out_buffers := item :: (s.info fd).out_buffers },
          continue_flag)
      | WriteResult.failed epipe =>
        let s1 := if epipe then s else s.emit (Effect.write_failed fd (s.info fd).name)
        let s2 := delpollfd (close s1 fd) fd
        some (finished_with_buffer s2 item.buffer, false)
      | WriteResult.wrote result =>
        if result > (s.buffers.getD item.buffer []).length - item.offset then none
        else
          let s1 := s.emit
            (Effect.wrote fd (((s.buffers.getD item.buffer []).drop item.offset).take result))
          let s2 := s1.set_info fd
            { s1.info fd with
              buffered_data := ((s1.info fd).buffered_data + SIZE_MOD - result) % SIZE_MOD }
          write_loop s2 fd continue_flag { item with offset := item.offset + result } ws
    else some (finished_with_buffer s item.buffer, continue_flag)

/-- The `FDTYPE::CONN` / `FDTYPE::FIFO` case of the reactor loop (lines 452-489) for
slot `i`, whose `revents` have been filled in by `poll`. -/
def dispatch_sink (s : State) (i : Nat) (continue_flag : Bool) (ws : List WriteResult) :
    Option (State × Bool) :=
  let fd := (s.slot i).fd
  if (s.slot i).revents &&& POLLOUT = 0 then
    some (delpollfd (close s fd) fd, false)
  else
    match (s.info fd).out_buffers with
    | [] => some (s.set_slot i { s.slot i with events := POLLERR }, continue_flag)
    | buffer_item :: rest =>
      write_loop (s.set_info fd { s.info fd with out_buffers := rest }) fd continue_flag
        buffer_item ws

/-- The effect of `poll` on slot `i`: its `revents` are overwritten. -/
def set_revents (s : State) (i revents : Nat) : State :=
  s.set_slot i { s.slot i with revents := revents }

/-! ## Transition system -/

/-- The steps considered: registration, deregistration, the input case with a read
of positive length, and the sink case. -/
inductive Event where
  | register (fd events : Nat) (type : FDTYPE) (name : String)
  | deregister (fd : Nat)
  | fanout (fd : Nat) (data : List Nat) (mirror_ok : Bool)
  | drain (i revents : Nat) (ws : List WriteResult)
deriving DecidableEq, Repr

/-- A descriptor is a registered sink. -/
def State.is_sink (s : State) (fd : Nat) : Prop :=
  (s.info fd).type = FDTYPE.CONN ∨ (s.info fd).type = FDTYPE.FIFO

instance (s : State) (fd : Nat) : Decidable (s.is_sink fd) := by
  unfold State.is_sink; infer_instance

/-- The sink `fd` is below its budget: the fan-out loop queues the buffer for it. -/
def State.accepts (s : State) (fd : Nat) : Prop :=
  s.is_sink fd ∧ (s.info fd).buffered_data < s.max_queue

instance (s : State) (fd : Nat) : Decidable (s.accepts fd) := by
  unfold State.accepts; infer_instance

/-- One step. `none` when the step is not one the program can take: a registration
with role `NONE` (no call site passes it), a read that is empty or longer than
the 4096 bytes asked for, a drain of a slot that does not exist, has no
readiness or is not owned by a sink, or a step during which the process exits. -/
def step (s : State) : Event → Option State
  | Event.register fd events type name =>
    if type = FDTYPE.NONE then none else some (addpollfd s fd events type name)
  | Event.deregister fd => some (delpollfd s fd)
  | Event.fanout fd data mirror_ok =>
    if data.length = 0 ∨ 4096 < data.length then none
    else
      match dispatch_input s fd true { read := ReadResult.bytes data } mirror_ok with
      | Except.ok (s1, _) => some s1
      | Except.error _ => none
  | Event.drain i revents ws =>
    if i < s.pollfds.length ∧ revents ≠ 0 ∧ s.is_sink (s.slot i).fd then
      (dispatch_sink (set_revents s i revents) i true ws).map Prod.fst
    else none

/-- A sequence of steps. -/
def run (s : State) : List Event → Option State
  | [] => some s
  | e :: es =>
    match step s e with
    | none => none
    | some s1 => run s1 es

/-- The state at startup for a given configuration: empty registry, empty pool. -/
def startup (max_queue : Nat) (no_overflow use_stdout : Bool) : State :=
  { max_queue := max_queue, no_overflow := no_overflow, use_stdout := use_stdout }

/-- A state at startup, whatever the options: nothing registered, nothing allocated,
nothing emitted, and a budget that is a `size_t`. -/
def is_startup (s : State) : Prop :=
  s.pollfds = [] ∧ s.fdinfos = [] ∧ s.free_buffers = [] ∧ s.buffers = [] ∧ s.trace = [] ∧
    s.max_queue < SIZE_MOD

instance (s : State) : Decidable (is_startup s) := by
  unfold is_startup; infer_instance

/-- A state the program reaches from startup by a sequence of steps. -/
def Reachable (s : State) : Prop :=
  ∃ (s0 : State) (es : List Event), is_startup s0 ∧ run s0 es = some s

/-! ## Observations -/

/-- The unsent remainders of the entries of a queue, in queue order. -/
def unsent (buffers : List (List Nat)) : List fd_out_buffer → List Nat
  | [] => []
  | e :: q => (buffers.getD e.buffer []).drop e.offset ++ unsent buffers q

/-- The bytes still queued for descriptor `k`. -/
def State.pending (s : State) (k : Nat) : List Nat :=
  unsent s.buffers (s.info k).out_buffers

/-- The bytes that a piece of trace shows as written to descriptor `k`. -/
def written (k : Nat) : List Effect → List Nat
  | [] => []
  | Effect.wrote f bytes :: t => (if f = k then bytes else []) ++ written k t
  | _ :: t => written k t

/-- The concatenation of the reads fanned out by a sequence of steps. -/
def reads : List Event → List Nat
  | [] => []
  | Event.fanout _ data _ :: es => data ++ reads es
  | _ :: es => reads es

/-- The step `e` taken in state `s` does not take the overflow branch for descriptor
`k`: if it is a fan-out, `k` is a sink below its budget. -/
def no_overflow_branch (k : Nat) (s : State) : Event → Bool
  | Event.fanout _ _ _ => decide (s.accepts k)
  | _ => true

/-- Along the run of `es` from `s`, descriptor `k` is a registered sink after every
step and no fan-out step takes the overflow branch for it. -/
def undisturbed (k : Nat) : State → List Event → Bool
  | _, [] => true
  | s, e :: es =>
    no_overflow_branch k s e &&
    (match step s e with
      | none => true
      | some s1 => decide (s1.is_sink k) && undisturbed k s1 es)

/-! ## Invariants -/

/-- Registry invariant: registered descriptors and poll slots are in bijection
through `pollfd_offset` and `pollfd.fd`. -/
def RegistryInv (s : State) : Prop :=
  (∀ fd, fd < s.fdinfos.length → (s.info fd).type ≠ FDTYPE.NONE →
    (s.info fd).pollfd_offset < s.pollfds.length ∧
      (s.slot (s.info fd).pollfd_offset).fd = fd) ∧
  (∀ i, i < s.pollfds.length →
    (s.info (s.slot i).fd).type ≠ FDTYPE.NONE ∧ (s.info (s.slot i).fd).pollfd_offset = i)

instance (s : State) : Decidable (RegistryInv s) := by
  unfold RegistryInv; infer_instance

/-- States reached from an empty registry by the three registry operations alone
(every call site of `addpollfd` passes a role other than `NONE`). -/
inductive RegReachable : State → Prop where
  | start (s : State) (hp : s.pollfds = []) (hf : s.fdinfos = []) : RegReachable s
  | add (s : State) (fd events : Nat) (type : FDTYPE) (name : String)
      (h : RegReachable s) (ht : type ≠ FDTYPE.NONE) :
      RegReachable (addpollfd s fd events type name)
  | del (s : State) (fd : Nat) (h : RegReachable s) : RegReachable (delpollfd s fd)
  | setevents (s : State) (fd events : Nat) (h : RegReachable s) :
      RegReachable (setpollfdevents s fd events)

/-- The wait interest of a registered descriptor: the `events` of its own slot. -/
def State.interest (s : State) (fd : Nat) : Nat :=
  (s.slot (s.info fd).pollfd_offset).events

/-- Pool invariant: the idle pool holds each vector at most once, every idle vector
is allocated and held by no queue entry, and every queue entry holds an
allocated vector. -/
def PoolInv (s : State) : Prop :=
  s.free_buffers.Nodup ∧
  (∀ b ∈ s.free_buffers, b < s.buffers.length ∧ queue_holds s b = false) ∧
  (∀ x ∈ s.fdinfos, ∀ e ∈ x.out_buffers, e.buffer < s.buffers.length)

instance (s : State) : Decidable (PoolInv s) := by
  unfold PoolInv; infer_instance

/-- What one iteration of the fan-out loop does to the table entry it visits. -/
def fanout_info (max_queue b n : Nat) (x : fdinfo) : fdinfo :=
  if x.type = FDTYPE.CONN ∨ x.type = FDTYPE.FIFO then
    if x.buffered_data < max_queue then
      { x with out_buffers := x.out_buffers ++ [{ buffer := b, offset := 0 }],
               buffered_data := (x.buffered_data + n) % SIZE_MOD }
    else { x with have_overflowed := true }
  else x

/-- The sink `fd` is at or above its budget and has not been reported yet: the
fan-out loop reports it. -/
def State.reports (s : State) (fd : Nat) : Prop :=
  s.is_sink fd ∧ ¬ (s.info fd).buffered_data < s.max_queue ∧ (s.info fd).have_overflowed = false

instance (s : State) (fd : Nat) : Decidable (s.reports fd) := by
  unfold State.reports; infer_instance

/-- Number of overflow diagnostics for descriptor `fd` in a piece of trace. -/
def overflow_count (fd : Nat) : List Effect → Nat
  | [] => 0
  | Effect.overflow f _ _ :: t => (if f = fd then 1 else 0) + overflow_count fd t
  | _ :: t => overflow_count fd t

/-- State in which the fan-out loop of `read_input_fd` starts after a read of
positive length: the vector acquired from the pool holds exactly the bytes read. -/
def load_buffer (s : State) (data : List Nat) : State :=
  { (getbuffer s).2 with buffers := (getbuffer s).2.buffers.set (getbuffer s).1 data }

/-- State that `read_input_fd` returns after a read of positive length: the fan-out
loop on the loaded vector, then the deferred closes. -/
def fanout_state (s : State) (data : List Nat) : State :=
  close_pending (fanout_loop (load_buffer s data) (getbuffer s).1 data.length).1
    (fanout_loop (load_buffer s data) (getbuffer s).1 data.length).2

/-- State after one successful `write` of `result` bytes inside the loop of lines
467-486: the bytes appear in the trace and `buffered_data` is reduced. -/
def after_write (s : State) (fd : Nat) (item : fd_out_buffer) (result : Nat) : State :=
  (s.emit (Effect.wrote fd (((s.buffers.getD item.buffer []).drop item.offset).take result))).set_info
    fd { s.info fd with buffered_data := ((s.info fd).buffered_data + SIZE_MOD - result) % SIZE_MOD }

/-- State after the input case of the reactor loop for a read of positive length:
the state returned by `read_input_fd`, the copy to standard output when it is
enabled, and the release of the vector. -/
def input_state (s : State) (data : List Nat) : State :=
  finished_with_buffer
    (if s.use_stdout then (fanout_state s data).emit (Effect.stdout data) else fanout_state s data)
    (getbuffer s).1

/-- Only sinks have queued entries. -/
def IdleInv (s : State) : Prop :=
  ∀ fd, fd < s.fdinfos.length → ¬ s.is_sink fd → (s.info fd).out_buffers = []

instance (s : State) : Decidable (IdleInv s) := by
  unfold IdleInv; infer_instance

/-- A piece of trace that shows no `write` on any sink. -/
def silent (t : List Effect) : Prop :=
  ∀ k, written k t = []

/-! ## Example states -/

/-- A registry with the input in slot 0, a listener in slot 1 and one accepted
connection in slot 2 that waits for writability. -/
def registry_example : State :=
  setpollfdevents (addpollfd (addpollfd (addpollfd {} 0 9 FDTYPE.INPUT "STDIN") 3 9
    FDTYPE.LISTENER "sock") 4 8 FDTYPE.CONN "sock") 4 12

/-- Two sinks on descriptors 4 (below its budget) and 5 (at its budget of 16 bytes,
not yet reported), behind the input on descriptor 0; vector 0 is queued for
both. -/
def fanout_example : State :=
  { max_queue := 16, use_stdout := false,
    pollfds := [{ fd := 0, events := 9 }, { fd := 4, events := 12 }, { fd := 5, events := 12 }],
    fdinfos := [{ type := FDTYPE.INPUT, pollfd_offset := 0, name := "STDIN" }, {}, {}, {},
      { type := FDTYPE.CONN, pollfd_offset := 1, name := "sock",
        out_buffers := [{ buffer := 0, offset := 14 }], buffered_data := 2 },
      { type := FDTYPE.FIFO, pollfd_offset := 2, name := "pipe",
        out_buffers := [{ buffer := 0, offset := 0 }], buffered_data := 16 }],
    buffers := [[1, 2, 3, 4, 5, 6, 7, 8, 9, 10, 11, 12, 13, 14, 15, 16]] }

/-- The state after startup with the default options and the registration of the
standard input. -/
def input_registered : State :=
  addpollfd (startup 65536 false false) 0 (POLLIN ||| POLLERR) FDTYPE.INPUT "STDIN"

/-- A run after the registration of a sink on descriptor 5: two reads, with a short
write followed by a would-block in between, then full writes. -/
def ordering_run : List Event :=
  [Event.fanout 0 [1, 2, 3, 4, 5] true,
   Event.drain 1 POLLOUT [WriteResult.wrote 2, WriteResult.again],
   Event.fanout 0 [6, 7] true,
   Event.drain 1 POLLOUT [WriteResult.wrote 3],
   Event.drain 1 POLLOUT [WriteResult.wrote 1, WriteResult.again]]

/-- The end-to-end scenario: a budget of 16 bytes, mirroring disabled, the input on
descriptor 0 and one sink, a FIFO on descriptor 3, with an empty queue. -/
def overflow_scenario : State :=
  addpollfd (addpollfd (startup 16 false false) 0 (POLLIN ||| POLLERR) FDTYPE.INPUT "STDIN")
    3 POLLERR FDTYPE.FIFO "pipe"

/-- Ten bytes. -/
def chunk (x : Nat) : List Nat := List.replicate 10 x

/-- The sum over the entries of the queue of `fd` of buffer length minus offset. -/
def State.queued_bytes (s : State) (fd : Nat) : Nat :=
  ((s.info fd).out_buffers.map
    (fun e => (s.buffers.getD e.buffer []).length - e.offset)).sum

/-- A connection is accepted on descriptor 4, ten bytes are read, the peer goes away
(the sink is removed while its entry is still queued) and the next connection
is accepted on the same descriptor number. -/
def reconnect_run : List Event :=
  [Event.register 0 (POLLIN ||| POLLERR) FDTYPE.INPUT "STDIN",
   Event.register 3 (POLLIN ||| POLLERR) FDTYPE.LISTENER "sock",
   Event.register 4 POLLERR FDTYPE.CONN "sock",
   Event.fanout 0 (chunk 7) true,
   Event.deregister 4,
   Event.register 4 POLLERR FDTYPE.CONN "sock"]

/-- A connection on descriptor 4 is sent ten bytes and then reports an error
condition (readiness without `POLLOUT`), so that the sink case closes it. -/
def hangup_run : List Event :=
  [Event.register 0 (POLLIN ||| POLLERR) FDTYPE.INPUT "STDIN",
   Event.register 3 (POLLIN ||| POLLERR) FDTYPE.LISTENER "sock",
   Event.register 4 POLLERR FDTYPE.CONN "sock",
   Event.fanout 0 (chunk 7) true,
   Event.drain 2 POLLERR []]

/-- Under the no-overflow policy with a budget of 16 bytes: a connection on
descriptor 4 is sent 20 bytes, overflows on the next read and is closed; the next
connection is accepted on the same descriptor number. -/
def overflow_reconnect_run : List Event :=
  [Event.register 0 (POLLIN ||| POLLERR) FDTYPE.INPUT "STDIN",
   Event.register 3 (POLLIN ||| POLLERR) FDTYPE.LISTENER "sock",
   Event.register 4 POLLERR FDTYPE.CONN "sock",
   Event.fanout 0 (chunk 1 ++ chunk 2) true,
   Event.fanout 0 (chunk 3) true,
   Event.register 4 POLLERR FDTYPE.CONN "sock"]

/-! ## The reactor loop -/

/-- What the environment answers during the dispatch of one slot: the read and the
reopen for the input case, whether the copy to standard output succeeds, the
descriptor returned by `accept` (`none` when `accept` or the following `fcntl`
fails) and the results of the `write` calls for the sink case. -/
structure DispatchEnv where
  input : InputEnv := { read := ReadResult.error }
  mirror_ok : Bool := true
  accepted : Option Nat := none
  writes : List WriteResult := []
deriving DecidableEq, Repr

/-- How the body of the pass loop ends for one slot: the loop goes on with a new
state and `continue_flag`, the process exits, or the answers of the environment
are not ones it can give (a read longer than asked for, a `write` that takes
more than offered, or too few `write` results). -/
inductive Outcome where
  | next (s : State) (continue_flag : Bool)
  | exit (code : Nat)
  | stuck
deriving DecidableEq, Repr

/-- A read of at most the 4096 bytes asked for. -/
def read_valid : ReadResult → Bool
  | ReadResult.bytes data => decide (data.length ≤ 4096)
  | ReadResult.error => true

/-- The `FDTYPE::LISTENER` case of the reactor loop (lines 441-451). -/
def dispatch_listener (s : State) (fd : Nat) (continue_flag : Bool) (accepted : Option Nat) :
    Except Nat (State × Bool) :=
  match accepted with
  | none => Except.error 1
  | some newsock =>
    Except.ok (addpollfd s newsock POLLERR FDTYPE.CONN (s.info fd).name, continue_flag)

/-- The body of the pass loop for slot `i` (lines 417-490). -/
def dispatch (s : State) (i : Nat) (continue_flag : Bool) (env : DispatchEnv) : Outcome :=
  if (s.slot i).revents = 0 then Outcome.next s continue_flag
  else
    match (s.info (s.slot i).fd).type with
    | FDTYPE.NONE => Outcome.exit 2
    | FDTYPE.INPUT =>
      if read_valid env.input.read then
        match dispatch_input s (s.slot i).fd continue_flag env.input env.mirror_ok with
        | Except.error c => Outcome.exit c
        | Except.ok (s1, cf) => Outcome.next s1 cf
      else Outcome.stuck
    | FDTYPE.LISTENER =>
      match dispatch_listener s (s.slot i).fd continue_flag env.accepted with
      | Except.error c => Outcome.exit c
      | Except.ok (s1, cf) => Outcome.next s1 cf
    | _ =>
      match dispatch_sink s i continue_flag env.writes with
      | none => Outcome.stuck
      | some (s1, cf) => Outcome.next s1 cf

/-- The loop `for(size_t i = 0; i < pollfds.size() && continue_flag; i++)` of lines
416-491, from index `i` on, with one answer of the environment per iteration. -/
def pass_loop (s : State) (i : Nat) (continue_flag : Bool) : List DispatchEnv → Outcome
  | [] =>
    if i < s.pollfds.length ∧ continue_flag = true then Outcome.stuck
    else Outcome.next s continue_flag
  | env :: envs =>
    if i < s.pollfds.length ∧ continue_flag = true then
      match dispatch s i continue_flag env with
      | Outcome.next s1 cf => pass_loop s1 (i + 1) cf envs
      | Outcome.exit c => Outcome.exit c
      | Outcome.stuck => Outcome.stuck
    else Outcome.next s continue_flag

/-- The slot array after `poll`: every `revents` is overwritten by the kernel. -/
def fill_revents : List pollfd → List Nat → List pollfd
  | [], _ => []
  | p :: ps, [] => { p with revents := 0 } :: fill_revents ps []
  | p :: ps, r :: rs => { p with revents := r } :: fill_revents ps rs

/-- A successful call of `poll` (line 408). -/
def poll (s : State) (revents : List Nat) : State :=
  { s with pollfds := fill_revents s.pollfds revents }

/-- One iteration of the loop of `main` (lines 407-492) in which `poll` succeeds. -/
def main_iteration (s : State) (revents : List Nat) (envs : List DispatchEnv) : Outcome :=
  pass_loop (poll s revents) 0 true envs

/-- What the program does between two states: one of the steps of `step`, a call of
`poll`, or the body of the pass loop for one slot. -/
inductive Action where
  | step (e : Event)
  | poll (revents : List Nat)
  | dispatch (i : Nat) (env : DispatchEnv)
deriving DecidableEq, Repr

/-- One action; `none` when the action is not one the program can complete. -/
def act (s : State) : Action → Option State
  | Action.step e => step s e
  | Action.poll revents => some (poll s revents)
  | Action.dispatch i env =>
    if i < s.pollfds.length then
      match dispatch s i true env with
      | Outcome.next s1 _ => some s1
      | _ => none
    else none

/-- A sequence of actions. -/
def run_actions (s : State) : List Action → Option State
  | [] => some s
  | a :: as =>
    match act s a with
    | none => none
    | some s1 => run_actions s1 as

/-- A state the program reaches from startup by registrations, steps, polls and
dispatches in any order. -/
def ProgReachable (s : State) : Prop :=
  ∃ (s0 : State) (as : List Action), is_startup s0 ∧ run_actions s0 as = some s

/-- The actions of `main` after the registration of the input: registration of a
FIFO or of a listener (lines 366 and 403), `poll`, and the body of the pass
loop. -/
def main_action : Action → Bool
  | Action.step (Event.register _ _ type _) =>
    decide (type = FDTYPE.FIFO ∨ type = FDTYPE.LISTENER)
  | Action.step _ => false
  | Action.poll _ => true
  | Action.dispatch _ _ => true

/-- A state that `main` reaches: the input is registered first (line 353), then come
the registrations of the sinks named on the command line, and the reactor
loop. -/
def MainReachable (s : State) : Prop :=
  ∃ (s0 : State) (as : List Action), is_startup s0 ∧ as.all main_action = true ∧
    run_actions (addpollfd s0 s0.input_fd (POLLIN ||| POLLERR) FDTYPE.INPUT s0.input_name) as =
      some s

/-- State of `read_input_fd` after lines 171-172: a vector has been acquired from the
pool and resized to 4096 bytes. -/
def acquire_buffer (s : State) : State :=
  { (getbuffer s).2 with
    buffers := (getbuffer s).2.buffers.set (getbuffer s).1
      (vector_resize ((getbuffer s).2.buffers.getD (getbuffer s).1 []) 4096) }

/-- State that `read_input_fd` returns when the read is empty and the input is
reopened on descriptor `new_fd` (lines 190-197). -/
def reopen_state (s : State) (fd new_fd : Nat) : State :=
  addpollfd { delpollfd (close (acquire_buffer s) fd) fd with input_fd := new_fd } new_fd
    (POLLIN ||| POLLERR) FDTYPE.INPUT s.input_name

/-- Number of `close` calls in a piece of trace. -/
def closes : List Effect → Nat
  | [] => 0
  | Effect.closed _ :: t => 1 + closes t
  | _ :: t => closes t

/-- The vector `b` is held by some queue in the state in which each action of the run
is taken. -/
def held_throughout (b : Nat) : State → List Action → Bool
  | _, [] => true
  | s, a :: as =>
    queue_holds s b &&
      match act s a with
      | none => true
      | some s1 => held_throughout b s1 as

/-! ## Further invariants -/

/-- Queue-entry invariant: every queued entry has unsent bytes. -/
def EntryInv (s : State) : Prop :=
  ∀ x ∈ s.fdinfos, ∀ e ∈ x.out_buffers, e.offset < (s.buffers.getD e.buffer []).length

instance (s : State) : Decidable (EntryInv s) := by
  unfold EntryInv; infer_instance

/-- A sink with queued entries waits for writability. -/
def WakeInv (s : State) : Prop :=
  ∀ fd, fd < s.fdinfos.length → s.is_sink fd → (s.info fd).out_buffers ≠ [] →
    s.interest fd &&& POLLOUT ≠ 0

instance (s : State) : Decidable (WakeInv s) := by
  unfold WakeInv; infer_instance

/-- Every counter is at least the number of bytes queued and at most the budget plus
one read less one byte. -/
def BudgetInv (s : State) : Prop :=
  ∀ fd, fd < s.fdinfos.length →
    s.queued_bytes fd ≤ (s.info fd).buffered_data ∧
      (s.info fd).buffered_data ≤ s.max_queue + 4095

instance (s : State) : Decidable (BudgetInv s) := by
  unfold BudgetInv; infer_instance

/-- Every descriptor of role `INPUT` is the current input descriptor. -/
def SingleInput (s : State) : Prop :=
  ∀ fd, fd < s.fdinfos.length → (s.info fd).type = FDTYPE.INPUT → fd = s.input_fd

instance (s : State) : Decidable (SingleInput s) := by
  unfold SingleInput; infer_instance

/-- The number of unsent bytes of the entries of a queue. -/
def unsent_count (buffers : List (List Nat)) (q : List fd_out_buffer) : Nat :=
  (q.map (fun e => (buffers.getD e.buffer []).length - e.offset)).sum

/-- All the invariants of the registry, the pool and the queues together; the bound on
the counters is only claimed when the budget plus one read fits a `size_t`. -/
def Sound (s : State) : Prop :=
  RegistryInv s ∧ PoolInv s ∧ IdleInv s ∧ EntryInv s ∧ WakeInv s ∧
    (s.max_queue + 4095 < SIZE_MOD → BudgetInv s)

instance (s : State) : Decidable (Sound s) := by
  unfold Sound; infer_instance

/-! ## Options -/

/-- The statement `max_queue <<= k` on a `size_t`. -/
def shift_left_size (x k : Nat) : Nat :=
  (x <<< k) % SIZE_MOD

/-- The case `'m'` of the option loop (lines 277-289). `value` is what
`strtoul(optarg, &end, 0)` returns and `rest` is the string at `end` (`none`
for a null pointer). The result is the new `max_queue` and whether the line
"Invalid max queue length" is written. -/
def option_max_queue (value : Nat) (rest : Option String) : Nat × Bool :=
  let max_queue := value % SIZE_MOD
  match rest with
  | none => (max_queue, false)
  | some e =>
    if e = "" then (max_queue, false)
    else if e = "k" then (shift_left_size max_queue 10, false)
    else if e = "M" then (shift_left_size max_queue 20, false)
    else if e = "G" then (shift_left_size max_queue 30, false)
    else (max_queue, true)

/-! ## Example runs of the reactor loop -/

/-- A configuration with a budget of 16 bytes whose input, on descriptor 3, is reopened
when it is exhausted. -/
def serving_start : State :=
  { max_queue := 16, reopen_input := true, input_fd := 3, input_name := "in" }

/-- A listener is registered on descriptor 5, a connection is accepted on descriptor
6, ten bytes are read and fanned out, and four of them are written before the
sink would block. -/
def serving_run : List Action :=
  [Action.step (Event.register 5 (POLLIN ||| POLLERR) FDTYPE.LISTENER "sock"),
   Action.poll [0, POLLIN],
   Action.dispatch 1 { accepted := some 6 },
   Action.poll [POLLIN, 0, 0],
   Action.dispatch 0 { input := { read := ReadResult.bytes (chunk 7) } },
   Action.poll [0, 0, POLLOUT],
   Action.dispatch 2 { writes := [WriteResult.wrote 4, WriteResult.again] }]

/-- The state after `serving_run`, started with the input registered. -/
def serving_state : State :=
  (run_actions (addpollfd serving_start 3 (POLLIN ||| POLLERR) FDTYPE.INPUT "in")
    serving_run).getD serving_start

/-- A second read of ten bytes is fanned out while the first vector is still queued,
then two more bytes of the first vector are written. -/
def second_read_run : List Action :=
  [Action.poll [POLLIN, 0, 0],
   Action.dispatch 0 { input := { read := ReadResult.bytes (chunk 8) } },
   Action.poll [0, 0, POLLOUT],
   Action.dispatch 2 { writes := [WriteResult.wrote 2, WriteResult.again] }]

/-- The example state after a `poll` that reports an error condition, without
writability, on the sink in slot 2. -/
def hangup_poll : State :=
  poll serving_state [0, 0, POLLERR]

/-! # Theorems -/

/-! ## Basic facts about the table accessors -/

theorem info_lt_of_type (s : State) (fd : Nat) (h : (s.info fd).type ≠ FDTYPE.NONE) :
    fd < s.fdinfos.length := by
  by_contra hlt
  apply h
  simp only [State.info]
  rw [List.getD_eq_default _ _ (by omega)]
  rfl

theorem info_set_info (s : State) (fd fd' : Nat) (x : fdinfo) :
    (s.set_info fd x).info fd' =
      if fd = fd' ∧ fd < s.fdinfos.length then x else s.info fd' := by
  simp only [State.info, State.set_info, List.getD_eq_getElem?_getD, List.getElem?_set]
  by_cases h : fd = fd'
  · subst h
    by_cases h2 : fd < s.fdinfos.length
    · simp [h2]
    · simp [h2, List.getElem?_eq_none (Nat.le_of_not_lt h2)]
  · simp [h]

theorem info_set_info_self (s : State) (fd : Nat) (x : fdinfo) (h : fd < s.fdinfos.length) :
    (s.set_info fd x).info fd = x := by
  simp [info_set_info, h]

theorem info_set_info_ne (s : State) (fd fd' : Nat) (x : fdinfo) (h : fd ≠ fd') :
    (s.set_info fd x).info fd' = s.info fd' := by
  simp [info_set_info, h]

theorem slot_set_slot (s : State) (i j : Nat) (p : pollfd) :
    (s.set_slot i p).slot j =
      if i = j ∧ i < s.pollfds.length then p else s.slot j := by
  simp only [State.slot, State.set_slot, List.getD_eq_getElem?_getD, List.getElem?_set]
  by_cases h : i = j
  · subst h
    by_cases h2 : i < s.pollfds.length
    · simp [h2]
    · simp [h2, List.getElem?_eq_none (Nat.le_of_not_lt h2)]
  · simp [h]

@[simp] theorem set_info_pollfds (s : State) (fd : Nat) (x : fdinfo) :
    (s.set_info fd x).pollfds = s.pollfds := rfl

@[simp] theorem set_info_length (s : State) (fd : Nat) (x : fdinfo) :
    (s.set_info fd x).fdinfos.length = s.fdinfos.length := by
  simp [State.set_info]

@[simp] theorem set_slot_fdinfos (s : State) (i : Nat) (p : pollfd) :
    (s.set_slot i p).fdinfos = s.fdinfos := rfl

@[simp] theorem set_slot_info (s : State) (i fd : Nat) (p : pollfd) :
    (s.set_slot i p).info fd = s.info fd := rfl

@[simp] theorem set_slot_length (s : State) (i : Nat) (p : pollfd) :
    (s.set_slot i p).pollfds.length = s.pollfds.length := by
  simp [State.set_slot]

@[simp] theorem set_info_slot (s : State) (fd i : Nat) (x : fdinfo) :
    (s.set_info fd x).slot i = s.slot i := rfl

@[simp] theorem emit_info (s : State) (e : Effect) (fd : Nat) :
    (s.emit e).info fd = s.info fd := rfl

@[simp] theorem emit_slot (s : State) (e : Effect) (i : Nat) :
    (s.emit e).slot i = s.slot i := rfl

@[simp] theorem emit_pollfds (s : State) (e : Effect) : (s.emit e).pollfds = s.pollfds := rfl

@[simp] theorem emit_fdinfos (s : State) (e : Effect) : (s.emit e).fdinfos = s.fdinfos := rfl

theorem info_resize (l : List fdinfo) (n fd : Nat) (h : l.length ≤ n) :
    (resize_fdinfos l n).getD fd default = l.getD fd default := by
  simp only [resize_fdinfos, List.getD_eq_getElem?_getD, List.take_of_length_le h,
    List.getElem?_append, List.getElem?_replicate]
  by_cases h1 : fd < l.length
  · simp [h1]
  · simp only [h1, if_false]
    rw [List.getElem?_eq_none (Nat.le_of_not_lt h1)]
    split <;> rfl

theorem length_resize (l : List fdinfo) (n : Nat) (h : l.length ≤ n) :
    (resize_fdinfos l n).length = n := by
  simp [resize_fdinfos, List.take_of_length_le h]
  omega

/-! ## `addpollfd` -/

theorem grow_info (s : State) (fd fd' : Nat) : (grow s fd).info fd' = s.info fd' := by
  unfold grow
  split
  · rename_i h
    exact info_resize _ _ _ (by omega)
  · rfl

theorem grow_lt (s : State) (fd : Nat) : fd < (grow s fd).fdinfos.length := by
  unfold grow
  split
  · rename_i h
    simp only
    rw [length_resize _ _ (by omega)]
    omega
  · omega

theorem grow_length_le (s : State) (fd : Nat) :
    s.fdinfos.length ≤ (grow s fd).fdinfos.length := by
  unfold grow
  split
  · rename_i h
    simp only
    rw [length_resize _ _ (by omega)]
    omega
  · omega

@[simp] theorem grow_pollfds (s : State) (fd : Nat) : (grow s fd).pollfds = s.pollfds := by
  unfold grow; split <;> rfl

theorem grow_of_registered (s : State) (fd : Nat) (h : (s.info fd).type ≠ FDTYPE.NONE) :
    grow s fd = s := by
  have := info_lt_of_type s fd h
  unfold grow
  rw [if_neg (by omega)]

theorem addpollfd_dup (s : State) (fd events : Nat) (type : FDTYPE) (name : String)
    (h : (s.info fd).type ≠ FDTYPE.NONE) :
    addpollfd s fd events type name = s.emit (Effect.duplicate_add fd) := by
  have hg := grow_of_registered s fd h
  simp only [addpollfd, hg]
  rw [if_pos h]

theorem addpollfd_new (s : State) (fd events : Nat) (type : FDTYPE) (name : String)
    (h : (s.info fd).type = FDTYPE.NONE) :
    addpollfd s fd events type name =
      { (grow s fd).set_info fd
          { s.info fd with type := type, pollfd_offset := s.pollfds.length, name := name } with
        pollfds := s.pollfds ++ [{ fd := fd, events := events, revents := 0 }] } := by
  simp only [addpollfd, grow_info, h, ne_eq, not_true_eq_false, if_false, grow_pollfds,
    set_info_pollfds]

theorem addpollfd_new_info (s : State) (fd events : Nat) (type : FDTYPE) (name : String)
    (h : (s.info fd).type = FDTYPE.NONE) (fd' : Nat) :
    (addpollfd s fd events type name).info fd' =
      if fd' = fd then
        { s.info fd with type := type, pollfd_offset := s.pollfds.length, name := name }
      else s.info fd' := by
  rw [addpollfd_new s fd events type name h]
  have : ∀ (t : State) (l : List pollfd), ({ t with pollfds := l } : State).info fd' = t.info fd' :=
    fun _ _ => rfl
  rw [this, info_set_info]
  by_cases hfd : fd' = fd
  · subst hfd
    simp [grow_lt]
  · have : ¬ fd = fd' := fun h => hfd h.symm
    simp [hfd, this, grow_info]

theorem addpollfd_new_pollfds (s : State) (fd events : Nat) (type : FDTYPE) (name : String)
    (h : (s.info fd).type = FDTYPE.NONE) :
    (addpollfd s fd events type name).pollfds =
      s.pollfds ++ [{ fd := fd, events := events, revents := 0 }] := by
  rw [addpollfd_new s fd events type name h]

theorem slot_append_lt (l : List pollfd) (p : pollfd) (i : Nat) (h : i < l.length) :
    (l ++ [p]).getD i default = l.getD i default :=
  List.getD_append _ _ _ _ h

theorem slot_append_eq (l : List pollfd) (p : pollfd) :
    (l ++ [p]).getD l.length default = p := by
  rw [List.getD_append_right _ _ _ _ (Nat.le_refl _)]
  simp

theorem addpollfd_registryInv (s : State) (fd events : Nat) (type : FDTYPE) (name : String)
    (hinv : RegistryInv s) (ht : type ≠ FDTYPE.NONE) :
    RegistryInv (addpollfd s fd events type name) := by
  by_cases h : (s.info fd).type = FDTYPE.NONE
  · have hp := addpollfd_new_pollfds s fd events type name h
    have hi := addpollfd_new_info s fd events type name h
    obtain ⟨h1, h2⟩ := hinv
    refine ⟨?_, ?_⟩
    · intro fd' _ hty
      rw [hi] at hty ⊢
      simp only [State.slot, hp, List.length_append, List.length_singleton]
      by_cases hfd : fd' = fd
      · subst hfd
        simp only [if_true]
        exact ⟨by omega, by rw [slot_append_eq]⟩
      · simp only [hfd, if_false] at hty ⊢
        obtain ⟨ha, hb⟩ := h1 fd' (info_lt_of_type s fd' hty) hty
        refine ⟨by omega, ?_⟩
        rw [slot_append_lt _ _ _ ha]
        exact hb
    · intro i hi'
      simp only [hp, List.length_append, List.length_singleton] at hi'
      simp only [State.slot, hp]
      by_cases hlt : i < s.pollfds.length
      · rw [slot_append_lt _ _ _ hlt]
        obtain ⟨ha, hb⟩ := h2 i hlt
        have hne : (s.slot i).fd ≠ fd := by
          intro heq
          rw [heq] at ha
          exact ha h
        simp only [State.slot] at hne ha hb
        rw [hi]
        simp only [hne, if_false]
        exact ⟨ha, hb⟩
      · have : i = s.pollfds.length := by omega
        subst this
        rw [slot_append_eq, hi]
        simp only [if_true]
        exact ⟨ht, trivial⟩
  · rw [addpollfd_dup s fd events type name h]
    exact hinv

/-! ## `delpollfd` -/

theorem getLastD_eq_slot (s : State) : s.pollfds.getLastD default = s.slot (s.pollfds.length - 1) := by
  simp [State.slot, List.getLastD_eq_getLast?, List.getLast?_eq_getElem?,
    List.getD_eq_getElem?_getD]

theorem delpollfd_missing (s : State) (fd : Nat) (h : (s.info fd).type = FDTYPE.NONE) :
    delpollfd s fd = s.emit (Effect.remove_missing fd) := by
  unfold delpollfd
  rw [if_pos (Or.inr h)]

theorem slot_dropLast (t : State) (l : List pollfd) (i : Nat) :
    ({ t with pollfds := l.dropLast } : State).slot i =
      if i < l.length - 1 then l.getD i default else default := by
  simp only [State.slot, List.getD_eq_getElem?_getD, List.getElem?_dropLast]
  split <;> rfl

/-- Closed form of `delpollfd` on a registered descriptor: the table entries. -/
theorem delpollfd_info (s : State) (fd : Nat) (hinv : RegistryInv s)
    (hreg : (s.info fd).type ≠ FDTYPE.NONE) (fd' : Nat) :
    (delpollfd s fd).info fd' =
      if fd' = fd then { s.info fd with type := FDTYPE.NONE, out_buffers := [] }
      else if fd' = (s.slot (s.pollfds.length - 1)).fd then
        { s.info fd' with pollfd_offset := (s.info fd).pollfd_offset }
      else s.info fd' := by
  have hlt := info_lt_of_type s fd hreg
  obtain ⟨hoff, hslot⟩ := hinv.1 fd hlt hreg
  obtain ⟨hlast_ty, hlast_off⟩ := hinv.2 (s.pollfds.length - 1) (by omega)
  have hlast_lt := info_lt_of_type s _ hlast_ty
  unfold delpollfd fill_slot
  rw [if_neg (by intro h; rcases h with h | h; omega; exact hreg h)]
  by_cases hcase : (s.info fd).pollfd_offset < s.pollfds.length - 1
  · have hne : (s.slot (s.pollfds.length - 1)).fd ≠ fd := by
      intro heq
      rw [heq] at hlast_off
      omega
    simp only [hcase, if_true, getLastD_eq_slot, slot_set_slot, hoff, and_self, set_slot_info]
    by_cases h1 : fd' = fd
    · subst h1
      simp [State.info, State.set_info, State.set_slot, fdinfo.clear, hlt, hne,
        List.getD_eq_getElem?_getD, List.getElem?_set]
    · have h1' : ¬ fd = fd' := fun h => h1 h.symm
      by_cases h2 : fd' = (s.slot (s.pollfds.length - 1)).fd
      · simp only [State.info] at hlast_lt ⊢
        simp [State.info, State.set_info, State.set_slot, fdinfo.clear, hlt, h1, h1', ← h2,
          List.getD_eq_getElem?_getD, List.getElem?_set]
        simp [← h2] at hlast_lt
        simp [hlast_lt]
      · have h2' : ¬ (s.slot (s.pollfds.length - 1)).fd = fd' := fun h => h2 h.symm
        simp [State.info, State.set_info, State.set_slot, fdinfo.clear, h1, h1', h2, h2',
          List.getD_eq_getElem?_getD, List.getElem?_set]
  · have hoff_eq : (s.info fd).pollfd_offset = s.pollfds.length - 1 := by omega
    have heq : (s.slot (s.pollfds.length - 1)).fd = fd := by rw [← hoff_eq]; exact hslot
    simp only [hcase, if_false, heq]
    by_cases h1 : fd' = fd
    · subst h1
      simp [State.info, State.set_info, fdinfo.clear, hlt,
        List.getD_eq_getElem?_getD, List.getElem?_set]
    · have h1' : ¬ fd = fd' := fun h => h1 h.symm
      simp [State.info, State.set_info, fdinfo.clear, h1, h1',
        List.getD_eq_getElem?_getD, List.getElem?_set]

/-- Closed form of `delpollfd` on a registered descriptor: the slot array. -/
theorem delpollfd_pollfds (s : State) (fd : Nat) (hinv : RegistryInv s)
    (hreg : (s.info fd).type ≠ FDTYPE.NONE) :
    (delpollfd s fd).pollfds =
      (s.pollfds.set (s.info fd).pollfd_offset (s.slot (s.pollfds.length - 1))).dropLast := by
  have hlt := info_lt_of_type s fd hreg
  obtain ⟨hoff, hslot⟩ := hinv.1 fd hlt hreg
  unfold delpollfd fill_slot
  rw [if_neg (by intro h; rcases h with h | h; omega; exact hreg h)]
  by_cases hcase : (s.info fd).pollfd_offset < s.pollfds.length - 1
  · simp only [hcase, if_true, getLastD_eq_slot, State.set_info, State.set_slot]
  · have hoff_eq : (s.info fd).pollfd_offset = s.pollfds.length - 1 := by omega
    simp only [hcase, if_false, State.set_info, hoff_eq]
    congr 1
    apply List.ext_getElem?
    intro i
    simp only [List.getElem?_set, State.slot, List.getD_eq_getElem?_getD]
    by_cases hi : s.pollfds.length - 1 = i
    · subst hi
      have : s.pollfds.length - 1 < s.pollfds.length := by omega
      simp [this]
    · simp [hi]

theorem delpollfd_length (s : State) (fd : Nat) (hinv : RegistryInv s)
    (hreg : (s.info fd).type ≠ FDTYPE.NONE) :
    (delpollfd s fd).pollfds.length = s.pollfds.length - 1 := by
  rw [delpollfd_pollfds s fd hinv hreg]
  simp

theorem delpollfd_slot (s : State) (fd : Nat) (hinv : RegistryInv s)
    (hreg : (s.info fd).type ≠ FDTYPE.NONE) (i : Nat) :
    (delpollfd s fd).slot i =
      if i < s.pollfds.length - 1 then
        (if i = (s.info fd).pollfd_offset then s.slot (s.pollfds.length - 1) else s.slot i)
      else default := by
  have hlt := info_lt_of_type s fd hreg
  obtain ⟨hoff, hslot⟩ := hinv.1 fd hlt hreg
  simp only [State.slot, delpollfd_pollfds s fd hinv hreg, List.getD_eq_getElem?_getD,
    List.getElem?_dropLast, List.length_set, List.getElem?_set]
  by_cases hi : i < s.pollfds.length - 1
  · simp only [hi, if_true]
    by_cases h2 : i = (s.info fd).pollfd_offset
    · subst h2
      simp [hoff]
    · have h2' : ¬ (s.info fd).pollfd_offset = i := fun h => h2 h.symm
      simp [h2, h2']
  · simp [hi]

theorem delpollfd_frame (s : State) (fd : Nat) :
    (delpollfd s fd).buffers = s.buffers ∧ (delpollfd s fd).free_buffers = s.free_buffers ∧
    (delpollfd s fd).max_queue = s.max_queue ∧ (delpollfd s fd).no_overflow = s.no_overflow ∧
    (delpollfd s fd).use_stdout = s.use_stdout ∧ (delpollfd s fd).input_fd = s.input_fd ∧
    (delpollfd s fd).reopen_input = s.reopen_input ∧
    (delpollfd s fd).input_name = s.input_name := by
  unfold delpollfd fill_slot
  simp only []
  split_ifs <;> simp [State.set_info, State.set_slot, State.emit]

theorem delpollfd_fdinfos_length (s : State) (fd : Nat) :
    (delpollfd s fd).fdinfos.length = s.fdinfos.length := by
  unfold delpollfd fill_slot
  simp only []
  split_ifs <;> simp [State.set_info, State.set_slot, State.emit]

theorem delpollfd_trace (s : State) (fd : Nat) (hreg : (s.info fd).type ≠ FDTYPE.NONE) :
    (delpollfd s fd).trace = s.trace := by
  have hlt := info_lt_of_type s fd hreg
  unfold delpollfd fill_slot
  rw [if_neg (by intro h; rcases h with h | h; omega; exact hreg h)]
  simp only []
  split_ifs <;> simp [State.set_info, State.set_slot]

theorem delpollfd_registryInv (s : State) (fd : Nat) (hinv : RegistryInv s) :
    RegistryInv (delpollfd s fd) := by
  by_cases hreg : (s.info fd).type = FDTYPE.NONE
  · rw [delpollfd_missing s fd hreg]
    exact hinv
  · have hlt := info_lt_of_type s fd hreg
    obtain ⟨hoff, hslot⟩ := hinv.1 fd hlt hreg
    obtain ⟨hlast_ty, hlast_off⟩ := hinv.2 (s.pollfds.length - 1) (by omega)
    have hI := delpollfd_info s fd hinv hreg
    have hS := delpollfd_slot s fd hinv hreg
    have hL := delpollfd_length s fd hinv hreg
    refine ⟨?_, ?_⟩
    · intro fd' _ hty
      rw [hI] at hty ⊢
      rw [hL]
      by_cases h1 : fd' = fd
      · simp [h1] at hty
      · simp only [h1, if_false] at hty ⊢
        by_cases h2 : fd' = (s.slot (s.pollfds.length - 1)).fd
        · simp only [h2, if_true] at hty ⊢
          have hne : (s.info fd).pollfd_offset ≠ s.pollfds.length - 1 := by
            intro heq
            rw [heq] at hslot
            exact h1 (by rw [h2, hslot])
          have hlt2 : (s.info fd).pollfd_offset < s.pollfds.length - 1 := by omega
          refine ⟨hlt2, ?_⟩
          rw [hS]
          simp [hlt2]
        · simp only [h2, if_false] at hty ⊢
          obtain ⟨ha, hb⟩ := hinv.1 fd' (info_lt_of_type s fd' hty) hty
          have hne : (s.info fd').pollfd_offset ≠ s.pollfds.length - 1 := by
            intro heq
            rw [heq] at hb
            exact h2 hb.symm
          have hlt2 : (s.info fd').pollfd_offset < s.pollfds.length - 1 := by omega
          refine ⟨hlt2, ?_⟩
          rw [hS]
          have hne2 : (s.info fd').pollfd_offset ≠ (s.info fd).pollfd_offset := by
            intro heq
            rw [heq, hslot] at hb
            exact h1 hb.symm
          simp [hlt2, hne2, hb]
    · intro i hi
      rw [hL] at hi
      rw [hS]
      simp only [hi, if_true]
      by_cases h2 : i = (s.info fd).pollfd_offset
      · simp only [h2, if_true]
        rw [hI]
        have hne : (s.slot (s.pollfds.length - 1)).fd ≠ fd := by
          intro heq
          rw [heq] at hlast_off
          omega
        simp [hne, hlast_ty]
      · simp only [h2, if_false]
        obtain ⟨ha, hb⟩ := hinv.2 i (by omega)
        rw [hI]
        have hne : (s.slot i).fd ≠ fd := by
          intro heq
          rw [heq] at hb
          exact h2 hb.symm
        have hne2 : (s.slot i).fd ≠ (s.slot (s.pollfds.length - 1)).fd := by
          intro heq
          rw [heq] at hb
          omega
        simp [hne, hne2, ha, hb]

theorem setpollfdevents_registryInv (s : State) (fd events : Nat) (hinv : RegistryInv s) :
    RegistryInv (setpollfdevents s fd events) := by
  unfold setpollfdevents
  obtain ⟨h1, h2⟩ := hinv
  have hfd : ∀ i, ((s.set_slot (s.info fd).pollfd_offset
      { s.slot (s.info fd).pollfd_offset with events := events }).slot i).fd = (s.slot i).fd := by
    intro i
    rw [slot_set_slot]
    split
    · rename_i h; rw [← h.1]
    · rfl
  refine ⟨?_, ?_⟩
  · intro fd' hlt hty
    simp only [set_slot_info, set_slot_length, set_slot_fdinfos, hfd] at hlt hty ⊢
    exact h1 fd' hlt hty
  · intro i hi
    simp only [set_slot_info, set_slot_length, hfd] at hi ⊢
    exact h2 i hi

/-- Deregistering `fd` leaves every other registered descriptor with its role, name,
queue, counters and wait interest. -/
theorem delpollfd_other (s : State) (fd fd' : Nat) (hinv : RegistryInv s)
    (hne : fd' ≠ fd) (hreg' : (s.info fd').type ≠ FDTYPE.NONE) :
    ((delpollfd s fd).info fd').type = (s.info fd').type ∧
    ((delpollfd s fd).info fd').name = (s.info fd').name ∧
    ((delpollfd s fd).info fd').out_buffers = (s.info fd').out_buffers ∧
    ((delpollfd s fd).info fd').buffered_data = (s.info fd').buffered_data ∧
    ((delpollfd s fd).info fd').have_overflowed = (s.info fd').have_overflowed ∧
    (delpollfd s fd).interest fd' = s.interest fd' := by
  by_cases hreg : (s.info fd).type = FDTYPE.NONE
  · rw [delpollfd_missing s fd hreg]
    simp [State.interest]
  · have hlt := info_lt_of_type s fd hreg
    obtain ⟨hoff, hslot⟩ := hinv.1 fd hlt hreg
    obtain ⟨hoff', hslot'⟩ := hinv.1 fd' (info_lt_of_type s fd' hreg') hreg'
    obtain ⟨hlast_ty, hlast_off⟩ := hinv.2 (s.pollfds.length - 1) (by omega)
    have hI := delpollfd_info s fd hinv hreg fd'
    have hS := delpollfd_slot s fd hinv hreg
    simp only [hne, if_false] at hI
    by_cases h2 : fd' = (s.slot (s.pollfds.length - 1)).fd
    · rw [if_pos h2] at hI
      have hne2 : (s.info fd).pollfd_offset ≠ s.pollfds.length - 1 := by
        intro heq
        rw [heq] at hslot
        exact hne (by rw [h2, hslot])
      have hlt2 : (s.info fd).pollfd_offset < s.pollfds.length - 1 := by omega
      simp only [State.interest]
      rw [hI, hS]
      simp only [hlt2, if_true]
      rw [← h2] at hlast_off
      simp [hlast_off]
    · rw [if_neg h2] at hI
      simp only [State.interest]
      rw [hI, hS]
      have hne3 : (s.info fd').pollfd_offset ≠ s.pollfds.length - 1 := by
        intro heq
        rw [heq] at hslot'
        exact h2 hslot'.symm
      have hne4 : (s.info fd').pollfd_offset ≠ (s.info fd).pollfd_offset := by
        intro heq
        rw [heq, hslot] at hslot'
        exact hne hslot'.symm
      have hlt2 : (s.info fd').pollfd_offset < s.pollfds.length - 1 := by omega
      simp [hlt2, hne4]

/-! ## Claims on the registry -/

/-- C8. Registry invariant: in every state reached from an empty registry through
`addpollfd`, `delpollfd` and `setpollfdevents`, every registered descriptor
records a slot index inside `pollfds` whose slot names that descriptor, and every
slot names a registered descriptor (inside the table) that records this slot. -/
theorem registry_invariant (s : State) (h : RegReachable s) :
    (∀ fd, (s.info fd).type ≠ FDTYPE.NONE →
      (s.info fd).pollfd_offset < s.pollfds.length ∧
        (s.slot (s.info fd).pollfd_offset).fd = fd) ∧
    (∀ i, i < s.pollfds.length →
      (s.slot i).fd < s.fdinfos.length ∧ (s.info (s.slot i).fd).type ≠ FDTYPE.NONE ∧
        (s.info (s.slot i).fd).pollfd_offset = i) := by
  have hinv : RegistryInv s := by
    induction h with
    | start s hp hf =>
      refine ⟨?_, ?_⟩
      · intro fd hlt
        simp [hf] at hlt
      · intro i hi
        simp [hp] at hi
    | add s fd events type name _ ht ih => exact addpollfd_registryInv s fd events type name ih ht
    | del s fd _ ih => exact delpollfd_registryInv s fd ih
    | setevents s fd events _ ih => exact setpollfdevents_registryInv s fd events ih
  refine ⟨?_, ?_⟩
  · intro fd hty
    exact hinv.1 fd (info_lt_of_type s fd hty) hty
  · intro i hi
    obtain ⟨ha, hb⟩ := hinv.2 i hi
    exact ⟨info_lt_of_type s _ ha, ha, hb⟩

/-- Witness of C8: three registrations, a change of wait interest and the removal of
the descriptor in the first slot. -/
theorem registry_invariant_witness :
    RegReachable (delpollfd registry_example 0) ∧
    ((∀ fd, ((delpollfd registry_example 0).info fd).type ≠ FDTYPE.NONE →
      ((delpollfd registry_example 0).info fd).pollfd_offset <
          (delpollfd registry_example 0).pollfds.length ∧
        ((delpollfd registry_example 0).slot
          ((delpollfd registry_example 0).info fd).pollfd_offset).fd = fd) ∧
    (∀ i, i < (delpollfd registry_example 0).pollfds.length →
      ((delpollfd registry_example 0).slot i).fd < (delpollfd registry_example 0).fdinfos.length ∧
      ((delpollfd registry_example 0).info ((delpollfd registry_example 0).slot i).fd).type ≠
          FDTYPE.NONE ∧
        ((delpollfd registry_example 0).info
          ((delpollfd registry_example 0).slot i).fd).pollfd_offset = i)) :=
  have hr : RegReachable (delpollfd registry_example 0) :=
    RegReachable.del _ 0 (RegReachable.setevents _ 4 12 (RegReachable.add _ 4 8 FDTYPE.CONN "sock"
      (RegReachable.add _ 3 9 FDTYPE.LISTENER "sock"
        (RegReachable.add _ 0 9 FDTYPE.INPUT "STDIN" (RegReachable.start {} rfl rfl)
          (by decide)) (by decide)) (by decide)))
  ⟨hr, registry_invariant _ hr⟩

/-- C9. Deregistration removes exactly one endpoint by swap-with-last: on a registry
that satisfies the registry invariant, `delpollfd fd` for a registered `fd`
leaves `fd` with type `NONE` and an empty queue, shortens `pollfds` by one, puts
the formerly last slot at the former index of `fd` (when `fd` was not last) and
records that index in the owner of the moved slot, keeps every other slot, and
keeps role, name, wait interest, queue and counters of every other registered
descriptor. -/
theorem delpollfd_swap_with_last (s : State) (fd : Nat) (hinv : RegistryInv s)
    (hreg : (s.info fd).type ≠ FDTYPE.NONE) :
    ((delpollfd s fd).info fd).type = FDTYPE.NONE ∧
    ((delpollfd s fd).info fd).out_buffers = [] ∧
    (delpollfd s fd).pollfds.length + 1 = s.pollfds.length ∧
    ((s.info fd).pollfd_offset < s.pollfds.length - 1 →
      (delpollfd s fd).slot (s.info fd).pollfd_offset = s.slot (s.pollfds.length - 1) ∧
      ((delpollfd s fd).info (s.slot (s.pollfds.length - 1)).fd).pollfd_offset =
        (s.info fd).pollfd_offset) ∧
    (∀ i, i < s.pollfds.length - 1 → i ≠ (s.info fd).pollfd_offset →
      (delpollfd s fd).slot i = s.slot i) ∧
    (∀ fd', fd' ≠ fd → (s.info fd').type ≠ FDTYPE.NONE →
      ((delpollfd s fd).info fd').type = (s.info fd').type ∧
      ((delpollfd s fd).info fd').name = (s.info fd').name ∧
      ((delpollfd s fd).info fd').out_buffers = (s.info fd').out_buffers ∧
      ((delpollfd s fd).info fd').buffered_data = (s.info fd').buffered_data ∧
      ((delpollfd s fd).info fd').have_overflowed = (s.info fd').have_overflowed ∧
      (delpollfd s fd).interest fd' = s.interest fd' ∧
      (fd' ≠ (s.slot (s.pollfds.length - 1)).fd →
        ((delpollfd s fd).info fd').pollfd_offset = (s.info fd').pollfd_offset)) ∧
    (∀ fd', (s.info fd').type = FDTYPE.NONE → (delpollfd s fd).info fd' = s.info fd') ∧
    RegistryInv (delpollfd s fd) := by
  have hlt := info_lt_of_type s fd hreg
  obtain ⟨hoff, hslot⟩ := hinv.1 fd hlt hreg
  obtain ⟨hlast_ty, hlast_off⟩ := hinv.2 (s.pollfds.length - 1) (by omega)
  have hI := delpollfd_info s fd hinv hreg
  have hS := delpollfd_slot s fd hinv hreg
  have hL := delpollfd_length s fd hinv hreg
  refine ⟨by rw [hI]; simp, by rw [hI]; simp, by omega, ?_, ?_, ?_, ?_,
    delpollfd_registryInv s fd hinv⟩
  · intro hcase
    have hne : (s.slot (s.pollfds.length - 1)).fd ≠ fd := by
      intro heq
      rw [heq] at hlast_off
      omega
    refine ⟨by rw [hS]; simp [hcase], ?_⟩
    rw [hI]
    simp [hne]
  · intro i hi hne
    rw [hS]
    simp [hi, hne]
  · intro fd' hne hreg'
    obtain ⟨h1, h2, h3, h4, h5, h6⟩ := delpollfd_other s fd fd' hinv hne hreg'
    refine ⟨h1, h2, h3, h4, h5, h6, ?_⟩
    intro hnl
    rw [hI]
    simp [hne, hnl]
  · intro fd' hnone
    have hne : fd' ≠ fd := by
      intro heq
      rw [heq] at hnone
      exact hreg hnone
    have hnl : fd' ≠ (s.slot (s.pollfds.length - 1)).fd := by
      intro heq
      rw [heq] at hnone
      exact hlast_ty hnone
    rw [hI]
    simp [hne, hnl]

/-- Witness of C9: the descriptor in slot 0 of `registry_example` is removed and the
connection in the last slot takes its place. -/
theorem delpollfd_swap_with_last_witness :
    RegistryInv registry_example ∧ (registry_example.info 0).type ≠ FDTYPE.NONE ∧
    ((delpollfd registry_example 0).info 0).type = FDTYPE.NONE ∧
    (delpollfd registry_example 0).pollfds.length + 1 = registry_example.pollfds.length ∧
    (delpollfd registry_example 0).interest 4 = registry_example.interest 4 :=
  ⟨by decide, by decide,
    (delpollfd_swap_with_last registry_example 0 (by decide) (by decide)).1,
    (delpollfd_swap_with_last registry_example 0 (by decide) (by decide)).2.2.1,
    ((delpollfd_swap_with_last registry_example 0 (by decide) (by decide)).2.2.2.2.2.1 4
      (by decide) (by decide)).2.2.2.2.2.1⟩

/-- C10. Duplicate registration is a no-op: `addpollfd` on a descriptor whose type is
not `NONE` leaves `pollfds` and `fdinfos` unchanged, whatever the arguments; the
only effect is the line written to stderr. -/
theorem addpollfd_duplicate_noop (s : State) (fd events : Nat) (type : FDTYPE) (name : String)
    (hreg : (s.info fd).type ≠ FDTYPE.NONE) :
    (addpollfd s fd events type name).pollfds = s.pollfds ∧
    (addpollfd s fd events type name).fdinfos = s.fdinfos ∧
    addpollfd s fd events type name = { s with trace := s.trace ++ [Effect.duplicate_add fd] } := by
  rw [addpollfd_dup s fd events type name hreg]
  exact ⟨rfl, rfl, rfl⟩

/-- Witness of C10: registering descriptor 4 of `registry_example` a second time, as a
FIFO with another name and interest. -/
theorem addpollfd_duplicate_noop_witness :
    (addpollfd registry_example 4 9 FDTYPE.FIFO "other").pollfds = registry_example.pollfds ∧
    (addpollfd registry_example 4 9 FDTYPE.FIFO "other").fdinfos = registry_example.fdinfos :=
  have h := addpollfd_duplicate_noop registry_example 4 9 FDTYPE.FIFO "other" (by decide)
  ⟨h.1, h.2.1⟩

/-! ## One iteration of the fan-out loop -/

theorem is_sink_lt (s : State) (fd : Nat) (h : s.is_sink fd) : fd < s.fdinfos.length := by
  apply info_lt_of_type
  rcases h with h | h <;> rw [h] <;> decide

theorem fanout_fd_info (b n : Nat) (acc : State × List Nat) (fd fd' : Nat) :
    (fanout_fd b n acc fd).1.info fd' =
      if fd' = fd then fanout_info acc.1.max_queue b n (acc.1.info fd) else acc.1.info fd' := by
  unfold fanout_fd fanout_info
  by_cases hs : (acc.1.info fd).type = FDTYPE.CONN ∨ (acc.1.info fd).type = FDTYPE.FIFO
  · have hlt := is_sink_lt acc.1 fd hs
    simp only [hs, if_true]
    by_cases hb : (acc.1.info fd).buffered_data < acc.1.max_queue
    · simp only [hb, if_true, setpollfdevents, set_slot_info, info_set_info, set_info_length]
      by_cases h : fd' = fd
      · subst h; simp [hlt]
      · have h' : ¬ fd = fd' := fun e => h e.symm
        simp [h, h']
    · simp only [hb, if_false]
      by_cases hf : (acc.1.info fd).have_overflowed
      · simp only [hf, Bool.not_true, Bool.false_eq_true, if_false]
        by_cases h : fd' = fd
        · subst h
          simp only [if_true]
          cases hx : acc.1.info fd'
          rw [hx] at hf
          simp at hf
          simp [hf]
        · simp [h]
      · simp only [hf, Bool.not_false, if_true]
        by_cases h : fd' = fd
        · subst h
          split <;> simp [info_set_info, hlt]
        · have h' : ¬ fd = fd' := fun e => h e.symm
          split <;> simp [info_set_info, h, h']
  · simp only [hs, if_false]
    split
    · rename_i h; rw [h]
    · rfl

theorem fanout_fd_frame (b n : Nat) (acc : State × List Nat) (fd : Nat) :
    (fanout_fd b n acc fd).1.max_queue = acc.1.max_queue ∧
    (fanout_fd b n acc fd).1.no_overflow = acc.1.no_overflow ∧
    (fanout_fd b n acc fd).1.use_stdout = acc.1.use_stdout ∧
    (fanout_fd b n acc fd).1.input_fd = acc.1.input_fd ∧
    (fanout_fd b n acc fd).1.input_name = acc.1.input_name ∧
    (fanout_fd b n acc fd).1.reopen_input = acc.1.reopen_input ∧
    (fanout_fd b n acc fd).1.buffers = acc.1.buffers ∧
    (fanout_fd b n acc fd).1.free_buffers = acc.1.free_buffers ∧
    (fanout_fd b n acc fd).1.fdinfos.length = acc.1.fdinfos.length ∧
    (fanout_fd b n acc fd).1.pollfds.length = acc.1.pollfds.length := by
  unfold fanout_fd
  simp only []
  split_ifs <;> simp [setpollfdevents, State.set_info, State.set_slot, State.emit]

theorem fanout_fd_slot (b n : Nat) (acc : State × List Nat) (fd i : Nat) :
    ((fanout_fd b n acc fd).1.slot i).fd = (acc.1.slot i).fd ∧
    ((fanout_fd b n acc fd).1.slot i).revents = (acc.1.slot i).revents ∧
    ((fanout_fd b n acc fd).1.slot i).events =
      if acc.1.accepts fd ∧ (acc.1.info fd).pollfd_offset = i ∧ i < acc.1.pollfds.length then
        POLLOUT ||| POLLERR
      else (acc.1.slot i).events := by
  unfold fanout_fd State.accepts State.is_sink
  by_cases hs : (acc.1.info fd).type = FDTYPE.CONN ∨ (acc.1.info fd).type = FDTYPE.FIFO
  · have hlt := is_sink_lt acc.1 fd hs
    simp only [hs, if_true, true_and]
    by_cases hb : (acc.1.info fd).buffered_data < acc.1.max_queue
    · simp only [hb, if_true, true_and, setpollfdevents, set_info_slot, slot_set_slot,
        set_info_pollfds, info_set_info, set_info_length, hlt, and_self]
      by_cases h : (acc.1.info fd).pollfd_offset = i ∧ i < acc.1.pollfds.length
      · obtain ⟨h1, h2⟩ := h
        subst h1
        simp [h2]
      · simp only [h, if_false]
        have : ¬ ((acc.1.info fd).pollfd_offset = i ∧
            (acc.1.info fd).pollfd_offset < acc.1.pollfds.length) := by
          intro hh
          exact h ⟨hh.1, hh.1 ▸ hh.2⟩
        simp [this]
    · simp only [hb, if_false, false_and]
      split_ifs <;> simp
  · simp only [hs, if_false, false_and]
    simp

theorem fanout_fd_pending (b n : Nat) (acc : State × List Nat) (fd : Nat) :
    (fanout_fd b n acc fd).2 =
      acc.2 ++ (if acc.1.reports fd ∧ acc.1.no_overflow = true then [fd] else []) := by
  unfold fanout_fd State.reports State.is_sink
  simp only []
  split_ifs <;> simp_all [State.set_info]

theorem fanout_fd_trace (b n : Nat) (acc : State × List Nat) (fd : Nat) :
    (fanout_fd b n acc fd).1.trace =
      acc.1.trace ++ (if acc.1.reports fd then
        [Effect.overflow fd (acc.1.info fd).name acc.1.no_overflow] else []) := by
  unfold fanout_fd State.reports State.is_sink
  by_cases hs : (acc.1.info fd).type = FDTYPE.CONN ∨ (acc.1.info fd).type = FDTYPE.FIFO
  · have hlt := is_sink_lt acc.1 fd hs
    simp only [hs, if_true, true_and]
    by_cases hb : (acc.1.info fd).buffered_data < acc.1.max_queue
    · simp [hb, setpollfdevents, State.set_info, State.set_slot]
    · simp only [hb, if_false, not_false_eq_true, true_and]
      by_cases hf : (acc.1.info fd).have_overflowed
      · simp [hf]
      · simp only [hf, Bool.not_false, if_true]
        have hn : ((acc.1.set_info fd { acc.1.info fd with have_overflowed := true }).info fd).name
            = (acc.1.info fd).name := by
          rw [info_set_info_self _ _ _ hlt]
        have hno : (acc.1.set_info fd { acc.1.info fd with have_overflowed := true }).no_overflow
            = acc.1.no_overflow := rfl
        rw [hn, hno]
        cases hv : acc.1.no_overflow <;> simp [State.emit, State.set_info]
  · simp [hs]

theorem fanout_info_type (m b n : Nat) (x : fdinfo) :
    (fanout_info m b n x).type = x.type ∧ (fanout_info m b n x).pollfd_offset = x.pollfd_offset ∧
    (fanout_info m b n x).name = x.name := by
  unfold fanout_info
  split_ifs <;> simp

theorem fanout_fd_registry (b n : Nat) (acc : State × List Nat) (fd fd' : Nat) :
    ((fanout_fd b n acc fd).1.info fd').type = (acc.1.info fd').type ∧
    ((fanout_fd b n acc fd).1.info fd').pollfd_offset = (acc.1.info fd').pollfd_offset ∧
    ((fanout_fd b n acc fd).1.info fd').name = (acc.1.info fd').name := by
  rw [fanout_fd_info]
  split
  · rename_i h
    subst h
    exact fanout_info_type _ _ _ _
  · exact ⟨rfl, rfl, rfl⟩

theorem fanout_fd_accepts_iff (b n : Nat) (acc : State × List Nat) (fd fd' : Nat)
    (h : fd' ≠ fd) : (fanout_fd b n acc fd).1.accepts fd' ↔ acc.1.accepts fd' := by
  unfold State.accepts State.is_sink
  rw [fanout_fd_info, if_neg h, (fanout_fd_frame b n acc fd).1]

theorem fanout_fd_reports_iff (b n : Nat) (acc : State × List Nat) (fd fd' : Nat)
    (h : fd' ≠ fd) : (fanout_fd b n acc fd).1.reports fd' ↔ acc.1.reports fd' := by
  unfold State.reports State.is_sink
  rw [fanout_fd_info, if_neg h, (fanout_fd_frame b n acc fd).1]

/-! ## The whole fan-out loop -/

theorem fanout_fold_frame (b n : Nat) (l : List Nat) (acc : State × List Nat) :
    (l.foldl (fanout_fd b n) acc).1.max_queue = acc.1.max_queue ∧
    (l.foldl (fanout_fd b n) acc).1.no_overflow = acc.1.no_overflow ∧
    (l.foldl (fanout_fd b n) acc).1.use_stdout = acc.1.use_stdout ∧
    (l.foldl (fanout_fd b n) acc).1.input_fd = acc.1.input_fd ∧
    (l.foldl (fanout_fd b n) acc).1.input_name = acc.1.input_name ∧
    (l.foldl (fanout_fd b n) acc).1.reopen_input = acc.1.reopen_input ∧
    (l.foldl (fanout_fd b n) acc).1.buffers = acc.1.buffers ∧
    (l.foldl (fanout_fd b n) acc).1.free_buffers = acc.1.free_buffers ∧
    (l.foldl (fanout_fd b n) acc).1.fdinfos.length = acc.1.fdinfos.length ∧
    (l.foldl (fanout_fd b n) acc).1.pollfds.length = acc.1.pollfds.length := by
  induction l generalizing acc with
  | nil => simp
  | cons fd l ih =>
    rw [List.foldl_cons]
    obtain ⟨h1, h2, h3, h4, h5, h6, h7, h8, h9, h10⟩ := ih (fanout_fd b n acc fd)
    obtain ⟨g1, g2, g3, g4, g5, g6, g7, g8, g9, g10⟩ := fanout_fd_frame b n acc fd
    exact ⟨h1.trans g1, h2.trans g2, h3.trans g3, h4.trans g4, h5.trans g5, h6.trans g6,
      h7.trans g7, h8.trans g8, h9.trans g9, h10.trans g10⟩

theorem fanout_fold_info (b n : Nat) (l : List Nat) (hnd : l.Nodup) (acc : State × List Nat)
    (fd' : Nat) :
    (l.foldl (fanout_fd b n) acc).1.info fd' =
      if fd' ∈ l then fanout_info acc.1.max_queue b n (acc.1.info fd') else acc.1.info fd' := by
  induction l generalizing acc with
  | nil => simp
  | cons fd l ih =>
    rw [List.foldl_cons, ih (List.nodup_cons.mp hnd).2, (fanout_fd_frame b n acc fd).1,
      fanout_fd_info]
    have hnot : fd ∉ l := (List.nodup_cons.mp hnd).1
    by_cases h : fd' = fd
    · subst h
      simp [hnot]
    · simp [h]

theorem fanout_fold_slot (b n : Nat) (l : List Nat) (acc : State × List Nat) (i : Nat) :
    ((l.foldl (fanout_fd b n) acc).1.slot i).fd = (acc.1.slot i).fd ∧
    ((l.foldl (fanout_fd b n) acc).1.slot i).revents = (acc.1.slot i).revents := by
  induction l generalizing acc with
  | nil => simp
  | cons fd l ih =>
    rw [List.foldl_cons]
    obtain ⟨h1, h2⟩ := ih (fanout_fd b n acc fd)
    obtain ⟨g1, g2, _⟩ := fanout_fd_slot b n acc fd i
    exact ⟨h1.trans g1, h2.trans g2⟩

theorem fanout_fold_events (b n : Nat) (l : List Nat) (hnd : l.Nodup) (acc : State × List Nat)
    (i : Nat) :
    ((l.foldl (fanout_fd b n) acc).1.slot i).events =
      if ∃ fd ∈ l, acc.1.accepts fd ∧ (acc.1.info fd).pollfd_offset = i ∧
          i < acc.1.pollfds.length then
        POLLOUT ||| POLLERR
      else (acc.1.slot i).events := by
  induction l generalizing acc with
  | nil => simp
  | cons fd l ih =>
    have hnot : fd ∉ l := (List.nodup_cons.mp hnd).1
    rw [List.foldl_cons, ih (List.nodup_cons.mp hnd).2, (fanout_fd_slot b n acc fd i).2.2]
    have hiff : (∃ fd' ∈ l, (fanout_fd b n acc fd).1.accepts fd' ∧
        ((fanout_fd b n acc fd).1.info fd').pollfd_offset = i ∧
          i < (fanout_fd b n acc fd).1.pollfds.length) ↔
        (∃ fd' ∈ l, acc.1.accepts fd' ∧ (acc.1.info fd').pollfd_offset = i ∧
          i < acc.1.pollfds.length) := by
      constructor
      · rintro ⟨fd', hmem, ha, ho, hl⟩
        have hne : fd' ≠ fd := fun e => hnot (e ▸ hmem)
        refine ⟨fd', hmem, (fanout_fd_accepts_iff b n acc fd fd' hne).mp ha, ?_, ?_⟩
        · rw [← ho, (fanout_fd_registry b n acc fd fd').2.1]
        · rw [← (fanout_fd_frame b n acc fd).2.2.2.2.2.2.2.2.2]; exact hl
      · rintro ⟨fd', hmem, ha, ho, hl⟩
        have hne : fd' ≠ fd := fun e => hnot (e ▸ hmem)
        refine ⟨fd', hmem, (fanout_fd_accepts_iff b n acc fd fd' hne).mpr ha, ?_, ?_⟩
        · rw [(fanout_fd_registry b n acc fd fd').2.1]; exact ho
        · rw [(fanout_fd_frame b n acc fd).2.2.2.2.2.2.2.2.2]; exact hl
    by_cases h1 : ∃ fd' ∈ l, acc.1.accepts fd' ∧ (acc.1.info fd').pollfd_offset = i ∧
        i < acc.1.pollfds.length
    · have h1' := hiff.mpr h1
      rw [if_pos h1']
      obtain ⟨fd', hmem, hrest⟩ := h1
      rw [if_pos ⟨fd', List.mem_cons_of_mem _ hmem, hrest⟩]
    · have h1' : ¬ _ := fun h => h1 (hiff.mp h)
      rw [if_neg h1']
      by_cases h2 : acc.1.accepts fd ∧ (acc.1.info fd).pollfd_offset = i ∧
          i < acc.1.pollfds.length
      · rw [if_pos h2, if_pos ⟨fd, List.mem_cons_self _ _, h2⟩]
      · rw [if_neg h2, if_neg]
        rintro ⟨fd', hmem, hrest⟩
        rcases List.mem_cons.mp hmem with e | hmem'
        · subst e; exact h2 hrest
        · exact h1 ⟨fd', hmem', hrest⟩

theorem fanout_fold_pending (b n : Nat) (l : List Nat) (hnd : l.Nodup)
    (acc : State × List Nat) :
    (l.foldl (fanout_fd b n) acc).2 =
      acc.2 ++ l.filter (fun fd => decide (acc.1.reports fd ∧ acc.1.no_overflow = true)) := by
  induction l generalizing acc with
  | nil => simp
  | cons fd l ih =>
    have hnot : fd ∉ l := (List.nodup_cons.mp hnd).1
    rw [List.foldl_cons, ih (List.nodup_cons.mp hnd).2, fanout_fd_pending,
      (fanout_fd_frame b n acc fd).2.1]
    have hfil : l.filter (fun fd' => decide ((fanout_fd b n acc fd).1.reports fd' ∧
          acc.1.no_overflow = true)) =
        l.filter (fun fd' => decide (acc.1.reports fd' ∧ acc.1.no_overflow = true)) := by
      apply List.filter_congr
      intro fd' hmem
      have hne : fd' ≠ fd := fun e => hnot (e ▸ hmem)
      simp only [fanout_fd_reports_iff b n acc fd fd' hne]
    rw [hfil, List.filter_cons]
    split_ifs <;> simp_all

theorem overflow_count_append (fd : Nat) (t u : List Effect) :
    overflow_count fd (t ++ u) = overflow_count fd t + overflow_count fd u := by
  induction t with
  | nil => simp [overflow_count]
  | cons e t ih =>
    cases e <;> simp [overflow_count, ih]
    omega

theorem fanout_fold_trace (b n : Nat) (l : List Nat) (hnd : l.Nodup) (acc : State × List Nat) :
    ∃ added, (l.foldl (fanout_fd b n) acc).1.trace = acc.1.trace ++ added ∧
      ∀ fd, overflow_count fd added = if fd ∈ l ∧ acc.1.reports fd then 1 else 0 := by
  induction l generalizing acc with
  | nil => exact ⟨[], by simp, by simp [overflow_count]⟩
  | cons fd l ih =>
    have hnot : fd ∉ l := (List.nodup_cons.mp hnd).1
    obtain ⟨added, htr, hcount⟩ := ih (List.nodup_cons.mp hnd).2 (fanout_fd b n acc fd)
    rw [List.foldl_cons, htr, fanout_fd_trace, List.append_assoc]
    refine ⟨_, rfl, ?_⟩
    intro fd'
    rw [overflow_count_append, hcount]
    by_cases h : fd' = fd
    · subst h
      by_cases hr : acc.1.reports fd'
      · simp [hr, hnot, overflow_count]
      · simp [hr, hnot, overflow_count]
    · have hfirst : overflow_count fd' (if acc.1.reports fd then
          [Effect.overflow fd (acc.1.info fd).name acc.1.no_overflow] else []) = 0 := by
        have h' : ¬ fd = fd' := fun e => h e.symm
        split <;> simp [overflow_count, h']
      rw [hfirst]
      have hiff := fanout_fd_reports_iff b n acc fd fd' h
      by_cases hr : acc.1.reports fd'
      · have hr' := hiff.mpr hr
        by_cases hm : fd' ∈ l <;> simp [hr, hr', hm, h]
      · have hr' : ¬ (fanout_fd b n acc fd).1.reports fd' := fun x => hr (hiff.mp x)
        simp [hr, hr']

/-! ## `getbuffer` and the read -/

theorem getbuffer_snd (s : State) :
    (getbuffer s).2 =
      { s with buffers := (getbuffer s).2.buffers, free_buffers := (getbuffer s).2.free_buffers } := by
  unfold getbuffer
  split <;> rfl

theorem load_buffer_eq (s : State) (data : List Nat) :
    load_buffer s data =
      { s with buffers := (getbuffer s).2.buffers.set (getbuffer s).1 data,
               free_buffers := (getbuffer s).2.free_buffers } := by
  unfold load_buffer
  rw [getbuffer_snd s]

theorem vector_resize_stored (data rest : List Nat) :
    vector_resize (data ++ rest) data.length = data := by
  simp [vector_resize]

/-- Closed form of `read_input_fd` for a read of positive length. -/
theorem read_input_fd_data (s : State) (fd : Nat) (cf : Bool) (data : List Nat)
    (reopen : Option Nat) (hdata : data.length ≠ 0) :
    read_input_fd s fd cf { read := ReadResult.bytes data, reopen := reopen } =
      if (fanout_loop (load_buffer s data) (getbuffer s).1
            ((load_buffer s data).buffers.getD (getbuffer s).1 []).length).2.length ≠ 0 then
        Except.ok (some (getbuffer s).1, false,
          close_pending (fanout_loop (load_buffer s data) (getbuffer s).1
            ((load_buffer s data).buffers.getD (getbuffer s).1 []).length).1
            (fanout_loop (load_buffer s data) (getbuffer s).1
            ((load_buffer s data).buffers.getD (getbuffer s).1 []).length).2)
      else
        Except.ok (some (getbuffer s).1, cf,
          (fanout_loop (load_buffer s data) (getbuffer s).1
            ((load_buffer s data).buffers.getD (getbuffer s).1 []).length).1) := by
  unfold read_input_fd load_buffer
  simp only [hdata, if_false, vector_resize_stored, List.set_set]

theorem fanout_info_default (m b n : Nat) : fanout_info m b n default = default := by
  unfold fanout_info
  rw [if_neg]
  intro h
  rcases h with h | h <;> exact absurd h (by decide)

theorem info_default_of_ge (s : State) (fd : Nat) (h : s.fdinfos.length ≤ fd) :
    s.info fd = default := by
  simp only [State.info]
  exact List.getD_eq_default _ _ h

/-- The table after the fan-out loop, entry by entry. -/
theorem fanout_loop_info (s : State) (b n fd : Nat) :
    (fanout_loop s b n).1.info fd = fanout_info s.max_queue b n (s.info fd) := by
  unfold fanout_loop
  rw [fanout_fold_info b n _ (List.nodup_range _) (s, []) fd]
  by_cases h : fd < s.fdinfos.length
  · simp [h]
  · simp only [List.mem_range, h, if_false]
    rw [info_default_of_ge s fd (by omega), fanout_info_default]

theorem fanout_loop_frame (s : State) (b n : Nat) :
    (fanout_loop s b n).1.max_queue = s.max_queue ∧
    (fanout_loop s b n).1.no_overflow = s.no_overflow ∧
    (fanout_loop s b n).1.use_stdout = s.use_stdout ∧
    (fanout_loop s b n).1.input_fd = s.input_fd ∧
    (fanout_loop s b n).1.input_name = s.input_name ∧
    (fanout_loop s b n).1.reopen_input = s.reopen_input ∧
    (fanout_loop s b n).1.buffers = s.buffers ∧
    (fanout_loop s b n).1.free_buffers = s.free_buffers ∧
    (fanout_loop s b n).1.fdinfos.length = s.fdinfos.length ∧
    (fanout_loop s b n).1.pollfds.length = s.pollfds.length :=
  fanout_fold_frame b n _ (s, [])

theorem accepts_lt (s : State) (fd : Nat) (h : s.accepts fd) : fd < s.fdinfos.length :=
  is_sink_lt s fd h.1

theorem fanout_loop_events (s : State) (b n i : Nat) :
    ((fanout_loop s b n).1.slot i).events =
      if ∃ fd ∈ List.range s.fdinfos.length, s.accepts fd ∧ (s.info fd).pollfd_offset = i ∧
          i < s.pollfds.length then
        POLLOUT ||| POLLERR
      else (s.slot i).events := by
  unfold fanout_loop
  rw [fanout_fold_events b n _ (List.nodup_range _) (s, []) i]

theorem fanout_loop_pending (s : State) (b n : Nat) :
    (fanout_loop s b n).2 =
      (List.range s.fdinfos.length).filter
        (fun fd => decide (s.reports fd ∧ s.no_overflow = true)) := by
  unfold fanout_loop
  rw [fanout_fold_pending b n _ (List.nodup_range _) (s, [])]
  simp

theorem fanout_loop_trace (s : State) (b n : Nat) :
    ∃ added, (fanout_loop s b n).1.trace = s.trace ++ added ∧
      ∀ fd, overflow_count fd added = if s.reports fd then 1 else 0 := by
  unfold fanout_loop
  obtain ⟨added, h1, h2⟩ := fanout_fold_trace b n _ (List.nodup_range s.fdinfos.length) (s, [])
  refine ⟨added, h1, ?_⟩
  intro fd
  rw [h2]
  by_cases h : s.reports fd
  · have := is_sink_lt s fd h.1
    simp [h, this]
  · simp [h]

theorem registryInv_congr (s t : State) (hp : t.pollfds.length = s.pollfds.length)
    (hf : t.fdinfos.length = s.fdinfos.length)
    (hslot : ∀ i, (t.slot i).fd = (s.slot i).fd)
    (hinfo : ∀ fd, (t.info fd).type = (s.info fd).type ∧
      (t.info fd).pollfd_offset = (s.info fd).pollfd_offset)
    (hinv : RegistryInv s) : RegistryInv t := by
  obtain ⟨h1, h2⟩ := hinv
  refine ⟨?_, ?_⟩
  · intro fd hlt hty
    rw [(hinfo fd).1] at hty
    rw [(hinfo fd).2, hp, hslot]
    exact h1 fd (by omega) hty
  · intro i hi
    rw [hslot, (hinfo _).1, (hinfo _).2]
    exact h2 i (by omega)

theorem fanout_loop_registryInv (s : State) (b n : Nat) (hinv : RegistryInv s) :
    RegistryInv (fanout_loop s b n).1 := by
  apply registryInv_congr s _ _ _ _ _ hinv
  · exact (fanout_fold_frame b n _ (s, [])).2.2.2.2.2.2.2.2.2
  · exact (fanout_fold_frame b n _ (s, [])).2.2.2.2.2.2.2.2.1
  · intro i
    exact (fanout_fold_slot b n _ (s, []) i).1
  · intro fd
    rw [fanout_loop_info]
    exact ⟨(fanout_info_type _ _ _ _).1, (fanout_info_type _ _ _ _).2.1⟩

/-- The wait interest of a descriptor after the fan-out loop. -/
theorem fanout_loop_interest (s : State) (b n fd : Nat) (hinv : RegistryInv s)
    (hreg : (s.info fd).type ≠ FDTYPE.NONE) :
    (fanout_loop s b n).1.interest fd =
      if s.accepts fd then POLLOUT ||| POLLERR else s.interest fd := by
  obtain ⟨hoff, hslot⟩ := hinv.1 fd (info_lt_of_type s fd hreg) hreg
  simp only [State.interest]
  rw [fanout_loop_info, (fanout_info_type _ _ _ _).2.1, fanout_loop_events]
  by_cases h : s.accepts fd
  · rw [if_pos h, if_pos ⟨fd, List.mem_range.mpr (accepts_lt s fd h), h, rfl, hoff⟩]
  · rw [if_neg h, if_neg]
    rintro ⟨fd', _, ha, ho, _⟩
    have hreg' : (s.info fd').type ≠ FDTYPE.NONE := by
      rcases ha.1 with e | e <;> rw [e] <;> decide
    obtain ⟨_, hslot'⟩ := hinv.1 fd' (info_lt_of_type s fd' hreg') hreg'
    rw [ho, hslot] at hslot'
    exact h (hslot' ▸ ha)

/-! ## The deferred closes -/

theorem close_pending_cons (s : State) (fd : Nat) (fds : List Nat) :
    close_pending s (fd :: fds) = close_pending (delpollfd (close s fd) fd) fds := by
  simp [close_pending]

theorem close_registryInv (s : State) (fd : Nat) (hinv : RegistryInv s) :
    RegistryInv (close s fd) := hinv

theorem close_pending_registryInv (s : State) (fds : List Nat) (hinv : RegistryInv s) :
    RegistryInv (close_pending s fds) := by
  induction fds generalizing s with
  | nil => exact hinv
  | cons fd fds ih =>
    rw [close_pending_cons]
    exact ih _ (delpollfd_registryInv _ fd (close_registryInv s fd hinv))

theorem close_pending_other (s : State) (fds : List Nat) (fd' : Nat) (hinv : RegistryInv s)
    (hnot : fd' ∉ fds) (hreg' : (s.info fd').type ≠ FDTYPE.NONE) :
    ((close_pending s fds).info fd').type = (s.info fd').type ∧
    ((close_pending s fds).info fd').name = (s.info fd').name ∧
    ((close_pending s fds).info fd').out_buffers = (s.info fd').out_buffers ∧
    ((close_pending s fds).info fd').buffered_data = (s.info fd').buffered_data ∧
    ((close_pending s fds).info fd').have_overflowed = (s.info fd').have_overflowed ∧
    (close_pending s fds).interest fd' = s.interest fd' := by
  induction fds generalizing s with
  | nil => exact ⟨rfl, rfl, rfl, rfl, rfl, rfl⟩
  | cons fd fds ih =>
    rw [close_pending_cons]
    have hne : fd' ≠ fd := fun e => hnot (e ▸ List.mem_cons_self _ _)
    have hnot' : fd' ∉ fds := fun h => hnot (List.mem_cons_of_mem _ h)
    obtain ⟨g1, g2, g3, g4, g5, g6⟩ :=
      delpollfd_other (close s fd) fd fd' (close_registryInv s fd hinv) hne hreg'
    have hreg2 : ((delpollfd (close s fd) fd).info fd').type ≠ FDTYPE.NONE := by
      rw [g1]; exact hreg'
    obtain ⟨h1, h2, h3, h4, h5, h6⟩ :=
      ih _ (delpollfd_registryInv _ fd (close_registryInv s fd hinv)) hnot' hreg2
    exact ⟨h1.trans g1, h2.trans g2, h3.trans g3, h4.trans g4, h5.trans g5, h6.trans g6⟩

theorem close_pending_frame (s : State) (fds : List Nat) :
    (close_pending s fds).buffers = s.buffers ∧
    (close_pending s fds).free_buffers = s.free_buffers ∧
    (close_pending s fds).max_queue = s.max_queue ∧
    (close_pending s fds).no_overflow = s.no_overflow ∧
    (close_pending s fds).use_stdout = s.use_stdout := by
  induction fds generalizing s with
  | nil => exact ⟨rfl, rfl, rfl, rfl, rfl⟩
  | cons fd fds ih =>
    rw [close_pending_cons]
    obtain ⟨h1, h2, h3, h4, h5⟩ := ih (delpollfd (close s fd) fd)
    obtain ⟨g1, g2, g3, g4, g5, _⟩ := delpollfd_frame (close s fd) fd
    exact ⟨h1.trans g1, h2.trans g2, h3.trans g3, h4.trans g4, h5.trans g5⟩

theorem getbuffer_lt (s : State) (hpool : ∀ b ∈ s.free_buffers, b < s.buffers.length) :
    (getbuffer s).1 < (getbuffer s).2.buffers.length := by
  unfold getbuffer
  split
  · simp
  · rename_i b hb
    exact hpool b (List.mem_of_mem_getLast? hb)

theorem load_buffer_content (s : State) (data : List Nat)
    (hpool : ∀ b ∈ s.free_buffers, b < s.buffers.length) :
    (load_buffer s data).buffers.getD (getbuffer s).1 [] = data := by
  have h := getbuffer_lt s hpool
  simp only [load_buffer, List.getD_eq_getElem?_getD, List.getElem?_set, if_true, h]
  rfl

theorem load_buffer_registryInv (s : State) (data : List Nat) (hinv : RegistryInv s) :
    RegistryInv (load_buffer s data) := by
  rw [load_buffer_eq]
  exact hinv

/-- The state that `read_input_fd` returns after a read of positive length: the
fan-out loop followed by the deferred closes (none when nothing is pending). -/
theorem read_input_fd_result (s : State) (fd : Nat) (cf : Bool) (data : List Nat)
    (reopen : Option Nat) (hdata : data.length ≠ 0)
    (hpool : ∀ b ∈ s.free_buffers, b < s.buffers.length) :
    ∃ cf', read_input_fd s fd cf { read := ReadResult.bytes data, reopen := reopen } =
      Except.ok (some (getbuffer s).1, cf',
        close_pending (fanout_loop (load_buffer s data) (getbuffer s).1 data.length).1
          (fanout_loop (load_buffer s data) (getbuffer s).1 data.length).2) ∧
      ((fanout_loop (load_buffer s data) (getbuffer s).1 data.length).2 = [] → cf' = cf) := by
  rw [read_input_fd_data s fd cf data reopen hdata, load_buffer_content s data hpool]
  by_cases h : (fanout_loop (load_buffer s data) (getbuffer s).1 data.length).2.length ≠ 0
  · rw [if_pos h]
    refine ⟨false, rfl, ?_⟩
    intro h2
    rw [h2] at h
    simp at h
  · rw [if_neg h]
    have h2 : (fanout_loop (load_buffer s data) (getbuffer s).1 data.length).2 = [] := by
      simpa using h
    refine ⟨cf, ?_, fun _ => rfl⟩
    rw [h2]
    rfl

/-- Effect of `read_input_fd` with a read of positive length on the sinks below
their budget and on the descriptors that are not sinks. -/
theorem read_input_fd_accepting (s : State) (fd_in : Nat) (cf : Bool) (data : List Nat)
    (reopen : Option Nat) (hdata : 0 < data.length) (hinv : RegistryInv s) (hpool : PoolInv s) :
    ∃ b cf' s', read_input_fd s fd_in cf { read := ReadResult.bytes data, reopen := reopen } =
        Except.ok (some b, cf', s') ∧
      s'.buffers.getD b [] = data ∧
      (∀ fd, s.is_sink fd → (s.info fd).buffered_data < s.max_queue →
        (s'.info fd).type = (s.info fd).type ∧
        (s'.info fd).have_overflowed = (s.info fd).have_overflowed ∧
        (s'.info fd).out_buffers = (s.info fd).out_buffers ++ [{ buffer := b, offset := 0 }] ∧
        (s'.info fd).buffered_data = ((s.info fd).buffered_data + data.length) % SIZE_MOD ∧
        ((s.info fd).buffered_data + data.length < SIZE_MOD →
          (s'.info fd).buffered_data = (s.info fd).buffered_data + data.length) ∧
        s'.interest fd = POLLOUT ||| POLLERR) ∧
      (∀ fd, (s.info fd).type = FDTYPE.INPUT ∨ (s.info fd).type = FDTYPE.LISTENER →
        (s'.info fd).type = (s.info fd).type ∧
        (s'.info fd).out_buffers = (s.info fd).out_buffers ∧
        (s'.info fd).buffered_data = (s.info fd).buffered_data) := by
  have hfree : ∀ b ∈ s.free_buffers, b < s.buffers.length := fun b hb => (hpool.2.1 b hb).1
  obtain ⟨cf', hres, _⟩ := read_input_fd_result s fd_in cf data reopen (by omega) hfree
  have hinv3 := load_buffer_registryInv s data hinv
  have hinv4 := fanout_loop_registryInv (load_buffer s data) (getbuffer s).1 data.length hinv3
  have hI : ∀ fd, (load_buffer s data).info fd = s.info fd := by
    intro fd; rw [load_buffer_eq]; rfl
  have hM : (load_buffer s data).max_queue = s.max_queue := by rw [load_buffer_eq]
  have hP := fanout_loop_pending (load_buffer s data) (getbuffer s).1 data.length
  refine ⟨_, cf', _, hres, ?_, ?_, ?_⟩
  · rw [(close_pending_frame _ _).1, (fanout_loop_frame _ _ _).2.2.2.2.2.2.1]
    exact load_buffer_content s data hfree
  · intro fd hsink hlt
    have hacc : (load_buffer s data).accepts fd := by
      unfold State.accepts State.is_sink
      rw [hI, hM]
      exact ⟨hsink, hlt⟩
    have hreg : (s.info fd).type ≠ FDTYPE.NONE := by
      rcases hsink with e | e <;> rw [e] <;> decide
    have hL := fanout_loop_info (load_buffer s data) (getbuffer s).1 data.length fd
    rw [hI, hM] at hL
    have hnot : fd ∉ (fanout_loop (load_buffer s data) (getbuffer s).1 data.length).2 := by
      rw [hP]
      intro hmem
      have := (List.mem_filter.mp hmem).2
      simp only [decide_eq_true_eq] at this
      exact this.1.2.1 hacc.2
    have hreg4 : ((fanout_loop (load_buffer s data) (getbuffer s).1 data.length).1.info fd).type
        ≠ FDTYPE.NONE := by
      rw [hL, (fanout_info_type _ _ _ _).1]; exact hreg
    obtain ⟨c1, _, c3, c4, c5, c6⟩ := close_pending_other _ _ fd hinv4 hnot hreg4
    have hint := fanout_loop_interest (load_buffer s data) (getbuffer s).1 data.length fd hinv3
      (by rw [hI]; exact hreg)
    rw [if_pos hacc] at hint
    have hfi : fanout_info s.max_queue (getbuffer s).1 data.length (s.info fd) =
        { s.info fd with
          out_buffers := (s.info fd).out_buffers ++ [{ buffer := (getbuffer s).1, offset := 0 }],
          buffered_data := ((s.info fd).buffered_data + data.length) % SIZE_MOD } := by
      have hsink' : (s.info fd).type = FDTYPE.CONN ∨ (s.info fd).type = FDTYPE.FIFO := hsink
      unfold fanout_info
      rw [if_pos hsink', if_pos hlt]
    rw [hfi] at hL
    rw [hL] at c1 c3 c4 c5
    refine ⟨c1, c5, c3, c4, ?_, c6.trans hint⟩
    intro hfit
    rw [c4]
    exact Nat.mod_eq_of_lt hfit
  · intro fd hrole
    have hreg : (s.info fd).type ≠ FDTYPE.NONE := by
      rcases hrole with e | e <;> rw [e] <;> decide
    have hns : ¬ ((s.info fd).type = FDTYPE.CONN ∨ (s.info fd).type = FDTYPE.FIFO) := by
      rcases hrole with e | e <;> rw [e] <;> decide
    have hL := fanout_loop_info (load_buffer s data) (getbuffer s).1 data.length fd
    rw [hI, hM] at hL
    have hfi : fanout_info s.max_queue (getbuffer s).1 data.length (s.info fd) = s.info fd := by
      unfold fanout_info
      rw [if_neg hns]
    rw [hfi] at hL
    have hnot : fd ∉ (fanout_loop (load_buffer s data) (getbuffer s).1 data.length).2 := by
      rw [hP]
      intro hmem
      have := (List.mem_filter.mp hmem).2
      simp only [decide_eq_true_eq] at this
      have h1 := this.1.1
      unfold State.is_sink at h1
      rw [hI] at h1
      exact hns h1
    have hreg4 : ((fanout_loop (load_buffer s data) (getbuffer s).1 data.length).1.info fd).type
        ≠ FDTYPE.NONE := by
      rw [hL]; exact hreg
    obtain ⟨c1, _, c3, c4, _, _⟩ := close_pending_other _ _ fd hinv4 hnot hreg4
    rw [hL] at c1 c3 c4
    exact ⟨c1, c3, c4⟩

/-- Effect of `read_input_fd` with a read of positive length, under the default
policy, on the sinks at or above their budget. -/
theorem read_input_fd_rejecting (s : State) (fd_in : Nat) (cf : Bool) (data : List Nat)
    (reopen : Option Nat) (hdata : 0 < data.length) (hno : s.no_overflow = false)
    (hinv : RegistryInv s) (hpool : PoolInv s) :
    ∃ b s' added, read_input_fd s fd_in cf { read := ReadResult.bytes data, reopen := reopen } =
        Except.ok (some b, cf, s') ∧
      s'.trace = s.trace ++ added ∧
      ∀ fd, s.is_sink fd → s.max_queue ≤ (s.info fd).buffered_data →
        (s'.info fd).type = (s.info fd).type ∧
        (s'.info fd).name = (s.info fd).name ∧
        (s'.info fd).out_buffers = (s.info fd).out_buffers ∧
        (s'.info fd).buffered_data = (s.info fd).buffered_data ∧
        s'.interest fd = s.interest fd ∧
        (s'.info fd).have_overflowed = true ∧
        overflow_count fd added = (if (s.info fd).have_overflowed = false then 1 else 0) ∧
        (0 < overflow_count fd added ↔ (s.info fd).have_overflowed = false) := by
  have hfree : ∀ b ∈ s.free_buffers, b < s.buffers.length := fun b hb => (hpool.2.1 b hb).1
  obtain ⟨cf', hres, hcf⟩ := read_input_fd_result s fd_in cf data reopen (by omega) hfree
  have hinv3 := load_buffer_registryInv s data hinv
  have hI : ∀ fd, (load_buffer s data).info fd = s.info fd := by
    intro fd; rw [load_buffer_eq]; rfl
  have hM : (load_buffer s data).max_queue = s.max_queue := by rw [load_buffer_eq]
  have hN : (load_buffer s data).no_overflow = s.no_overflow := by rw [load_buffer_eq]
  have hT : (load_buffer s data).trace = s.trace := by rw [load_buffer_eq]
  have hP := fanout_loop_pending (load_buffer s data) (getbuffer s).1 data.length
  have hnil : (fanout_loop (load_buffer s data) (getbuffer s).1 data.length).2 = [] := by
    rw [hP, hN, hno]
    simp
  rw [hnil] at hres
  have hcf' := hcf hnil
  subst hcf'
  obtain ⟨added, htr, hcount⟩ := fanout_loop_trace (load_buffer s data) (getbuffer s).1 data.length
  rw [hT] at htr
  refine ⟨_, _, added, hres, htr, ?_⟩
  intro fd hsink hge
  have hsink' : (s.info fd).type = FDTYPE.CONN ∨ (s.info fd).type = FDTYPE.FIFO := hsink
  have hreg : (s.info fd).type ≠ FDTYPE.NONE := by
    rcases hsink' with e | e <;> rw [e] <;> decide
  have hL := fanout_loop_info (load_buffer s data) (getbuffer s).1 data.length fd
  rw [hI, hM] at hL
  have hfi : fanout_info s.max_queue (getbuffer s).1 data.length (s.info fd) =
      { s.info fd with have_overflowed := true } := by
    unfold fanout_info
    rw [if_pos hsink', if_neg (by omega)]
  rw [hfi] at hL
  have hnacc : ¬ (load_buffer s data).accepts fd := by
    unfold State.accepts
    rw [hI, hM]
    intro h
    have := h.2
    omega
  have hint := fanout_loop_interest (load_buffer s data) (getbuffer s).1 data.length fd hinv3
    (by rw [hI]; exact hreg)
  rw [if_neg hnacc] at hint
  have hint' : (load_buffer s data).interest fd = s.interest fd := by rw [load_buffer_eq]; rfl
  have hrep : (load_buffer s data).reports fd ↔ (s.info fd).have_overflowed = false := by
    unfold State.reports State.is_sink
    rw [hI, hM]
    constructor
    · intro h; exact h.2.2
    · intro h; exact ⟨hsink', by omega, h⟩
  have hc : overflow_count fd added = (if (s.info fd).have_overflowed = false then 1 else 0) := by
    rw [hcount fd]
    by_cases h : (s.info fd).have_overflowed = false
    · rw [if_pos (hrep.mpr h), if_pos h]
    · rw [if_neg (fun x => h (hrep.mp x)), if_neg h]
  refine ⟨by simp [close_pending, hL], by simp [close_pending, hL], by simp [close_pending, hL],
    by simp [close_pending, hL], ?_, by simp [close_pending, hL], hc, ?_⟩
  · simp only [close_pending, List.foldl_nil]
    rw [hint, hint']
  · rw [hc]
    by_cases h : (s.info fd).have_overflowed = false <;> simp [h]

/-! ## Claims on the fan-out -/

/-- C7. Fan-out under budget: after `read_input_fd` with a read of `n > 0` bytes, every
registered sink whose `buffered_data` was below `max_queue` has its old queue
with one entry (the new vector, offset 0) appended at the tail, a
`buffered_data` larger by `n` (in `size_t` arithmetic, and exactly larger by `n`
when that sum fits), the same role and overflow flag, and wait interest
`POLLOUT | POLLERR`; descriptors of role `INPUT` or `LISTENER` keep queue and
counter. The new vector holds the bytes read. The two hypotheses on the state are
the registry invariant and the pool invariant, which every reachable state
satisfies (`reachable_invariants`). -/
theorem fanout_under_budget (s : State) (fd_in : Nat) (cf : Bool) (data : List Nat)
    (reopen : Option Nat) (hdata : 0 < data.length) (hinv : RegistryInv s) (hpool : PoolInv s) :
    ∃ b cf' s', read_input_fd s fd_in cf { read := ReadResult.bytes data, reopen := reopen } =
        Except.ok (some b, cf', s') ∧
      s'.buffers.getD b [] = data ∧
      (∀ fd, s.is_sink fd → (s.info fd).buffered_data < s.max_queue →
        (s'.info fd).type = (s.info fd).type ∧
        (s'.info fd).have_overflowed = (s.info fd).have_overflowed ∧
        (s'.info fd).out_buffers = (s.info fd).out_buffers ++ [{ buffer := b, offset := 0 }] ∧
        (s'.info fd).buffered_data = ((s.info fd).buffered_data + data.length) % SIZE_MOD ∧
        ((s.info fd).buffered_data + data.length < SIZE_MOD →
          (s'.info fd).buffered_data = (s.info fd).buffered_data + data.length) ∧
        s'.interest fd = POLLOUT ||| POLLERR) ∧
      (∀ fd, (s.info fd).type = FDTYPE.INPUT ∨ (s.info fd).type = FDTYPE.LISTENER →
        (s'.info fd).type = (s.info fd).type ∧
        (s'.info fd).out_buffers = (s.info fd).out_buffers ∧
        (s'.info fd).buffered_data = (s.info fd).buffered_data) :=
  read_input_fd_accepting s fd_in cf data reopen hdata hinv hpool

/-- Witness of C7: a three-byte read fanned out over `fanout_example`, where the sink on
descriptor 4 is below its budget. -/
theorem fanout_under_budget_witness :
    0 < [7, 8, 9].length ∧ RegistryInv fanout_example ∧ PoolInv fanout_example ∧
    ∃ b cf' s', read_input_fd fanout_example 0 true
        { read := ReadResult.bytes [7, 8, 9], reopen := none } = Except.ok (some b, cf', s') ∧
      s'.buffers.getD b [] = [7, 8, 9] ∧
      (∀ fd, fanout_example.is_sink fd →
        (fanout_example.info fd).buffered_data < fanout_example.max_queue →
        (s'.info fd).type = (fanout_example.info fd).type ∧
        (s'.info fd).have_overflowed = (fanout_example.info fd).have_overflowed ∧
        (s'.info fd).out_buffers =
          (fanout_example.info fd).out_buffers ++ [{ buffer := b, offset := 0 }] ∧
        (s'.info fd).buffered_data =
          ((fanout_example.info fd).buffered_data + [7, 8, 9].length) % SIZE_MOD ∧
        ((fanout_example.info fd).buffered_data + [7, 8, 9].length < SIZE_MOD →
          (s'.info fd).buffered_data = (fanout_example.info fd).buffered_data + [7, 8, 9].length) ∧
        s'.interest fd = POLLOUT ||| POLLERR) ∧
      (∀ fd, (fanout_example.info fd).type = FDTYPE.INPUT ∨
          (fanout_example.info fd).type = FDTYPE.LISTENER →
        (s'.info fd).type = (fanout_example.info fd).type ∧
        (s'.info fd).out_buffers = (fanout_example.info fd).out_buffers ∧
        (s'.info fd).buffered_data = (fanout_example.info fd).buffered_data) :=
  ⟨by decide, by decide, by decide,
    fanout_under_budget fanout_example 0 true [7, 8, 9] none (by decide) (by decide) (by decide)⟩

/-- C6. Drop-and-warn overflow: with `no_overflow = false`, after `read_input_fd` with
a read of positive length every registered sink whose `buffered_data` was at or
above `max_queue` keeps its queue, its `buffered_data`, its role, its name and
its wait interest, has `have_overflowed` set, and the step emits an overflow
diagnostic for it exactly when the flag was clear before (one line then, none
otherwise). No descriptor is closed, so `continue_flag` is unchanged. The two
hypotheses on the state are the registry invariant and the pool invariant, which
every reachable state satisfies (`reachable_invariants`). -/
theorem overflow_drop_and_warn (s : State) (fd_in : Nat) (cf : Bool) (data : List Nat)
    (reopen : Option Nat) (hdata : 0 < data.length) (hno : s.no_overflow = false)
    (hinv : RegistryInv s) (hpool : PoolInv s) :
    ∃ b s' added, read_input_fd s fd_in cf { read := ReadResult.bytes data, reopen := reopen } =
        Except.ok (some b, cf, s') ∧
      s'.trace = s.trace ++ added ∧
      ∀ fd, s.is_sink fd → s.max_queue ≤ (s.info fd).buffered_data →
        (s'.info fd).type = (s.info fd).type ∧
        (s'.info fd).name = (s.info fd).name ∧
        (s'.info fd).out_buffers = (s.info fd).out_buffers ∧
        (s'.info fd).buffered_data = (s.info fd).buffered_data ∧
        s'.interest fd = s.interest fd ∧
        (s'.info fd).have_overflowed = true ∧
        overflow_count fd added = (if (s.info fd).have_overflowed = false then 1 else 0) ∧
        (0 < overflow_count fd added ↔ (s.info fd).have_overflowed = false) :=
  read_input_fd_rejecting s fd_in cf data reopen hdata hno hinv hpool

/-- Witness of C6: a three-byte read fanned out over `fanout_example`, where the sink on
descriptor 5 is at its budget and not yet reported. -/
theorem overflow_drop_and_warn_witness :
    0 < [7, 8, 9].length ∧ fanout_example.no_overflow = false ∧ RegistryInv fanout_example ∧
    PoolInv fanout_example ∧ fanout_example.is_sink 5 ∧
    fanout_example.max_queue ≤ (fanout_example.info 5).buffered_data ∧
    ∃ b s' added, read_input_fd fanout_example 0 true
        { read := ReadResult.bytes [7, 8, 9], reopen := none } = Except.ok (some b, true, s') ∧
      s'.trace = fanout_example.trace ++ added ∧
      (s'.info 5).out_buffers = (fanout_example.info 5).out_buffers ∧
      (s'.info 5).have_overflowed = true ∧ overflow_count 5 added = 1 :=
  ⟨by decide, by decide, by decide, by decide, by decide, by decide,
    match overflow_drop_and_warn fanout_example 0 true [7, 8, 9] none (by decide) (by decide)
      (by decide) (by decide) with
    | ⟨b, s', added, h1, h2, h3⟩ =>
      ⟨b, s', added, h1, h2, (h3 5 (by decide) (by decide)).2.2.1,
        (h3 5 (by decide) (by decide)).2.2.2.2.2.1,
        (h3 5 (by decide) (by decide)).2.2.2.2.2.2.1⟩⟩

/-! ## The pool invariant -/

theorem mem_fdinfos_iff (s : State) (x : fdinfo) :
    x ∈ s.fdinfos ↔ ∃ fd, fd < s.fdinfos.length ∧ s.info fd = x := by
  constructor
  · intro h
    obtain ⟨i, hi, he⟩ := List.getElem_of_mem h
    refine ⟨i, hi, ?_⟩
    simp only [State.info]
    rw [List.getD_eq_getElem _ _ hi]
    exact he
  · rintro ⟨fd, hlt, he⟩
    simp only [State.info] at he
    rw [List.getD_eq_getElem _ _ hlt] at he
    rw [← he]
    exact List.getElem_mem _

theorem default_queue : (default : fdinfo).out_buffers = [] := rfl

theorem queue_holds_false_iff (s : State) (b : Nat) :
    queue_holds s b = false ↔ ∀ fd, ∀ e ∈ (s.info fd).out_buffers, e.buffer ≠ b := by
  unfold queue_holds
  rw [Bool.eq_false_iff]
  simp only [ne_eq, List.any_eq_true, beq_iff_eq, not_exists, not_and]
  constructor
  · intro h fd e he
    by_cases hlt : fd < s.fdinfos.length
    · exact h (s.info fd) ((mem_fdinfos_iff s _).mpr ⟨fd, hlt, rfl⟩) e he
    · rw [info_default_of_ge s fd (by omega), default_queue] at he
      simp at he
  · intro h x hx e he
    obtain ⟨fd, _, hfd⟩ := (mem_fdinfos_iff s x).mp hx
    subst hfd
    exact h fd e he

/-- The pool invariant in terms of the table accessor. -/
theorem poolInv_iff (s : State) :
    PoolInv s ↔
      s.free_buffers.Nodup ∧
      (∀ b ∈ s.free_buffers, b < s.buffers.length ∧
        ∀ fd, ∀ e ∈ (s.info fd).out_buffers, e.buffer ≠ b) ∧
      (∀ fd, ∀ e ∈ (s.info fd).out_buffers, e.buffer < s.buffers.length) := by
  unfold PoolInv
  constructor
  · rintro ⟨h1, h2, h3⟩
    refine ⟨h1, ?_, ?_⟩
    · intro b hb
      exact ⟨(h2 b hb).1, (queue_holds_false_iff s b).mp (h2 b hb).2⟩
    · intro fd e he
      by_cases hlt : fd < s.fdinfos.length
      · exact h3 (s.info fd) ((mem_fdinfos_iff s _).mpr ⟨fd, hlt, rfl⟩) e he
      · rw [info_default_of_ge s fd (by omega), default_queue] at he
        simp at he
  · rintro ⟨h1, h2, h3⟩
    refine ⟨h1, ?_, ?_⟩
    · intro b hb
      exact ⟨(h2 b hb).1, (queue_holds_false_iff s b).mpr (h2 b hb).2⟩
    · intro x hx e he
      obtain ⟨fd, _, hfd⟩ := (mem_fdinfos_iff s x).mp hx
      subst hfd
      exact h3 fd e he

/-- An operation that leaves the pool alone, frees no vector and adds to no queue a
vector that the queue did not hold keeps the pool invariant. -/
theorem poolInv_of_queues_within (s t : State) (hfree : t.free_buffers = s.free_buffers)
    (hlen : s.buffers.length ≤ t.buffers.length)
    (hq : ∀ fd, ∀ e ∈ (t.info fd).out_buffers,
      ∃ e' ∈ (s.info fd).out_buffers, e'.buffer = e.buffer)
    (hpool : PoolInv s) : PoolInv t := by
  rw [poolInv_iff] at hpool ⊢
  obtain ⟨h1, h2, h3⟩ := hpool
  refine ⟨hfree ▸ h1, ?_, ?_⟩
  · intro b hb
    rw [hfree] at hb
    refine ⟨by have := (h2 b hb).1; omega, ?_⟩
    intro fd e he hbe
    obtain ⟨e', he', hee⟩ := hq fd e he
    exact (h2 b hb).2 fd e' he' (hee.trans hbe)
  · intro fd e he
    obtain ⟨e', he', hee⟩ := hq fd e he
    have := h3 fd e' he'
    omega

theorem addpollfd_queue (s : State) (fd events : Nat) (type : FDTYPE) (name : String)
    (fd' : Nat) :
    ((addpollfd s fd events type name).info fd').out_buffers = (s.info fd').out_buffers ∧
    ((addpollfd s fd events type name).info fd').buffered_data = (s.info fd').buffered_data ∧
    ((addpollfd s fd events type name).info fd').have_overflowed =
      (s.info fd').have_overflowed := by
  by_cases h : (s.info fd).type = FDTYPE.NONE
  · rw [addpollfd_new_info s fd events type name h]
    split
    · rename_i e; subst e; exact ⟨rfl, rfl, rfl⟩
    · exact ⟨rfl, rfl, rfl⟩
  · rw [addpollfd_dup s fd events type name h]
    exact ⟨rfl, rfl, rfl⟩

theorem addpollfd_frame (s : State) (fd events : Nat) (type : FDTYPE) (name : String) :
    (addpollfd s fd events type name).buffers = s.buffers ∧
    (addpollfd s fd events type name).free_buffers = s.free_buffers ∧
    (addpollfd s fd events type name).max_queue = s.max_queue ∧
    (addpollfd s fd events type name).no_overflow = s.no_overflow ∧
    (addpollfd s fd events type name).use_stdout = s.use_stdout := by
  unfold addpollfd grow
  simp only []
  split_ifs <;> simp [State.set_info, State.emit]

theorem addpollfd_poolInv (s : State) (fd events : Nat) (type : FDTYPE) (name : String)
    (hpool : PoolInv s) : PoolInv (addpollfd s fd events type name) := by
  apply poolInv_of_queues_within s _ (addpollfd_frame s fd events type name).2.1
    (by rw [(addpollfd_frame s fd events type name).1]) _ hpool
  intro fd' e he
  rw [(addpollfd_queue s fd events type name fd').1] at he
  exact ⟨e, he, rfl⟩

theorem fill_slot_info (s : State) (offset fd' : Nat) :
    ((fill_slot s offset).info fd').type = (s.info fd').type ∧
    ((fill_slot s offset).info fd').name = (s.info fd').name ∧
    ((fill_slot s offset).info fd').out_buffers = (s.info fd').out_buffers ∧
    ((fill_slot s offset).info fd').buffered_data = (s.info fd').buffered_data ∧
    ((fill_slot s offset).info fd').have_overflowed = (s.info fd').have_overflowed := by
  unfold fill_slot
  split
  · simp only []
    rw [info_set_info]
    split
    · rename_i h
      rw [← h.1]
      exact ⟨rfl, rfl, rfl, rfl, rfl⟩
    · exact ⟨rfl, rfl, rfl, rfl, rfl⟩
  · exact ⟨rfl, rfl, rfl, rfl, rfl⟩

theorem fill_slot_length (s : State) (offset : Nat) :
    (fill_slot s offset).fdinfos.length = s.fdinfos.length := by
  unfold fill_slot
  split <;> simp

/-- The queues after `delpollfd`, on any state: the queue of a removed descriptor is
empty, every other queue and every counter is kept. -/
theorem delpollfd_queue (s : State) (fd fd' : Nat) :
    ((delpollfd s fd).info fd').out_buffers =
      (if fd' = fd ∧ (s.info fd).type ≠ FDTYPE.NONE then [] else (s.info fd').out_buffers) ∧
    ((delpollfd s fd).info fd').buffered_data = (s.info fd').buffered_data ∧
    ((delpollfd s fd).info fd').have_overflowed = (s.info fd').have_overflowed ∧
    ((delpollfd s fd).info fd').name = (s.info fd').name ∧
    ((delpollfd s fd).info fd').type =
      (if fd' = fd then FDTYPE.NONE else (s.info fd').type) := by
  by_cases hreg : (s.info fd).type = FDTYPE.NONE
  · rw [delpollfd_missing s fd hreg]
    simp only [emit_info, hreg, ne_eq, not_true_eq_false, and_false, if_false, true_and]
    split
    · rename_i e; rw [e, hreg]
    · rfl
  · have hlt := info_lt_of_type s fd hreg
    have hlt' : fd < (fill_slot s (s.info fd).pollfd_offset).fdinfos.length := by
      rw [fill_slot_length]; exact hlt
    obtain ⟨f1, f2, f3, f4, f5⟩ := fill_slot_info s (s.info fd).pollfd_offset fd'
    have hinfo : ∀ (t : State) (l : List pollfd) (g : Nat),
        ({ t with pollfds := l } : State).info g = t.info g := fun _ _ _ => rfl
    have hset : ∀ (t : State) (l : List pollfd) (g : Nat) (x : fdinfo),
        (({ t with pollfds := l } : State).set_info g x).info fd' =
          if g = fd' ∧ g < t.fdinfos.length then x else t.info fd' := by
      intro t l g x
      rw [info_set_info]
      rfl
    unfold delpollfd
    rw [if_neg (by intro h; rcases h with h | h; omega; exact hreg h)]
    simp only [fdinfo.clear, ne_eq, hreg, not_false_eq_true, and_true, info_set_info,
      set_info_length, hinfo]
    by_cases h : fd' = fd
    · subst h
      simp [hlt', f2, f4, f5]
    · have h' : ¬ fd = fd' := fun e => h e.symm
      simp [h, h', f1, f2, f3, f4, f5]

theorem delpollfd_poolInv (s : State) (fd : Nat) (hpool : PoolInv s) :
    PoolInv (delpollfd s fd) := by
  apply poolInv_of_queues_within s _ (delpollfd_frame s fd).2.1
    (by rw [(delpollfd_frame s fd).1]) _ hpool
  intro fd' e he
  rw [(delpollfd_queue s fd fd').1] at he
  split at he
  · simp at he
  · exact ⟨e, he, rfl⟩

theorem unique_iff (s : State) (b : Nat) :
    unique s b = true ↔ queue_holds s b = false ∧ b ∉ s.free_buffers := by
  unfold unique
  simp

theorem finished_with_buffer_info (s : State) (b fd : Nat) :
    (finished_with_buffer s b).info fd = s.info fd := by
  unfold finished_with_buffer
  split <;> rfl

theorem finished_with_buffer_frame (s : State) (b : Nat) :
    (finished_with_buffer s b).fdinfos = s.fdinfos ∧
    (finished_with_buffer s b).pollfds = s.pollfds ∧
    (finished_with_buffer s b).buffers = s.buffers ∧
    (finished_with_buffer s b).trace = s.trace ∧
    (finished_with_buffer s b).max_queue = s.max_queue ∧
    (finished_with_buffer s b).no_overflow = s.no_overflow ∧
    (finished_with_buffer s b).use_stdout = s.use_stdout := by
  unfold finished_with_buffer
  split <;> exact ⟨rfl, rfl, rfl, rfl, rfl, rfl, rfl⟩

theorem finished_with_buffer_poolInv (s : State) (b : Nat) (hb : b < s.buffers.length)
    (hpool : PoolInv s) : PoolInv (finished_with_buffer s b) := by
  unfold finished_with_buffer
  split
  · rename_i hu
    obtain ⟨hq, hnf⟩ := (unique_iff s b).mp hu
    obtain ⟨h1, h2, h3⟩ := hpool
    refine ⟨?_, ?_, h3⟩
    · simp only
      rw [List.nodup_append]
      refine ⟨h1, List.nodup_singleton b, ?_⟩
      intro x hx hx'
      rw [List.mem_singleton] at hx'
      subst hx'
      exact hnf hx
    · intro b' hb'
      simp only [List.mem_append, List.mem_singleton] at hb'
      rcases hb' with hb' | hb'
      · exact h2 b' hb'
      · subst hb'
        exact ⟨hb, hq⟩
  · exact hpool

theorem finished_with_buffer_registryInv (s : State) (b : Nat) (hinv : RegistryInv s) :
    RegistryInv (finished_with_buffer s b) := by
  unfold finished_with_buffer
  split
  · exact hinv
  · exact hinv

/-- What `getbuffer` returns under the pool invariant: an allocated vector that no
queue holds and that is no longer in the pool; every other vector is untouched. -/
theorem getbuffer_spec (s : State) (hpool : PoolInv s) :
    s.buffers.length ≤ (getbuffer s).2.buffers.length ∧
    (getbuffer s).1 < (getbuffer s).2.buffers.length ∧
    (getbuffer s).2.free_buffers.Nodup ∧
    (∀ b' ∈ (getbuffer s).2.free_buffers, b' ∈ s.free_buffers ∧ b' ≠ (getbuffer s).1) ∧
    (∀ fd, ∀ e ∈ (s.info fd).out_buffers, e.buffer ≠ (getbuffer s).1) ∧
    (∀ i, i ≠ (getbuffer s).1 → (getbuffer s).2.buffers.getD i [] = s.buffers.getD i []) := by
  rw [poolInv_iff] at hpool
  obtain ⟨h1, h2, h3⟩ := hpool
  unfold getbuffer
  split
  · rename_i hnone
    simp only [List.length_append, List.length_singleton]
    refine ⟨by omega, by omega, h1, ?_, ?_, ?_⟩
    · intro b' hb'
      rw [List.getLast?_eq_none_iff.mp hnone] at hb'
      simp at hb'
    · intro fd e he heq
      have := h3 fd e he
      omega
    · intro i hi
      simp only [List.getD_eq_getElem?_getD, List.getElem?_append]
      by_cases hlt : i < s.buffers.length
      · simp [hlt]
      · simp only [hlt, if_false]
        rw [List.getElem?_eq_none (Nat.le_of_not_lt hlt)]
        have : i - s.buffers.length ≠ 0 := by omega
        cases hk : i - s.buffers.length with
        | zero => exact absurd hk this
        | succ k => simp
  · rename_i b hb
    obtain ⟨ys, hys⟩ := List.getLast?_eq_some_iff.mp hb
    have hmem : b ∈ s.free_buffers := by rw [hys]; simp
    have hdrop : s.free_buffers.dropLast = ys := by rw [hys]; simp
    simp only [hdrop]
    rw [hys] at h1
    have hnd := List.nodup_append.mp h1
    refine ⟨Nat.le_refl _, (h2 b hmem).1, hnd.1, ?_, ?_, by intros; trivial⟩
    · intro b' hb'
      refine ⟨by rw [hys]; simp [hb'], ?_⟩
      intro heq
      subst heq
      exact hnd.2.2 hb' (List.mem_singleton_self _)
    · intro fd e he
      exact (h2 b hmem).2 fd e he

theorem fanout_info_queue (m b n : Nat) (x : fdinfo) (e : fd_out_buffer)
    (he : e ∈ (fanout_info m b n x).out_buffers) :
    e ∈ x.out_buffers ∨ e = { buffer := b, offset := 0 } := by
  unfold fanout_info at he
  split_ifs at he
  · simp only [List.mem_append, List.mem_singleton] at he
    exact he
  · exact Or.inl he
  · exact Or.inl he

theorem close_poolInv (s : State) (fd : Nat) (hpool : PoolInv s) : PoolInv (close s fd) :=
  hpool

theorem close_pending_poolInv (s : State) (fds : List Nat) (hpool : PoolInv s) :
    PoolInv (close_pending s fds) := by
  induction fds generalizing s with
  | nil => exact hpool
  | cons fd fds ih =>
    rw [close_pending_cons]
    exact ih _ (delpollfd_poolInv _ fd (close_poolInv s fd hpool))

theorem load_buffer_frame (s : State) (data : List Nat) :
    (load_buffer s data).free_buffers = (getbuffer s).2.free_buffers ∧
    (load_buffer s data).buffers.length = (getbuffer s).2.buffers.length ∧
    (∀ fd, (load_buffer s data).info fd = s.info fd) ∧
    (load_buffer s data).max_queue = s.max_queue ∧
    (load_buffer s data).no_overflow = s.no_overflow ∧
    (load_buffer s data).use_stdout = s.use_stdout ∧
    (load_buffer s data).trace = s.trace ∧
    (load_buffer s data).pollfds = s.pollfds ∧
    (load_buffer s data).fdinfos = s.fdinfos := by
  rw [load_buffer_eq]
  refine ⟨rfl, ?_, fun _ => rfl, rfl, rfl, rfl, rfl, rfl, rfl⟩
  simp only [List.length_set]

/-- The pool invariant after the fan-out loop. -/
theorem fanout_loop_poolInv (s : State) (data : List Nat) (hpool : PoolInv s) :
    PoolInv (fanout_loop (load_buffer s data) (getbuffer s).1 data.length).1 := by
  obtain ⟨g1, g2, g3, g4, g5, _⟩ := getbuffer_spec s hpool
  obtain ⟨l1, l2, l3, l4, _⟩ := load_buffer_frame s data
  have hF := fanout_loop_frame (load_buffer s data) (getbuffer s).1 data.length
  have hpool' := (poolInv_iff s).mp hpool
  rw [poolInv_iff]
  rw [hF.2.2.2.2.2.2.2.1, hF.2.2.2.2.2.2.1, l1, l2]
  refine ⟨g3, ?_, ?_⟩
  · intro b' hb'
    obtain ⟨hmem, hne⟩ := g4 b' hb'
    refine ⟨by have := (hpool'.2.1 b' hmem).1; omega, ?_⟩
    intro fd e he
    rw [fanout_loop_info, l3] at he
    rcases fanout_info_queue _ _ _ _ e he with h | h
    · exact (hpool'.2.1 b' hmem).2 fd e h
    · rw [h]
      exact fun x => hne x.symm
  · intro fd e he
    rw [fanout_loop_info, l3] at he
    rcases fanout_info_queue _ _ _ _ e he with h | h
    · have := hpool'.2.2 fd e h
      omega
    · rw [h]
      exact g2

theorem fanout_state_poolInv (s : State) (data : List Nat) (hpool : PoolInv s) :
    PoolInv (fanout_state s data) :=
  close_pending_poolInv _ _ (fanout_loop_poolInv s data hpool)

theorem fanout_state_registryInv (s : State) (data : List Nat) (hinv : RegistryInv s) :
    RegistryInv (fanout_state s data) :=
  close_pending_registryInv _ _
    (fanout_loop_registryInv _ _ _ (load_buffer_registryInv s data hinv))

theorem fanout_state_buffers (s : State) (data : List Nat) :
    (fanout_state s data).buffers = (load_buffer s data).buffers := by
  unfold fanout_state
  rw [(close_pending_frame _ _).1, (fanout_loop_frame _ _ _).2.2.2.2.2.2.1]

/-! ## The write loop -/

theorem write_loop_nil (s : State) (fd : Nat) (cf : Bool) (item : fd_out_buffer) :
    write_loop s fd cf item [] =
      if (s.buffers.getD item.buffer []).length > item.offset then none
      else some (finished_with_buffer s item.buffer, cf) := by
  simp only [write_loop]

theorem write_loop_done (s : State) (fd : Nat) (cf : Bool) (item : fd_out_buffer)
    (ws : List WriteResult) (h : ¬ (s.buffers.getD item.buffer []).length > item.offset) :
    write_loop s fd cf item ws = some (finished_with_buffer s item.buffer, cf) := by
  cases ws with
  | nil => simp only [write_loop, h, if_false]
  | cons w ws => simp only [write_loop, h, if_false]

theorem write_loop_again (s : State) (fd : Nat) (cf : Bool) (item : fd_out_buffer)
    (ws : List WriteResult) (h : (s.buffers.getD item.buffer []).length > item.offset) :
    write_loop s fd cf item (WriteResult.again :: ws) =
      some (s.set_info fd { s.info fd with out_buffers := item :: (s.info fd).out_buffers },
        cf) := by
  simp only [write_loop, h, if_true]

theorem write_loop_failed (s : State) (fd : Nat) (cf : Bool) (item : fd_out_buffer)
    (epipe : Bool) (ws : List WriteResult)
    (h : (s.buffers.getD item.buffer []).length > item.offset) :
    write_loop s fd cf item (WriteResult.failed epipe :: ws) =
      some (finished_with_buffer
        (delpollfd (close (if epipe then s else s.emit (Effect.write_failed fd (s.info fd).name))
          fd) fd) item.buffer, false) := by
  simp only [write_loop, h, if_true]

theorem write_loop_wrote (s : State) (fd : Nat) (cf : Bool) (item : fd_out_buffer)
    (result : Nat) (ws : List WriteResult)
    (h : (s.buffers.getD item.buffer []).length > item.offset) :
    write_loop s fd cf item (WriteResult.wrote result :: ws) =
      if result > (s.buffers.getD item.buffer []).length - item.offset then none
      else write_loop (after_write s fd item result) fd cf
        { item with offset := item.offset + result } ws := by
  simp only [write_loop, h, if_true]
  rfl

/-- Proof rule for the write loop: a property of (state, entry being written) that
every successful `write` keeps, and that yields the postcondition at each of the
three exits of the loop, yields the postcondition of every completed run. -/
theorem write_loop_rule (fd : Nat) (cf : Bool) (Inv : State → fd_out_buffer → Prop)
    (Post : State → Bool → Prop)
    (hdone : ∀ s item, Inv s item → ¬ (s.buffers.getD item.buffer []).length > item.offset →
      Post (finished_with_buffer s item.buffer) cf)
    (hagain : ∀ s item, Inv s item → (s.buffers.getD item.buffer []).length > item.offset →
      Post (s.set_info fd { s.info fd with out_buffers := item :: (s.info fd).out_buffers }) cf)
    (hfailed : ∀ s item (epipe : Bool), Inv s item →
      (s.buffers.getD item.buffer []).length > item.offset →
      Post (finished_with_buffer
        (delpollfd (close (if epipe then s else s.emit (Effect.write_failed fd (s.info fd).name))
          fd) fd) item.buffer) false)
    (hwrote : ∀ s item result, Inv s item →
      (s.buffers.getD item.buffer []).length > item.offset →
      result ≤ (s.buffers.getD item.buffer []).length - item.offset →
      Inv (after_write s fd item result) { item with offset := item.offset + result })
    (ws : List WriteResult) (s : State) (item : fd_out_buffer) (t : State) (cf' : Bool)
    (hinv : Inv s item) (hrun : write_loop s fd cf item ws = some (t, cf')) : Post t cf' := by
  induction ws generalizing s item with
  | nil =>
    rw [write_loop_nil] at hrun
    split at hrun
    · exact absurd hrun (by simp)
    · rename_i h
      simp only [Option.some.injEq, Prod.mk.injEq] at hrun
      rw [← hrun.1, ← hrun.2]
      exact hdone s item hinv h
  | cons w ws ih =>
    by_cases h : (s.buffers.getD item.buffer []).length > item.offset
    · cases w with
      | again =>
        rw [write_loop_again s fd cf item ws h] at hrun
        simp only [Option.some.injEq, Prod.mk.injEq] at hrun
        rw [← hrun.1, ← hrun.2]
        exact hagain s item hinv h
      | failed epipe =>
        rw [write_loop_failed s fd cf item epipe ws h] at hrun
        simp only [Option.some.injEq, Prod.mk.injEq] at hrun
        rw [← hrun.1, ← hrun.2]
        exact hfailed s item epipe hinv h
      | wrote result =>
        rw [write_loop_wrote s fd cf item result ws h] at hrun
        split at hrun
        · exact absurd hrun (by simp)
        · rename_i hle
          exact ih _ _ (hwrote s item result hinv h (by omega)) hrun
    · rw [write_loop_done s fd cf item _ h] at hrun
      simp only [Option.some.injEq, Prod.mk.injEq] at hrun
      rw [← hrun.1, ← hrun.2]
      exact hdone s item hinv h

theorem registryInv_set_info (s : State) (fd : Nat) (x : fdinfo)
    (h1 : x.type = (s.info fd).type) (h2 : x.pollfd_offset = (s.info fd).pollfd_offset)
    (hinv : RegistryInv s) : RegistryInv (s.set_info fd x) := by
  refine registryInv_congr s (s.set_info fd x) (by simp) (by simp) (fun _ => rfl) ?_ hinv
  intro fd'
  rw [info_set_info]
  split
  · rename_i h
    rw [← h.1]
    exact ⟨h1, h2⟩
  · exact ⟨rfl, rfl⟩

theorem registryInv_set_slot (s : State) (i : Nat) (p : pollfd) (h : p.fd = (s.slot i).fd)
    (hinv : RegistryInv s) : RegistryInv (s.set_slot i p) := by
  refine registryInv_congr s (s.set_slot i p) (by simp) (by simp) ?_ (fun _ => ⟨rfl, rfl⟩) hinv
  intro j
  rw [slot_set_slot]
  split
  · rename_i hh
    rw [← hh.1]
    exact h
  · rfl

theorem after_write_info (s : State) (fd : Nat) (item : fd_out_buffer) (result fd' : Nat) :
    ((after_write s fd item result).info fd').type = (s.info fd').type ∧
    ((after_write s fd item result).info fd').pollfd_offset = (s.info fd').pollfd_offset ∧
    ((after_write s fd item result).info fd').name = (s.info fd').name ∧
    ((after_write s fd item result).info fd').out_buffers = (s.info fd').out_buffers ∧
    ((after_write s fd item result).info fd').have_overflowed = (s.info fd').have_overflowed := by
  unfold after_write
  rw [info_set_info]
  split
  · rename_i h
    rw [← h.1]
    exact ⟨rfl, rfl, rfl, rfl, rfl⟩
  · exact ⟨rfl, rfl, rfl, rfl, rfl⟩

theorem after_write_frame (s : State) (fd : Nat) (item : fd_out_buffer) (result : Nat) :
    (after_write s fd item result).buffers = s.buffers ∧
    (after_write s fd item result).free_buffers = s.free_buffers ∧
    (after_write s fd item result).pollfds = s.pollfds ∧
    (after_write s fd item result).fdinfos.length = s.fdinfos.length ∧
    (after_write s fd item result).max_queue = s.max_queue ∧
    (after_write s fd item result).trace = s.trace ++
      [Effect.wrote fd (((s.buffers.getD item.buffer []).drop item.offset).take result)] := by
  unfold after_write
  refine ⟨rfl, rfl, rfl, ?_, rfl, rfl⟩
  simp [State.set_info, State.emit]

theorem after_write_registryInv (s : State) (fd : Nat) (item : fd_out_buffer) (result : Nat)
    (hinv : RegistryInv s) : RegistryInv (after_write s fd item result) := by
  apply registryInv_congr s _ _ (after_write_frame s fd item result).2.2.2.1 _ _ hinv
  · rw [(after_write_frame s fd item result).2.2.1]
  · intro i
    simp only [State.slot, (after_write_frame s fd item result).2.2.1]
  · intro fd'
    exact ⟨(after_write_info s fd item result fd').1, (after_write_info s fd item result fd').2.1⟩

theorem after_write_poolInv (s : State) (fd : Nat) (item : fd_out_buffer) (result : Nat)
    (hpool : PoolInv s) : PoolInv (after_write s fd item result) := by
  apply poolInv_of_queues_within s _ (after_write_frame s fd item result).2.1
    (by rw [(after_write_frame s fd item result).1]) _ hpool
  intro fd' e he
  rw [(after_write_info s fd item result fd').2.2.2.1] at he
  exact ⟨e, he, rfl⟩

theorem write_loop_registryInv (s : State) (fd : Nat) (cf : Bool) (item : fd_out_buffer)
    (ws : List WriteResult) (t : State) (cf' : Bool) (hinv : RegistryInv s)
    (hrun : write_loop s fd cf item ws = some (t, cf')) : RegistryInv t := by
  refine write_loop_rule fd cf (fun s _ => RegistryInv s) (fun t _ => RegistryInv t)
    ?_ ?_ ?_ ?_ ws s item t cf' hinv hrun
  · intro s item h _
    exact finished_with_buffer_registryInv s _ h
  · intro s item h _
    exact registryInv_set_info s fd _ rfl rfl h
  · intro s item epipe h _
    apply finished_with_buffer_registryInv
    apply delpollfd_registryInv
    cases epipe
    · exact h
    · exact h
  · intro s item result h _ _
    exact after_write_registryInv s fd item result h

theorem write_loop_poolInv (s : State) (fd : Nat) (cf : Bool) (item : fd_out_buffer)
    (ws : List WriteResult) (t : State) (cf' : Bool) (hpool : PoolInv s)
    (hlt : item.buffer < s.buffers.length) (hfree : item.buffer ∉ s.free_buffers)
    (hrun : write_loop s fd cf item ws = some (t, cf')) : PoolInv t := by
  refine write_loop_rule fd cf
    (fun s item => PoolInv s ∧ item.buffer < s.buffers.length ∧ item.buffer ∉ s.free_buffers)
    (fun t _ => PoolInv t) ?_ ?_ ?_ ?_ ws s item t cf' ⟨hpool, hlt, hfree⟩ hrun
  · intro s item h _
    exact finished_with_buffer_poolInv s _ h.2.1 h.1
  · intro s item h _
    obtain ⟨hp, hl, hf⟩ := h
    rw [poolInv_iff] at hp ⊢
    obtain ⟨h1, h2, h3⟩ := hp
    refine ⟨h1, ?_, ?_⟩
    · intro b hb
      refine ⟨(h2 b hb).1, ?_⟩
      intro fd' e he
      rw [info_set_info] at he
      split at he
      · simp only [List.mem_cons] at he
        rcases he with he | he
        · rw [he]
          intro heq
          exact hf (heq ▸ hb)
        · exact (h2 b hb).2 fd e he
      · exact (h2 b hb).2 fd' e he
    · intro fd' e he
      rw [info_set_info] at he
      split at he
      · simp only [List.mem_cons] at he
        rcases he with he | he
        · rw [he]; exact hl
        · exact h3 fd e he
      · exact h3 fd' e he
  · intro s item epipe h _
    obtain ⟨hp, hl, hf⟩ := h
    apply finished_with_buffer_poolInv
    · rw [(delpollfd_frame _ fd).1]
      cases epipe
      · exact hl
      · exact hl
    · apply delpollfd_poolInv
      cases epipe
      · exact hp
      · exact hp
  · intro s item result h _ _
    obtain ⟨hp, hl, hf⟩ := h
    refine ⟨after_write_poolInv s fd item result hp, ?_, ?_⟩
    · rw [(after_write_frame s fd item result).1]; exact hl
    · rw [(after_write_frame s fd item result).2.1]; exact hf

/-! ## Steps keep the invariants -/

theorem fanout_state_frame (s : State) (data : List Nat) :
    (fanout_state s data).use_stdout = s.use_stdout ∧
    (fanout_state s data).max_queue = s.max_queue ∧
    (fanout_state s data).no_overflow = s.no_overflow := by
  unfold fanout_state
  obtain ⟨c1, c2, c3, c4, c5⟩ := close_pending_frame
    (fanout_loop (load_buffer s data) (getbuffer s).1 data.length).1
    (fanout_loop (load_buffer s data) (getbuffer s).1 data.length).2
  obtain ⟨f1, f2, f3, _⟩ := fanout_loop_frame (load_buffer s data) (getbuffer s).1 data.length
  obtain ⟨_, _, _, l4, l5, l6, _⟩ := load_buffer_frame s data
  exact ⟨c5.trans (f3.trans l6), c3.trans (f1.trans l4), c4.trans (f2.trans l5)⟩

/-- Closed form of the fan-out step. -/
theorem step_fanout_eq (s : State) (fd : Nat) (data : List Nat) (mirror_ok : Bool)
    (hpool : PoolInv s) (hlen : data.length ≠ 0) (hle : data.length ≤ 4096) :
    step s (Event.fanout fd data mirror_ok) =
      if s.use_stdout = true ∧ mirror_ok = false then none else some (input_state s data) := by
  have hfree : ∀ b ∈ s.free_buffers, b < s.buffers.length := fun b hb => (hpool.2.1 b hb).1
  obtain ⟨cf', hres, _⟩ := read_input_fd_result s fd true data none hlen hfree
  have hres' : read_input_fd s fd true { read := ReadResult.bytes data } =
      Except.ok (some (getbuffer s).1, cf', fanout_state s data) := hres
  have hcontent : (fanout_state s data).buffers.getD (getbuffer s).1 [] = data := by
    rw [fanout_state_buffers]
    exact load_buffer_content s data hfree
  have hu := (fanout_state_frame s data).1
  simp only [step, dispatch_input, hres', hlen, false_or, hcontent, hu, input_state]
  rw [if_neg (by omega)]
  cases h1 : s.use_stdout <;> cases h2 : mirror_ok <;> simp

theorem input_state_invariants (s : State) (data : List Nat) (hinv : RegistryInv s)
    (hpool : PoolInv s) : RegistryInv (input_state s data) ∧ PoolInv (input_state s data) := by
  have hr := fanout_state_registryInv s data hinv
  have hp := fanout_state_poolInv s data hpool
  have hb : (getbuffer s).1 < (fanout_state s data).buffers.length := by
    rw [fanout_state_buffers, (load_buffer_frame s data).2.1]
    exact (getbuffer_spec s hpool).2.1
  unfold input_state
  cases hu : s.use_stdout
  · exact ⟨finished_with_buffer_registryInv _ _ hr, finished_with_buffer_poolInv _ _ hb hp⟩
  · exact ⟨finished_with_buffer_registryInv _ _ hr, finished_with_buffer_poolInv _ _ hb hp⟩

theorem set_revents_invariants (s : State) (i revents : Nat) (hinv : RegistryInv s)
    (hpool : PoolInv s) :
    RegistryInv (set_revents s i revents) ∧ PoolInv (set_revents s i revents) :=
  ⟨registryInv_set_slot s i _ rfl hinv, hpool⟩

theorem dispatch_sink_invariants (s : State) (i : Nat) (cf : Bool) (ws : List WriteResult)
    (t : State) (cf' : Bool) (hinv : RegistryInv s) (hpool : PoolInv s)
    (hrun : dispatch_sink s i cf ws = some (t, cf')) : RegistryInv t ∧ PoolInv t := by
  unfold dispatch_sink at hrun
  simp only [] at hrun
  split at hrun
  · simp only [Option.some.injEq, Prod.mk.injEq] at hrun
    rw [← hrun.1]
    exact ⟨delpollfd_registryInv _ _ hinv, delpollfd_poolInv _ _ hpool⟩
  · split at hrun
    · simp only [Option.some.injEq, Prod.mk.injEq] at hrun
      rw [← hrun.1]
      exact ⟨registryInv_set_slot s i _ rfl hinv, hpool⟩
    · rename_i item rest hq
      have hpool' := (poolInv_iff s).mp hpool
      have hmem : item ∈ (s.info (s.slot i).fd).out_buffers := by rw [hq]; simp
      have hpool1 : PoolInv (s.set_info (s.slot i).fd
          { s.info (s.slot i).fd with out_buffers := rest }) := by
        refine poolInv_of_queues_within s _ rfl (Nat.le_refl _) ?_ hpool
        intro fd' e he
        rw [info_set_info] at he
        split at he
        · rename_i hh
          rw [← hh.1]
          exact ⟨e, by rw [hq]; exact List.mem_cons_of_mem _ he, rfl⟩
        · exact ⟨e, he, rfl⟩
      have hreg1 : RegistryInv (s.set_info (s.slot i).fd
          { s.info (s.slot i).fd with out_buffers := rest }) :=
        registryInv_set_info s _ _ rfl rfl hinv
      refine ⟨write_loop_registryInv _ _ _ _ _ _ _ hreg1 hrun, ?_⟩
      refine write_loop_poolInv _ _ _ _ _ _ _ hpool1 (hpool'.2.2 _ item hmem) ?_ hrun
      intro hfree
      exact (hpool'.2.1 _ hfree).2 _ item hmem rfl

/-- Every step keeps the registry invariant and the pool invariant. -/
theorem step_invariants (s s' : State) (e : Event) (hinv : RegistryInv s) (hpool : PoolInv s)
    (hstep : step s e = some s') : RegistryInv s' ∧ PoolInv s' := by
  cases e with
  | register fd events type name =>
    simp only [step] at hstep
    split at hstep
    · exact absurd hstep (by simp)
    · rename_i ht
      simp only [Option.some.injEq] at hstep
      rw [← hstep]
      exact ⟨addpollfd_registryInv s fd events type name hinv ht,
        addpollfd_poolInv s fd events type name hpool⟩
  | deregister fd =>
    simp only [step, Option.some.injEq] at hstep
    rw [← hstep]
    exact ⟨delpollfd_registryInv s fd hinv, delpollfd_poolInv s fd hpool⟩
  | fanout fd data mirror_ok =>
    by_cases hlen : data.length = 0 ∨ 4096 < data.length
    · simp only [step, hlen, if_true] at hstep
      exact absurd hstep (by simp)
    · rw [step_fanout_eq s fd data mirror_ok hpool (by omega) (by omega)] at hstep
      split at hstep
      · exact absurd hstep (by simp)
      · simp only [Option.some.injEq] at hstep
        rw [← hstep]
        exact input_state_invariants s data hinv hpool
  | drain i revents ws =>
    simp only [step] at hstep
    split at hstep
    · obtain ⟨h1, h2⟩ := set_revents_invariants s i revents hinv hpool
      cases hd : dispatch_sink (set_revents s i revents) i true ws with
      | none => rw [hd] at hstep; exact absurd hstep (by simp)
      | some r =>
        rw [hd] at hstep
        simp only [Option.map_some', Option.some.injEq] at hstep
        rw [← hstep]
        exact dispatch_sink_invariants _ i true ws r.1 r.2 h1 h2 hd
    · exact absurd hstep (by simp)

theorem run_invariants (es : List Event) (s s' : State) (hinv : RegistryInv s)
    (hpool : PoolInv s) (hrun : run s es = some s') : RegistryInv s' ∧ PoolInv s' := by
  induction es generalizing s with
  | nil =>
    simp only [run, Option.some.injEq] at hrun
    rw [← hrun]
    exact ⟨hinv, hpool⟩
  | cons e es ih =>
    simp only [run] at hrun
    cases hs : step s e with
    | none => rw [hs] at hrun; exact absurd hrun (by simp)
    | some s1 =>
      rw [hs] at hrun
      obtain ⟨h1, h2⟩ := step_invariants s s1 e hinv hpool hs
      exact ih s1 h1 h2 hrun

/-! ## What the steps add to the trace -/

theorem written_append (k : Nat) (t u : List Effect) :
    written k (t ++ u) = written k t ++ written k u := by
  induction t with
  | nil => simp [written]
  | cons e t ih =>
    cases e <;> simp [written, ih]

theorem silent_nil : silent [] := fun _ => rfl

theorem silent_append (t u : List Effect) (ht : silent t) (hu : silent u) : silent (t ++ u) := by
  intro k
  rw [written_append, ht k, hu k]
  rfl

/-- A piece of trace without `write` and without overflow diagnostic. -/
theorem quiet_append (t u : List Effect)
    (ht : silent t ∧ ∀ fd, overflow_count fd t = 0)
    (hu : silent u ∧ ∀ fd, overflow_count fd u = 0) :
    silent (t ++ u) ∧ ∀ fd, overflow_count fd (t ++ u) = 0 := by
  refine ⟨silent_append t u ht.1 hu.1, ?_⟩
  intro fd
  rw [overflow_count_append, ht.2 fd, hu.2 fd]

theorem addpollfd_trace (s : State) (fd events : Nat) (type : FDTYPE) (name : String) :
    ∃ added, (addpollfd s fd events type name).trace = s.trace ++ added ∧
      silent added ∧ ∀ fd', overflow_count fd' added = 0 := by
  by_cases h : (s.info fd).type = FDTYPE.NONE
  · refine ⟨[], ?_, silent_nil, fun _ => rfl⟩
    rw [addpollfd_new s fd events type name h]
    simp only [List.append_nil]
    unfold grow
    split <;> rfl
  · rw [addpollfd_dup s fd events type name h]
    exact ⟨[Effect.duplicate_add fd], rfl, fun _ => rfl, fun _ => rfl⟩

theorem delpollfd_trace_ext (s : State) (fd : Nat) :
    ∃ added, (delpollfd s fd).trace = s.trace ++ added ∧
      silent added ∧ ∀ fd', overflow_count fd' added = 0 := by
  by_cases h : (s.info fd).type = FDTYPE.NONE
  · rw [delpollfd_missing s fd h]
    exact ⟨[Effect.remove_missing fd], rfl, fun _ => rfl, fun _ => rfl⟩
  · rw [delpollfd_trace s fd h]
    exact ⟨[], by simp, silent_nil, fun _ => rfl⟩

theorem close_pending_trace (s : State) (fds : List Nat) :
    ∃ added, (close_pending s fds).trace = s.trace ++ added ∧
      silent added ∧ ∀ fd', overflow_count fd' added = 0 := by
  induction fds generalizing s with
  | nil => exact ⟨[], by simp [close_pending], silent_nil, fun _ => rfl⟩
  | cons fd fds ih =>
    rw [close_pending_cons]
    obtain ⟨a2, h2, q2⟩ := ih (delpollfd (close s fd) fd)
    obtain ⟨a1, h1, q1⟩ := delpollfd_trace_ext (close s fd) fd
    have hc : (close s fd).trace = s.trace ++ [Effect.closed fd] := rfl
    refine ⟨[Effect.closed fd] ++ a1 ++ a2, ?_, ?_⟩
    · rw [h2, h1, hc]
      simp
    · exact quiet_append _ _ (quiet_append _ _ ⟨fun _ => rfl, fun _ => rfl⟩ q1) q2

theorem fanout_fold_silent (b n : Nat) (l : List Nat) (acc : State × List Nat) :
    ∃ added, (l.foldl (fanout_fd b n) acc).1.trace = acc.1.trace ++ added ∧ silent added := by
  induction l generalizing acc with
  | nil => exact ⟨[], by simp, silent_nil⟩
  | cons fd l ih =>
    obtain ⟨added, htr, hs⟩ := ih (fanout_fd b n acc fd)
    rw [List.foldl_cons, htr, fanout_fd_trace, List.append_assoc]
    refine ⟨_, rfl, silent_append _ _ ?_ hs⟩
    split
    · exact fun _ => rfl
    · exact silent_nil

/-- The trace of `read_input_fd` after a read of positive length: no `write`, and one
overflow diagnostic for exactly those sinks that are reported. -/
theorem fanout_state_trace (s : State) (data : List Nat) :
    ∃ added, (fanout_state s data).trace = s.trace ++ added ∧ silent added ∧
      ∀ fd, overflow_count fd added = if s.reports fd then 1 else 0 := by
  obtain ⟨a1, h1, c1⟩ := fanout_loop_trace (load_buffer s data) (getbuffer s).1 data.length
  obtain ⟨a1', h1', s1⟩ := fanout_fold_silent (getbuffer s).1 data.length
    (List.range (load_buffer s data).fdinfos.length) (load_buffer s data, [])
  obtain ⟨a2, h2, q2⟩ := close_pending_trace
    (fanout_loop (load_buffer s data) (getbuffer s).1 data.length).1
    (fanout_loop (load_buffer s data) (getbuffer s).1 data.length).2
  have heq : a1 = a1' := by
    have : (load_buffer s data).trace ++ a1 = (load_buffer s data).trace ++ a1' := by
      rw [← h1, ← h1']; rfl
    exact List.append_cancel_left this
  subst heq
  obtain ⟨_, _, l3, l4, _, _, l7, _⟩ := load_buffer_frame s data
  refine ⟨a1 ++ a2, ?_, silent_append _ _ s1 q2.1, ?_⟩
  · unfold fanout_state
    rw [h2, h1, l7, List.append_assoc]
  · intro fd
    rw [overflow_count_append, q2.2 fd, c1 fd, Nat.add_zero]
    have : (load_buffer s data).reports fd ↔ s.reports fd := by
      unfold State.reports State.is_sink
      rw [l3, l4]
    by_cases h : s.reports fd
    · rw [if_pos h, if_pos (this.mpr h)]
    · rw [if_neg h, if_neg (fun x => h (this.mp x))]

theorem input_state_trace (s : State) (data : List Nat) :
    ∃ added, (input_state s data).trace = s.trace ++ added ∧ silent added ∧
      ∀ fd, overflow_count fd added = if s.reports fd then 1 else 0 := by
  obtain ⟨a, h, hs, hc⟩ := fanout_state_trace s data
  unfold input_state
  rw [(finished_with_buffer_frame _ _).2.2.2.1]
  cases hu : s.use_stdout
  · exact ⟨a, h, hs, hc⟩
  · refine ⟨a ++ [Effect.stdout data], ?_, silent_append _ _ hs (fun _ => rfl), ?_⟩
    · simp only [if_true, State.emit, h, List.append_assoc]
    · intro fd
      rw [overflow_count_append, hc fd]
      rfl

/-! ## Only sinks have queued entries -/

theorem idleInv_iff (s : State) :
    IdleInv s ↔ ∀ fd, ¬ s.is_sink fd → (s.info fd).out_buffers = [] := by
  constructor
  · intro h fd hns
    by_cases hlt : fd < s.fdinfos.length
    · exact h fd hlt hns
    · rw [info_default_of_ge s fd (by omega)]
      rfl
  · intro h fd _ hns
    exact h fd hns

theorem idleInv_of (s t : State)
    (h : ∀ fd, ¬ t.is_sink fd → (t.info fd).out_buffers = [] ∨
      (¬ s.is_sink fd ∧ (t.info fd).out_buffers = (s.info fd).out_buffers))
    (hidle : IdleInv s) : IdleInv t := by
  rw [idleInv_iff] at hidle ⊢
  intro fd hns
  rcases h fd hns with h1 | ⟨h1, h2⟩
  · exact h1
  · rw [h2]
    exact hidle fd h1

theorem addpollfd_idleInv (s : State) (fd events : Nat) (type : FDTYPE) (name : String)
    (hidle : IdleInv s) : IdleInv (addpollfd s fd events type name) := by
  have hidle' := (idleInv_iff s).mp hidle
  apply idleInv_of s _ _ hidle
  intro fd' hns
  by_cases h : (s.info fd).type = FDTYPE.NONE
  · by_cases hfd : fd' = fd
    · left
      rw [(addpollfd_queue s fd events type name fd').1, hfd]
      apply hidle'
      unfold State.is_sink
      rw [h]
      decide
    · right
      refine ⟨?_, (addpollfd_queue s fd events type name fd').1⟩
      unfold State.is_sink at hns ⊢
      rw [addpollfd_new_info s fd events type name h, if_neg hfd] at hns
      exact hns
  · right
    rw [addpollfd_dup s fd events type name h] at hns ⊢
    exact ⟨hns, rfl⟩

theorem delpollfd_idleInv (s : State) (fd : Nat) (hidle : IdleInv s) :
    IdleInv (delpollfd s fd) := by
  have hidle' := (idleInv_iff s).mp hidle
  apply idleInv_of s _ _ hidle
  intro fd' hns
  obtain ⟨q1, _, _, _, q5⟩ := delpollfd_queue s fd fd'
  by_cases hfd : fd' = fd
  · left
    rw [q1]
    split
    · rfl
    · rename_i hc
      have hnone : (s.info fd).type = FDTYPE.NONE := by
        by_contra hx
        exact hc ⟨hfd, hx⟩
      rw [hfd]
      apply hidle'
      unfold State.is_sink
      rw [hnone]
      decide
  · right
    refine ⟨?_, ?_⟩
    · unfold State.is_sink at hns ⊢
      rw [q5, if_neg hfd] at hns
      exact hns
    · rw [q1, if_neg (fun hc => hfd hc.1)]

theorem close_pending_idleInv (s : State) (fds : List Nat) (hidle : IdleInv s) :
    IdleInv (close_pending s fds) := by
  induction fds generalizing s with
  | nil => exact hidle
  | cons fd fds ih =>
    rw [close_pending_cons]
    exact ih _ (delpollfd_idleInv _ fd hidle)

theorem input_state_idleInv (s : State) (data : List Nat) (hidle : IdleInv s) :
    IdleInv (input_state s data) := by
  have h1 : IdleInv (fanout_loop (load_buffer s data) (getbuffer s).1 data.length).1 := by
    apply idleInv_of s _ _ hidle
    intro fd hns
    right
    unfold State.is_sink at hns ⊢
    rw [fanout_loop_info, (load_buffer_frame s data).2.2.1] at hns ⊢
    rw [(fanout_info_type _ _ _ _).1] at hns
    refine ⟨hns, ?_⟩
    unfold fanout_info
    rw [if_neg hns]
  have h2 : IdleInv (fanout_state s data) := close_pending_idleInv _ _ h1
  unfold input_state
  apply idleInv_of (fanout_state s data) _ _ h2
  intro fd hns
  right
  unfold State.is_sink at hns ⊢
  rw [finished_with_buffer_info] at hns ⊢
  cases hu : s.use_stdout
  · rw [hu] at hns
    exact ⟨hns, rfl⟩
  · rw [hu] at hns
    exact ⟨hns, rfl⟩

theorem write_loop_idleInv (s : State) (fd : Nat) (cf : Bool) (item : fd_out_buffer)
    (ws : List WriteResult) (t : State) (cf' : Bool) (hidle : IdleInv s) (hsink : s.is_sink fd)
    (hrun : write_loop s fd cf item ws = some (t, cf')) : IdleInv t := by
  refine write_loop_rule fd cf (fun s _ => IdleInv s ∧ s.is_sink fd) (fun t _ => IdleInv t)
    ?_ ?_ ?_ ?_ ws s item t cf' ⟨hidle, hsink⟩ hrun
  · intro s item h _
    apply idleInv_of s _ _ h.1
    intro fd' hns
    right
    unfold State.is_sink at hns ⊢
    rw [finished_with_buffer_info] at hns ⊢
    exact ⟨hns, rfl⟩
  · intro s item h _
    apply idleInv_of s _ _ h.1
    intro fd' hns
    right
    unfold State.is_sink at hns ⊢
    rw [info_set_info] at hns ⊢
    split
    · rename_i hc
      rw [if_pos hc] at hns
      exact absurd h.2 hns
    · rename_i hc
      rw [if_neg hc] at hns
      exact ⟨hns, rfl⟩
  · intro s item epipe h _
    have h1 : IdleInv (delpollfd (close (if epipe then s else
        s.emit (Effect.write_failed fd (s.info fd).name)) fd) fd) := by
      apply delpollfd_idleInv
      cases epipe
      · exact h.1
      · exact h.1
    apply idleInv_of _ _ _ h1
    intro fd' hns
    right
    unfold State.is_sink at hns ⊢
    rw [finished_with_buffer_info] at hns ⊢
    exact ⟨hns, rfl⟩
  · intro s item result h _ _
    obtain ⟨a1, _, _, a4, _⟩ := after_write_info s fd item result fd
    refine ⟨?_, ?_⟩
    · apply idleInv_of s _ _ h.1
      intro fd' hns
      right
      obtain ⟨b1, _, _, b4, _⟩ := after_write_info s fd item result fd'
      unfold State.is_sink at hns ⊢
      rw [b1] at hns
      exact ⟨hns, b4⟩
    · unfold State.is_sink
      rw [a1]
      exact h.2

theorem dispatch_sink_idleInv (s : State) (i : Nat) (cf : Bool) (ws : List WriteResult)
    (t : State) (cf' : Bool) (hidle : IdleInv s) (hsink : s.is_sink (s.slot i).fd)
    (hrun : dispatch_sink s i cf ws = some (t, cf')) : IdleInv t := by
  unfold dispatch_sink at hrun
  simp only [] at hrun
  split at hrun
  · simp only [Option.some.injEq, Prod.mk.injEq] at hrun
    rw [← hrun.1]
    exact delpollfd_idleInv _ _ hidle
  · split at hrun
    · simp only [Option.some.injEq, Prod.mk.injEq] at hrun
      rw [← hrun.1]
      exact hidle
    · rename_i item rest hq
      have hlt := is_sink_lt s _ hsink
      have h1 : IdleInv (s.set_info (s.slot i).fd
          { s.info (s.slot i).fd with out_buffers := rest }) := by
        refine idleInv_of s _ ?_ hidle
        intro fd' hns
        right
        unfold State.is_sink at hns ⊢
        rw [info_set_info] at hns ⊢
        split
        · rename_i hc
          rw [if_pos hc] at hns
          exact absurd hsink hns
        · rename_i hc
          rw [if_neg hc] at hns
          exact ⟨hns, rfl⟩
      have h2 : (s.set_info (s.slot i).fd
          { s.info (s.slot i).fd with out_buffers := rest }).is_sink (s.slot i).fd := by
        unfold State.is_sink
        rw [info_set_info_self _ _ _ hlt]
        exact hsink
      exact write_loop_idleInv _ _ _ _ _ _ _ h1 h2 hrun

theorem set_revents_slot_fd (s : State) (i revents j : Nat) :
    ((set_revents s i revents).slot j).fd = (s.slot j).fd := by
  unfold set_revents
  rw [slot_set_slot]
  split
  · rename_i h
    rw [← h.1]
  · rfl

theorem step_idleInv (s s' : State) (e : Event) (hpool : PoolInv s) (hidle : IdleInv s)
    (hstep : step s e = some s') : IdleInv s' := by
  cases e with
  | register fd events type name =>
    simp only [step] at hstep
    split at hstep
    · exact absurd hstep (by simp)
    · simp only [Option.some.injEq] at hstep
      rw [← hstep]
      exact addpollfd_idleInv s fd events type name hidle
  | deregister fd =>
    simp only [step, Option.some.injEq] at hstep
    rw [← hstep]
    exact delpollfd_idleInv s fd hidle
  | fanout fd data mirror_ok =>
    by_cases hlen : data.length = 0 ∨ 4096 < data.length
    · simp only [step, hlen, if_true] at hstep
      exact absurd hstep (by simp)
    · rw [step_fanout_eq s fd data mirror_ok hpool (by omega) (by omega)] at hstep
      split at hstep
      · exact absurd hstep (by simp)
      · simp only [Option.some.injEq] at hstep
        rw [← hstep]
        exact input_state_idleInv s data hidle
  | drain i revents ws =>
    simp only [step] at hstep
    split at hstep
    · rename_i hc
      cases hd : dispatch_sink (set_revents s i revents) i true ws with
      | none => rw [hd] at hstep; exact absurd hstep (by simp)
      | some r =>
        rw [hd] at hstep
        simp only [Option.map_some', Option.some.injEq] at hstep
        rw [← hstep]
        have hsink : (set_revents s i revents).is_sink ((set_revents s i revents).slot i).fd := by
          rw [set_revents_slot_fd]
          exact hc.2.2
        exact dispatch_sink_idleInv (set_revents s i revents) i true ws r.1 r.2 hidle hsink hd
    · exact absurd hstep (by simp)

theorem run_all_invariants (es : List Event) (s s' : State)
    (h0 : RegistryInv s ∧ PoolInv s ∧ IdleInv s) (hrun : run s es = some s') :
    RegistryInv s' ∧ PoolInv s' ∧ IdleInv s' := by
  induction es generalizing s with
  | nil =>
    simp only [run, Option.some.injEq] at hrun
    rw [← hrun]
    exact h0
  | cons e es ih =>
    simp only [run] at hrun
    cases hs : step s e with
    | none => rw [hs] at hrun; exact absurd hrun (by simp)
    | some s1 =>
      rw [hs] at hrun
      obtain ⟨h1, h2⟩ := step_invariants s s1 e h0.1 h0.2.1 hs
      exact ih s1 ⟨h1, h2, step_idleInv s s1 e h0.2.1 h0.2.2 hs⟩ hrun

theorem startup_invariants (s : State) (h : is_startup s) :
    RegistryInv s ∧ PoolInv s ∧ IdleInv s := by
  obtain ⟨hp, hf, hfree, hb, _, _⟩ := h
  refine ⟨⟨?_, ?_⟩, ⟨?_, ?_, ?_⟩, ?_⟩
  · intro fd hlt; simp [hf] at hlt
  · intro i hi; simp [hp] at hi
  · rw [hfree]; exact List.nodup_nil
  · intro b hb'; simp [hfree] at hb'
  · intro x hx; simp [hf] at hx
  · intro fd hlt; simp [hf] at hlt

/-- Every reachable state satisfies the registry invariant, the pool invariant and
has queued entries on sinks only. -/
theorem reachable_invariants (s : State) (h : Reachable s) :
    RegistryInv s ∧ PoolInv s ∧ IdleInv s := by
  obtain ⟨s0, es, hstart, hrun⟩ := h
  exact run_all_invariants es s0 s (startup_invariants s0 hstart) hrun

/-! ## Ordering: written bytes followed by queued bytes -/

theorem unsent_append (B : List (List Nat)) (q r : List fd_out_buffer) :
    unsent B (q ++ r) = unsent B q ++ unsent B r := by
  induction q with
  | nil => rfl
  | cons e q ih => simp [unsent, ih]

theorem unsent_congr (B B' : List (List Nat)) (q : List fd_out_buffer)
    (h : ∀ e ∈ q, B'.getD e.buffer [] = B.getD e.buffer []) : unsent B' q = unsent B q := by
  induction q with
  | nil => rfl
  | cons e q ih =>
    simp only [unsent]
    rw [h e (List.mem_cons_self _ _), ih (fun e' he' => h e' (List.mem_cons_of_mem _ he'))]

theorem pending_congr (s t : State) (k : Nat) (hb : t.buffers = s.buffers)
    (hq : (t.info k).out_buffers = (s.info k).out_buffers) : t.pending k = s.pending k := by
  unfold State.pending
  rw [hb, hq]

theorem is_sink_ne_none (s : State) (k : Nat) (h : s.is_sink k) :
    (s.info k).type ≠ FDTYPE.NONE := by
  rcases h with e | e <;> rw [e] <;> decide

/-- The state returned by `read_input_fd`, for a sink below its budget. -/
theorem fanout_state_accepting (s : State) (data : List Nat) (k : Nat) (hlen : 0 < data.length)
    (hinv : RegistryInv s) (hpool : PoolInv s) (hacc : s.accepts k) :
    ((fanout_state s data).info k).type = (s.info k).type ∧
    ((fanout_state s data).info k).have_overflowed = (s.info k).have_overflowed ∧
    ((fanout_state s data).info k).out_buffers =
      (s.info k).out_buffers ++ [{ buffer := (getbuffer s).1, offset := 0 }] ∧
    ((fanout_state s data).info k).buffered_data =
      ((s.info k).buffered_data + data.length) % SIZE_MOD ∧
    (fanout_state s data).interest k = POLLOUT ||| POLLERR := by
  have hfree : ∀ b ∈ s.free_buffers, b < s.buffers.length := fun b hb => (hpool.2.1 b hb).1
  obtain ⟨cf1, h1, _⟩ := read_input_fd_result s 0 true data none (by omega) hfree
  obtain ⟨b, cf2, s', h2, _, h3, _⟩ := read_input_fd_accepting s 0 true data none hlen hinv hpool
  rw [h1] at h2
  simp only [Except.ok.injEq, Prod.mk.injEq, Option.some.injEq] at h2
  obtain ⟨hb, _, hs⟩ := h2
  subst hb
  subst hs
  obtain ⟨a1, a0, a2, a3, _, a5⟩ := h3 k hacc.1 hacc.2
  exact ⟨a1, a0, a2, a3, a5⟩

theorem input_state_info (s : State) (data : List Nat) (fd : Nat) :
    (input_state s data).info fd = (fanout_state s data).info fd := by
  unfold input_state
  rw [finished_with_buffer_info]
  cases s.use_stdout <;> rfl

theorem input_state_buffers (s : State) (data : List Nat) :
    (input_state s data).buffers = (load_buffer s data).buffers := by
  unfold input_state
  rw [(finished_with_buffer_frame _ _).2.2.1, ← fanout_state_buffers]
  cases s.use_stdout <;> rfl

/-- Loading the bytes read into the acquired vector does not change the bytes of any
vector that some queue holds. -/
theorem load_buffer_other (s : State) (data : List Nat) (hpool : PoolInv s) (fd : Nat)
    (e : fd_out_buffer) (he : e ∈ (s.info fd).out_buffers) :
    (load_buffer s data).buffers.getD e.buffer [] = s.buffers.getD e.buffer [] := by
  obtain ⟨_, _, _, _, g5, g6⟩ := getbuffer_spec s hpool
  have hne := g5 fd e he
  unfold load_buffer
  simp only [List.getD_eq_getElem?_getD, List.getElem?_set]
  rw [if_neg (fun h => hne h.symm)]
  have := g6 e.buffer hne
  simp only [List.getD_eq_getElem?_getD] at this
  exact this

/-- Ordering, fan-out step: the bytes read are appended to what is queued for a sink
below its budget, and nothing is written. -/
theorem input_state_ordering (s : State) (data : List Nat) (k : Nat) (hlen : 0 < data.length)
    (hinv : RegistryInv s) (hpool : PoolInv s) (hacc : s.accepts k) :
    (input_state s data).pending k = s.pending k ++ data := by
  have hfree : ∀ b ∈ s.free_buffers, b < s.buffers.length := fun b hb => (hpool.2.1 b hb).1
  obtain ⟨_, _, hq, _⟩ := fanout_state_accepting s data k hlen hinv hpool hacc
  unfold State.pending
  rw [input_state_info, input_state_buffers, hq, unsent_append]
  congr 1
  · exact unsent_congr _ _ _ (fun e he => load_buffer_other s data hpool k e he)
  · simp only [unsent, List.drop_zero, List.append_nil]
    exact load_buffer_content s data hfree

/-- Ordering, write loop: what the loop writes to `k`, followed by what is queued for
`k` afterwards, is the unsent part of the entry being written (when the loop
runs for `k`) followed by what was queued for `k`. -/
theorem write_loop_ordering (k fd : Nat) (cf : Bool) (ws : List WriteResult) (s : State)
    (item : fd_out_buffer) (t : State) (cf' : Bool)
    (hrun : write_loop s fd cf item ws = some (t, cf')) (hk : t.is_sink k) :
    ∃ added, t.trace = s.trace ++ added ∧
      written k added ++ t.pending k =
        (if fd = k then (s.buffers.getD item.buffer []).drop item.offset else []) ++
          s.pending k := by
  refine write_loop_rule fd cf
    (fun u it => u.buffers = s.buffers ∧ it.buffer = item.buffer ∧
      ∃ added, u.trace = s.trace ++ added ∧
        written k added ++
          ((if fd = k then (u.buffers.getD it.buffer []).drop it.offset else []) ++ u.pending k) =
        (if fd = k then (s.buffers.getD item.buffer []).drop item.offset else []) ++ s.pending k)
    (fun u _ => u.is_sink k → ∃ added, u.trace = s.trace ++ added ∧
      written k added ++ u.pending k =
        (if fd = k then (s.buffers.getD item.buffer []).drop item.offset else []) ++
          s.pending k)
    ?_ ?_ ?_ ?_ ws s item t cf' ⟨rfl, rfl, [], by simp, by simp [written]⟩ hrun hk
  · intro u it h hdone _
    obtain ⟨_, _, added, htr, heq⟩ := h
    refine ⟨added, by rw [(finished_with_buffer_frame _ _).2.2.2.1]; exact htr, ?_⟩
    have hp : (finished_with_buffer u it.buffer).pending k = u.pending k :=
      pending_congr _ _ _ (finished_with_buffer_frame _ _).2.2.1
        (by rw [finished_with_buffer_info])
    rw [hp, ← heq]
    have : (u.buffers.getD it.buffer []).drop it.offset = [] :=
      List.drop_eq_nil_of_le (by omega)
    rw [this]
    simp
  · intro u it h _ hsink
    obtain ⟨_, _, added, htr, heq⟩ := h
    refine ⟨added, htr, ?_⟩
    rw [← heq]
    congr 1
    by_cases hfd : fd = k
    · subst hfd
      have hlt : fd < u.fdinfos.length := by
        have := is_sink_lt _ _ hsink
        simpa using this
      simp only [if_true, State.pending]
      rw [info_set_info_self _ _ _ hlt]
      rfl
    · simp only [hfd, if_false, List.nil_append]
      exact pending_congr _ _ _ rfl (by rw [info_set_info_ne _ _ _ _ hfd])
  · intro u it epipe h _ hsink
    obtain ⟨_, _, added, htr, heq⟩ := h
    have hty := (delpollfd_queue (close (if epipe then u else
      u.emit (Effect.write_failed fd (u.info fd).name)) fd) fd k).2.2.2.2
    have hq := (delpollfd_queue (close (if epipe then u else
      u.emit (Effect.write_failed fd (u.info fd).name)) fd) fd k).1
    by_cases hfd : fd = k
    · exfalso
      unfold State.is_sink at hsink
      rw [finished_with_buffer_info, hty, if_pos hfd.symm] at hsink
      rcases hsink with e | e <;> exact absurd e (by decide)
    · have hfd' : ¬ k = fd := fun e => hfd e.symm
      obtain ⟨a2, htr2, hs2, _⟩ := delpollfd_trace_ext (close (if epipe then u else
        u.emit (Effect.write_failed fd (u.info fd).name)) fd) fd
      have htr3 : (close (if epipe then u else
          u.emit (Effect.write_failed fd (u.info fd).name)) fd).trace =
          u.trace ++ ((if epipe then [] else [Effect.write_failed fd (u.info fd).name]) ++
            [Effect.closed fd]) := by
        cases epipe <;> simp [close, State.emit]
      have hs3 : silent ((if epipe then [] else [Effect.write_failed fd (u.info fd).name]) ++
            [Effect.closed fd]) := by
        cases epipe <;> exact fun _ => rfl
      refine ⟨added ++ (((if epipe then [] else [Effect.write_failed fd (u.info fd).name]) ++
            [Effect.closed fd]) ++ a2), ?_, ?_⟩
      · rw [(finished_with_buffer_frame _ _).2.2.2.1, htr2, htr3, htr]
        simp only [List.append_assoc]
      · rw [written_append, (silent_append _ _ hs3 hs2) k, List.append_nil, ← heq]
        congr 1
        simp only [hfd, if_false, List.nil_append]
        apply pending_congr
        · rw [(finished_with_buffer_frame _ _).2.2.1, (delpollfd_frame _ _).1]
          cases epipe <;> rfl
        · rw [finished_with_buffer_info, hq, if_neg (fun hc => hfd' hc.1)]
          cases epipe <;> rfl
  · intro u it result h hmore hle
    obtain ⟨hb, hit, added, htr, heq⟩ := h
    obtain ⟨f1, _, _, _, _, f6⟩ := after_write_frame u fd it result
    refine ⟨f1.trans hb, hit, added ++
      [Effect.wrote fd (((u.buffers.getD it.buffer []).drop it.offset).take result)], ?_, ?_⟩
    · rw [f6, htr, List.append_assoc]
    · rw [← heq, written_append, List.append_assoc]
      congr 1
      have hp : (after_write u fd it result).pending k = u.pending k :=
        pending_congr _ _ _ f1 (after_write_info u fd it result k).2.2.2.1
      rw [hp, f1]
      by_cases hfd : fd = k
      · simp only [hfd, if_true, written, List.append_nil]
        rw [← List.append_assoc]
        congr 1
        rw [← List.drop_drop]
        exact List.take_append_drop _ _
      · simp [hfd, written]

/-- Ordering, removal of another descriptor: nothing is written and the queue of a
descriptor that is still a sink afterwards is untouched. -/
theorem delpollfd_ordering (k : Nat) (s : State) (fd : Nat) (hk : (delpollfd s fd).is_sink k) :
    ∃ added, (delpollfd s fd).trace = s.trace ++ added ∧
      written k added ++ (delpollfd s fd).pending k = s.pending k := by
  obtain ⟨q1, _, _, _, q5⟩ := delpollfd_queue s fd k
  have hne : ¬ k = fd := by
    intro e
    unfold State.is_sink at hk
    rw [q5, if_pos e] at hk
    rcases hk with e | e <;> exact absurd e (by decide)
  obtain ⟨added, htr, hs, _⟩ := delpollfd_trace_ext s fd
  refine ⟨added, htr, ?_⟩
  rw [hs k, List.nil_append]
  exact pending_congr _ _ _ (delpollfd_frame s fd).1 (by rw [q1, if_neg (fun hc => hne hc.1)])

/-- Ordering, sink case of the reactor loop. -/
theorem dispatch_sink_ordering (k : Nat) (s : State) (i : Nat) (cf : Bool)
    (ws : List WriteResult) (t : State) (cf' : Bool) (hks : s.is_sink k)
    (hrun : dispatch_sink s i cf ws = some (t, cf')) (hk : t.is_sink k) :
    ∃ added, t.trace = s.trace ++ added ∧ written k added ++ t.pending k = s.pending k := by
  unfold dispatch_sink at hrun
  simp only [] at hrun
  split at hrun
  · simp only [Option.some.injEq, Prod.mk.injEq] at hrun
    obtain ⟨ht, _⟩ := hrun
    subst ht
    obtain ⟨added, htr, heq⟩ := delpollfd_ordering k (close s (s.slot i).fd) (s.slot i).fd hk
    refine ⟨[Effect.closed (s.slot i).fd] ++ added, ?_, ?_⟩
    · rw [htr]
      simp [close, State.emit]
    · rw [written_append]
      exact heq
  · split at hrun
    · simp only [Option.some.injEq, Prod.mk.injEq] at hrun
      obtain ⟨ht, _⟩ := hrun
      subst ht
      exact ⟨[], by simp [State.set_slot], rfl⟩
    · rename_i item rest hq
      obtain ⟨added, htr, heq⟩ := write_loop_ordering k (s.slot i).fd cf ws _ item t cf' hrun hk
      refine ⟨added, htr, ?_⟩
      rw [heq]
      by_cases hfd : (s.slot i).fd = k
      · have hlt := is_sink_lt s k hks
        simp only [hfd, if_true, State.pending] at hq ⊢
        rw [info_set_info_self _ _ _ hlt, hq]
        rfl
      · simp only [hfd, if_false, List.nil_append]
        exact pending_congr _ _ _ rfl (by rw [info_set_info_ne _ _ _ _ hfd])

/-- Ordering, one step: for a descriptor that is a sink before and after the step and
is below its budget when the step is a fan-out, what the step writes to it
followed by what is queued for it afterwards is what was queued for it followed
by what the step read. -/
theorem step_ordering (k : Nat) (s s' : State) (e : Event) (hinv : RegistryInv s)
    (hpool : PoolInv s) (hks : s.is_sink k) (hk : s'.is_sink k) (hstep : step s e = some s')
    (hacc : no_overflow_branch k s e = true) :
    ∃ added, s'.trace = s.trace ++ added ∧
      written k added ++ s'.pending k = s.pending k ++ reads [e] := by
  cases e with
  | register fd events type name =>
    simp only [step] at hstep
    split at hstep
    · exact absurd hstep (by simp)
    · simp only [Option.some.injEq] at hstep
      subst hstep
      obtain ⟨added, htr, hs, _⟩ := addpollfd_trace s fd events type name
      refine ⟨added, htr, ?_⟩
      rw [hs k]
      simp only [reads, List.append_nil, List.nil_append]
      exact pending_congr _ _ _ (addpollfd_frame s fd events type name).1
        (addpollfd_queue s fd events type name k).1
  | deregister fd =>
    simp only [step, Option.some.injEq] at hstep
    subst hstep
    obtain ⟨added, htr, heq⟩ := delpollfd_ordering k s fd hk
    exact ⟨added, htr, by simpa [reads] using heq⟩
  | fanout fd data mirror_ok =>
    by_cases hlen : data.length = 0 ∨ 4096 < data.length
    · simp only [step, hlen, if_true] at hstep
      exact absurd hstep (by simp)
    · rw [step_fanout_eq s fd data mirror_ok hpool (by omega) (by omega)] at hstep
      split at hstep
      · exact absurd hstep (by simp)
      · simp only [Option.some.injEq] at hstep
        subst hstep
        simp only [no_overflow_branch, decide_eq_true_eq] at hacc
        obtain ⟨added, htr, hs, _⟩ := input_state_trace s data
        refine ⟨added, htr, ?_⟩
        rw [hs k, input_state_ordering s data k (by omega) hinv hpool hacc]
        simp [reads]
  | drain i revents ws =>
    simp only [step] at hstep
    split at hstep
    · cases hd : dispatch_sink (set_revents s i revents) i true ws with
      | none => rw [hd] at hstep; exact absurd hstep (by simp)
      | some r =>
        rw [hd] at hstep
        simp only [Option.map_some', Option.some.injEq] at hstep
        subst hstep
        obtain ⟨added, htr, heq⟩ :=
          dispatch_sink_ordering k (set_revents s i revents) i true ws r.1 r.2 hks hd hk
        refine ⟨added, htr, ?_⟩
        rw [heq]
        simp only [reads, List.append_nil]
        rfl
    · exact absurd hstep (by simp)

/-- Ordering along a run. -/
theorem run_ordering (k : Nat) (es : List Event) (s s' : State) (hinv : RegistryInv s)
    (hpool : PoolInv s) (hks : s.is_sink k) (hrun : run s es = some s')
    (hund : undisturbed k s es = true) :
    ∃ added, s'.trace = s.trace ++ added ∧
      written k added ++ s'.pending k = s.pending k ++ reads es := by
  induction es generalizing s with
  | nil =>
    simp only [run, Option.some.injEq] at hrun
    subst hrun
    exact ⟨[], by simp, by simp [written, reads]⟩
  | cons e es ih =>
    simp only [run] at hrun
    cases hs : step s e with
    | none => rw [hs] at hrun; exact absurd hrun (by simp)
    | some s1 =>
      rw [hs] at hrun
      simp only [undisturbed, hs, Bool.and_eq_true, decide_eq_true_eq] at hund
      obtain ⟨hacc, hk1, hund1⟩ := hund
      obtain ⟨h1, h2⟩ := step_invariants s s1 e hinv hpool hs
      obtain ⟨a1, htr1, heq1⟩ := step_ordering k s s1 e hinv hpool hks hk1 hs hacc
      obtain ⟨a2, htr2, heq2⟩ := ih s1 h1 h2 hk1 hrun hund1
      refine ⟨a1 ++ a2, by rw [htr2, htr1, List.append_assoc], ?_⟩
      rw [written_append, List.append_assoc, heq2, ← List.append_assoc, heq1]
      have hreads : reads (e :: es) = reads [e] ++ reads es := by
        cases e <;> simp [reads]
      rw [hreads, List.append_assoc]

/-- A short write followed by a would-block leaves the entry, with its offset
advanced, at the head of the queue. -/
theorem dispatch_sink_short_write (u : State) (i : Nat) (cf : Bool) (item : fd_out_buffer)
    (rest : List fd_out_buffer) (r : Nat) (ws : List WriteResult)
    (hpoll : (u.slot i).revents &&& POLLOUT ≠ 0)
    (hq : (u.info (u.slot i).fd).out_buffers = item :: rest)
    (hr : item.offset + r < (u.buffers.getD item.buffer []).length) :
    ∃ t, dispatch_sink u i cf (WriteResult.wrote r :: WriteResult.again :: ws) = some (t, cf) ∧
      (t.info (u.slot i).fd).out_buffers = { item with offset := item.offset + r } :: rest := by
  have hlt : (u.slot i).fd < u.fdinfos.length := by
    by_contra hge
    rw [info_default_of_ge u _ (by omega)] at hq
    exact absurd hq (by simp [default_queue])
  unfold dispatch_sink
  simp only [hpoll, if_false, hq]
  have hb : ∀ x, (u.set_info (u.slot i).fd x).buffers = u.buffers := fun _ => rfl
  rw [write_loop_wrote _ _ _ _ _ _ (by rw [hb]; omega), hb, if_neg (by omega)]
  rw [write_loop_again _ _ _ _ _ (by rw [(after_write_frame _ _ _ _).1, hb]; simp only; omega)]
  refine ⟨_, rfl, ?_⟩
  have hlt2 : (u.slot i).fd < (after_write (u.set_info (u.slot i).fd
      { u.info (u.slot i).fd with out_buffers := rest }) (u.slot i).fd item r).fdinfos.length := by
    rw [(after_write_frame _ _ _ _).2.2.2.1]
    simpa using hlt
  rw [info_set_info_self _ _ _ hlt2]
  simp only
  rw [(after_write_info _ _ _ _ _).2.2.2.1, info_set_info_self _ _ _ hlt]

/-! ## Claim on ordering -/

/-- C2. Ordering: let a sink be registered on a descriptor `k` that is unregistered in a
reachable state, and let any sequence of steps follow during which `k` stays a
registered sink and no fan-out takes the overflow branch for `k`, with arbitrary
write results. Then the bytes written to `k` since its registration, followed by
the unsent remainders of its queued entries in queue order, are exactly the
concatenation of the reads fanned out since its registration. Moreover a short
write followed by a would-block puts the entry back at the head of the queue with
its offset advanced. -/
theorem sink_receives_reads_in_order (s0 : State) (hr : Reachable s0) (k events : Nat) (type : FDTYPE)
    (name : String) (hty : type = FDTYPE.CONN ∨ type = FDTYPE.FIFO)
    (hun : (s0.info k).type = FDTYPE.NONE) (es : List Event) (s : State)
    (hrun : run (addpollfd s0 k events type name) es = some s)
    (hund : undisturbed k (addpollfd s0 k events type name) es = true) :
    (∃ added, s.trace = (addpollfd s0 k events type name).trace ++ added ∧
      written k added ++ s.pending k = reads es) ∧
    (∀ (u : State) (i : Nat) (cf : Bool) (item : fd_out_buffer) (rest : List fd_out_buffer)
      (r : Nat) (ws : List WriteResult),
      (u.slot i).revents &&& POLLOUT ≠ 0 →
      (u.info (u.slot i).fd).out_buffers = item :: rest →
      item.offset + r < (u.buffers.getD item.buffer []).length →
      ∃ t, dispatch_sink u i cf (WriteResult.wrote r :: WriteResult.again :: ws) = some (t, cf) ∧
        (t.info (u.slot i).fd).out_buffers =
          { item with offset := item.offset + r } :: rest) := by
  refine ⟨?_, fun u i cf item rest r ws h1 h2 h3 =>
    dispatch_sink_short_write u i cf item rest r ws h1 h2 h3⟩
  obtain ⟨hinv0, hpool0, hidle0⟩ := reachable_invariants s0 hr
  have hne : type ≠ FDTYPE.NONE := by
    rcases hty with e | e <;> rw [e] <;> decide
  have hinv1 := addpollfd_registryInv s0 k events type name hinv0 hne
  have hpool1 := addpollfd_poolInv s0 k events type name hpool0
  have hinfo := addpollfd_new_info s0 k events type name hun k
  rw [if_pos rfl] at hinfo
  have hks : (addpollfd s0 k events type name).is_sink k := by
    unfold State.is_sink
    rw [hinfo]
    exact hty
  have hempty : (addpollfd s0 k events type name).pending k = [] := by
    unfold State.pending
    rw [(addpollfd_queue s0 k events type name k).1]
    have : (s0.info k).out_buffers = [] := by
      apply (idleInv_iff s0).mp hidle0
      unfold State.is_sink
      rw [hun]
      decide
    rw [this]
    rfl
  obtain ⟨added, htr, heq⟩ := run_ordering k es _ s hinv1 hpool1 hks hrun hund
  rw [hempty, List.nil_append] at heq
  exact ⟨added, htr, heq⟩

/-- Witness of C2: a sink registered on descriptor 5 after the input, then
`ordering_run`. -/
theorem sink_receives_reads_in_order_witness :
    Reachable input_registered ∧ (input_registered.info 5).type = FDTYPE.NONE ∧
    undisturbed 5 (addpollfd input_registered 5 POLLERR FDTYPE.CONN "sock") ordering_run = true ∧
    ∃ s, run (addpollfd input_registered 5 POLLERR FDTYPE.CONN "sock") ordering_run = some s ∧
      ∃ added,
        s.trace = (addpollfd input_registered 5 POLLERR FDTYPE.CONN "sock").trace ++ added ∧
        written 5 added ++ s.pending 5 = reads ordering_run :=
  have hr : Reachable input_registered :=
    ⟨startup 65536 false false,
      [Event.register 0 (POLLIN ||| POLLERR) FDTYPE.INPUT "STDIN"], by decide, by decide⟩
  have hund : undisturbed 5 (addpollfd input_registered 5 POLLERR FDTYPE.CONN "sock")
      ordering_run = true := by decide!
  ⟨hr, by decide, hund,
    match h : run (addpollfd input_registered 5 POLLERR FDTYPE.CONN "sock") ordering_run with
    | some s =>
      ⟨s, rfl, (sink_receives_reads_in_order input_registered hr 5 POLLERR FDTYPE.CONN "sock" (Or.inl rfl)
        (by decide) ordering_run s h hund).1⟩
    | none => absurd h (by decide!)⟩

/-- Reading an observation off the result of a run that has been evaluated. -/
theorem observe_run {α : Type} (o : Option State) (f : State → α) (v : α) (s : State)
    (h : o = some s) (hq : o.map f = some v) : f s = v := by
  rw [h] at hq
  simpa using hq

theorem input_state_frame (s : State) (data : List Nat) :
    (input_state s data).use_stdout = s.use_stdout ∧
    (input_state s data).max_queue = s.max_queue ∧
    (input_state s data).no_overflow = s.no_overflow := by
  obtain ⟨f1, f2, f3⟩ := fanout_state_frame s data
  unfold input_state
  obtain ⟨_, _, _, _, g5, g6, g7⟩ := finished_with_buffer_frame
    (if s.use_stdout then (fanout_state s data).emit (Effect.stdout data) else fanout_state s data)
    (getbuffer s).1
  rw [g5, g6, g7]
  split
  · exact ⟨f1, f2, f3⟩
  · exact ⟨f1, f2, f3⟩

/-- The state returned by `read_input_fd` under the default policy, for a sink at or
above its budget. -/
theorem fanout_state_rejecting (s : State) (data : List Nat) (k : Nat) (hlen : 0 < data.length)
    (hno : s.no_overflow = false) (hinv : RegistryInv s) (hpool : PoolInv s)
    (hsink : s.is_sink k) (hfull : s.max_queue ≤ (s.info k).buffered_data) :
    ((fanout_state s data).info k).type = (s.info k).type ∧
    ((fanout_state s data).info k).out_buffers = (s.info k).out_buffers ∧
    ((fanout_state s data).info k).buffered_data = (s.info k).buffered_data ∧
    ((fanout_state s data).info k).have_overflowed = true := by
  have hfree : ∀ b ∈ s.free_buffers, b < s.buffers.length := fun b hb => (hpool.2.1 b hb).1
  obtain ⟨cf1, h1, _⟩ := read_input_fd_result s 0 true data none (by omega) hfree
  obtain ⟨b, s', added, h2, _, h3⟩ :=
    read_input_fd_rejecting s 0 true data none hlen hno hinv hpool
  rw [h1] at h2
  simp only [Except.ok.injEq, Prod.mk.injEq, Option.some.injEq] at h2
  obtain ⟨hb, _, hs⟩ := h2
  subst hb
  subst hs
  obtain ⟨a1, _, a3, a4, _, a6, _⟩ := h3 k hsink hfull
  exact ⟨a1, a3, a4, a6⟩

/-- What is queued for a sink that is at or above its budget is the same before and
after the input case, under the default policy. -/
theorem input_state_rejecting (s : State) (data : List Nat) (k : Nat) (hlen : 0 < data.length)
    (hno : s.no_overflow = false) (hinv : RegistryInv s) (hpool : PoolInv s)
    (hsink : s.is_sink k) (hfull : s.max_queue ≤ (s.info k).buffered_data) :
    ((input_state s data).info k).type = (s.info k).type ∧
    ((input_state s data).info k).out_buffers = (s.info k).out_buffers ∧
    ((input_state s data).info k).buffered_data = (s.info k).buffered_data ∧
    (input_state s data).pending k = s.pending k := by
  obtain ⟨a1, a2, a3, _⟩ := fanout_state_rejecting s data k hlen hno hinv hpool hsink hfull
  rw [input_state_info]
  refine ⟨a1, a2, a3, ?_⟩
  unfold State.pending
  rw [input_state_info, input_state_buffers, a2]
  exact unsent_congr _ _ _ (fun e he => load_buffer_other s data hpool k e he)

/-- The fan-out step when mirroring is disabled. -/
theorem step_fanout_unmirrored (s : State) (fd : Nat) (data : List Nat) (mirror_ok : Bool)
    (hpool : PoolInv s) (hstd : s.use_stdout = false) (hlen : data.length ≠ 0)
    (hle : data.length ≤ 4096) :
    step s (Event.fanout fd data mirror_ok) = some (input_state s data) := by
  rw [step_fanout_eq s fd data mirror_ok hpool hlen hle, if_neg]
  rw [hstd]
  simp

/-! ## Claims settled on concrete runs -/

/-- C1. Budget invariant, evaluated on `reconnect_run` from startup with the default
options: the run is one the program can take, descriptor 4 ends as a registered
sink with an empty queue (nothing unsent) and `buffered_data = 10`, because
`delpollfd` clears the queue through `fdinfo::clear` and leaves the counter. The
counter therefore differs from the sum over the queue. -/
theorem budget_counter_stale_after_reuse :
    ∃ s, run (startup 65536 false true) reconnect_run = some s ∧ Reachable s ∧ s.is_sink 4 ∧
      (s.info 4).out_buffers = [] ∧ s.queued_bytes 4 = 0 ∧ (s.info 4).buffered_data = 10 ∧
      (s.info 4).buffered_data ≠ s.queued_bytes 4 :=
  match h : run (startup 65536 false true) reconnect_run with
  | some s =>
    have hq : (run (startup 65536 false true) reconnect_run).map
        (fun t => ((t.info 4).type, (t.info 4).out_buffers, t.queued_bytes 4,
          (t.info 4).buffered_data)) = some (FDTYPE.CONN, [], 0, 10) := by decide!
    have hq' : ((s.info 4).type, (s.info 4).out_buffers, s.queued_bytes 4,
        (s.info 4).buffered_data) = (FDTYPE.CONN, [], 0, 10) := by
      rw [h] at hq
      simpa using hq
    have h1 : (s.info 4).type = FDTYPE.CONN := congrArg (fun p => p.1) hq'
    have h2 : (s.info 4).out_buffers = [] := congrArg (fun p => p.2.1) hq'
    have h3 : s.queued_bytes 4 = 0 := congrArg (fun p => p.2.2.1) hq'
    have h4 : (s.info 4).buffered_data = 10 := congrArg (fun p => p.2.2.2) hq'
    ⟨s, rfl, ⟨startup 65536 false true, reconnect_run, by decide, h⟩, Or.inl h1, h2, h3, h4,
      by rw [h3, h4]; decide⟩
  | none => absurd h (by decide!)

/-- C4. A newly registered sink, evaluated on `hangup_run` from startup with the default
options: the run is one the program can take and leaves descriptor 4
unregistered; registering descriptor 4 again as a connection gives it an empty
queue but `buffered_data = 10`, the value left by the connection closed before,
because `delpollfd` only empties the queue. -/
theorem reused_descriptor_keeps_counter :
    ∃ s, run (startup 65536 false true) hangup_run = some s ∧ Reachable s ∧
      (s.info 4).type = FDTYPE.NONE ∧
      ((addpollfd s 4 POLLERR FDTYPE.CONN "sock").info 4).type = FDTYPE.CONN ∧
      ((addpollfd s 4 POLLERR FDTYPE.CONN "sock").info 4).out_buffers = [] ∧
      ((addpollfd s 4 POLLERR FDTYPE.CONN "sock").info 4).buffered_data = 10 ∧
      ((addpollfd s 4 POLLERR FDTYPE.CONN "sock").info 4).buffered_data ≠ 0 :=
  match h : run (startup 65536 false true) hangup_run with
  | some s =>
    have h1 : (s.info 4).type = FDTYPE.NONE :=
      observe_run _ (fun t => (t.info 4).type) _ s h (by decide!)
    have h2 : ((addpollfd s 4 POLLERR FDTYPE.CONN "sock").info 4).type = FDTYPE.CONN :=
      observe_run _ (fun t => ((addpollfd t 4 POLLERR FDTYPE.CONN "sock").info 4).type) _ s h
        (by decide!)
    have h3 : ((addpollfd s 4 POLLERR FDTYPE.CONN "sock").info 4).out_buffers = [] :=
      observe_run _ (fun t => ((addpollfd t 4 POLLERR FDTYPE.CONN "sock").info 4).out_buffers)
        _ s h (by decide!)
    have h4 : ((addpollfd s 4 POLLERR FDTYPE.CONN "sock").info 4).buffered_data = 10 :=
      observe_run _ (fun t => ((addpollfd t 4 POLLERR FDTYPE.CONN "sock").info 4).buffered_data)
        _ s h (by decide!)
    ⟨s, rfl, ⟨startup 65536 false true, hangup_run, by decide, h⟩, h1, h2, h3, h4,
      by rw [h4]; decide⟩
  | none => absurd h (by decide!)

/-- C5. Disconnect-on-overflow, evaluated on `overflow_reconnect_run` from startup with
a budget of 16 bytes and the no-overflow policy: the run is one the program can
take and ends with descriptor 4 registered as a sink whose `buffered_data` (20)
is at or above `max_queue` and whose `have_overflowed` flag is already set, both
left by the connection closed before. The next fan-out does not queue the buffer
for it and does not deregister it: it is still a registered sink afterwards, and
the step has closed nothing and reported nothing (the trace is unchanged). -/
theorem stale_overflow_flag_keeps_sink :
    ∃ s s', run (startup 16 true false) overflow_reconnect_run = some s ∧ Reachable s ∧
      s.no_overflow = true ∧ s.is_sink 4 ∧ s.max_queue ≤ (s.info 4).buffered_data ∧
      (s.info 4).have_overflowed = true ∧
      step s (Event.fanout 0 (chunk 4) true) = some s' ∧
      s'.is_sink 4 ∧ (s'.info 4).out_buffers = [] ∧ s'.trace = s.trace :=
  match h : run (startup 16 true false) overflow_reconnect_run with
  | some s =>
    have h1 : s.no_overflow = true := observe_run _ (fun t => t.no_overflow) _ s h (by decide!)
    have h2 : (s.info 4).type = FDTYPE.CONN :=
      observe_run _ (fun t => (t.info 4).type) _ s h (by decide!)
    have h3 : (s.max_queue, (s.info 4).buffered_data) = (16, 20) :=
      observe_run _ (fun t => (t.max_queue, (t.info 4).buffered_data)) _ s h (by decide!)
    have h4 : (s.info 4).have_overflowed = true :=
      observe_run _ (fun t => (t.info 4).have_overflowed) _ s h (by decide!)
    have h3a : s.max_queue = 16 := congrArg Prod.fst h3
    have h3b : (s.info 4).buffered_data = 20 := congrArg Prod.snd h3
    have h7 : s.trace = [Effect.overflow 4 "sock" true, Effect.closed 4] :=
      observe_run _ (fun t => t.trace) _ s h (by decide!)
    match h' : step s (Event.fanout 0 (chunk 4) true) with
    | some s' =>
      have hb : (run (startup 16 true false) overflow_reconnect_run).bind
          (fun t => step t (Event.fanout 0 (chunk 4) true)) = some s' := by
        rw [h]; exact h'
      have h5 : (s'.info 4).type = FDTYPE.CONN :=
        observe_run _ (fun t => (t.info 4).type) _ s' hb (by decide!)
      have h6 : (s'.info 4).out_buffers = [] :=
        observe_run _ (fun t => (t.info 4).out_buffers) _ s' hb (by decide!)
      have h8 : s'.trace = [Effect.overflow 4 "sock" true, Effect.closed 4] :=
        observe_run _ (fun t => t.trace) _ s' hb (by decide!)
      ⟨s, s', rfl, ⟨startup 16 true false, overflow_reconnect_run, by decide, h⟩, h1, Or.inl h2,
        by rw [h3a, h3b]; decide, h4, h', Or.inl h5, h6, by rw [h7, h8]⟩
    | none =>
      absurd (show (run (startup 16 true false) overflow_reconnect_run).bind
          (fun t => step t (Event.fanout 0 (chunk 4) true)) = none by rw [h]; exact h')
        (by decide!)
  | none => absurd h (by decide!)

/-- Counterexample to C3 as stated: in `overflow_scenario` (budget 16, one sink on
descriptor 3, empty queue, zero counter, mirroring disabled) two reads of ten
bytes leave both chunks queued, `buffered_data = 20`, and no overflow diagnostic
in the trace; it is not the case that only the first chunk is queued and one
diagnostic emitted. -/
theorem overflow_scenario_counterexample :
    ∃ s, run overflow_scenario
        [Event.fanout 0 (chunk 1) true, Event.fanout 0 (chunk 2) true] = some s ∧
      (s.info 3).out_buffers = [{ buffer := 0, offset := 0 }, { buffer := 1, offset := 0 }] ∧
      s.pending 3 = chunk 1 ++ chunk 2 ∧ (s.info 3).buffered_data = 20 ∧
      overflow_count 3 s.trace = 0 ∧
      ¬ ((s.info 3).out_buffers = [{ buffer := 0, offset := 0 }] ∧
          overflow_count 3 s.trace = 1 ∧ s.is_sink 3) :=
  match h : run overflow_scenario
      [Event.fanout 0 (chunk 1) true, Event.fanout 0 (chunk 2) true] with
  | some s =>
    have h1 : (s.info 3).out_buffers =
        [{ buffer := 0, offset := 0 }, { buffer := 1, offset := 0 }] :=
      observe_run _ (fun t => (t.info 3).out_buffers) _ s h (by decide!)
    have h2 : s.pending 3 = chunk 1 ++ chunk 2 :=
      observe_run _ (fun t => t.pending 3) _ s h (by decide!)
    have h3 : (s.info 3).buffered_data = 20 :=
      observe_run _ (fun t => (t.info 3).buffered_data) _ s h (by decide!)
    have h4 : overflow_count 3 s.trace = 0 :=
      observe_run _ (fun t => overflow_count 3 t.trace) _ s h (by decide!)
    ⟨s, rfl, h1, h2, h3, h4, fun hc => absurd (h4.symm.trans hc.2.1) (by decide)⟩
  | none => absurd h (by decide!)

/-- C3, amended. End-to-end overflow scenario: with a budget of 16 bytes, mirroring
disabled, the default policy and a registered sink `k` with an empty queue, a
zero counter and a clear overflow flag, two reads of ten bytes leave both chunks
queued for `k` (the second is accepted because the 10 bytes already counted are
below 16), `buffered_data = 20`, no overflow diagnostic for `k`, and `k` still
registered; a third read of ten bytes is then rejected for `k`: queue and counter
are unchanged, exactly one overflow diagnostic is emitted for `k`, and `k` is
still registered. The state is any state with the registry invariant and the pool
invariant, which every reachable state satisfies (`reachable_invariants`). -/
theorem overflow_scenario_amended (s : State) (k fd_in : Nat) (d1 d2 d3 : List Nat)
    (mirror_ok : Bool) (hinv : RegistryInv s) (hpool : PoolInv s) (hmax : s.max_queue = 16)
    (hstd : s.use_stdout = false) (hno : s.no_overflow = false) (hsink : s.is_sink k)
    (hq : (s.info k).out_buffers = []) (hb : (s.info k).buffered_data = 0)
    (hflag : (s.info k).have_overflowed = false)
    (h1 : d1.length = 10) (h2 : d2.length = 10) (h3 : d3.length = 10) :
    ∃ s2 s3, run s [Event.fanout fd_in d1 mirror_ok, Event.fanout fd_in d2 mirror_ok] = some s2 ∧
      (s2.info k).out_buffers.length = 2 ∧ s2.pending k = d1 ++ d2 ∧
      (s2.info k).buffered_data = 20 ∧ s2.is_sink k ∧
      (∃ added, s2.trace = s.trace ++ added ∧ overflow_count k added = 0) ∧
      step s2 (Event.fanout fd_in d3 mirror_ok) = some s3 ∧
      (s3.info k).out_buffers = (s2.info k).out_buffers ∧ s3.pending k = d1 ++ d2 ∧
      (s3.info k).buffered_data = 20 ∧ s3.is_sink k ∧
      (∃ added, s3.trace = s2.trace ++ added ∧ overflow_count k added = 1) := by
  -- first read
  have hacc : s.accepts k := ⟨hsink, by rw [hb, hmax]; decide⟩
  have hstep1 := step_fanout_unmirrored s fd_in d1 mirror_ok hpool hstd (by omega) (by omega)
  obtain ⟨hinv1, hpool1⟩ := input_state_invariants s d1 hinv hpool
  obtain ⟨hu1, hm1, hn1⟩ := input_state_frame s d1
  obtain ⟨a1, a2, a3, a4, _⟩ := fanout_state_accepting s d1 k (by omega) hinv hpool hacc
  rw [← input_state_info] at a1 a2 a3 a4
  have hp1 := input_state_ordering s d1 k (by omega) hinv hpool hacc
  obtain ⟨t1, htr1, _, hc1⟩ := input_state_trace s d1
  have hsink1 : (input_state s d1).is_sink k := by
    unfold State.is_sink; rw [a1]; exact hsink
  have hb1 : ((input_state s d1).info k).buffered_data = 10 := by
    rw [a4, hb, h1]; decide
  -- second read
  have hacc1 : (input_state s d1).accepts k := ⟨hsink1, by rw [hb1, hm1, hmax]; decide⟩
  have hstep2 := step_fanout_unmirrored (input_state s d1) fd_in d2 mirror_ok hpool1
    (hu1.trans hstd) (by omega) (by omega)
  obtain ⟨hinv2, hpool2⟩ := input_state_invariants (input_state s d1) d2 hinv1 hpool1
  obtain ⟨hu2, hm2, hn2⟩ := input_state_frame (input_state s d1) d2
  obtain ⟨b1, b2, b3, b4, _⟩ :=
    fanout_state_accepting (input_state s d1) d2 k (by omega) hinv1 hpool1 hacc1
  rw [← input_state_info] at b1 b2 b3 b4
  have hp2 := input_state_ordering (input_state s d1) d2 k (by omega) hinv1 hpool1 hacc1
  obtain ⟨t2, htr2, _, hc2⟩ := input_state_trace (input_state s d1) d2
  have hsink2 : (input_state (input_state s d1) d2).is_sink k := by
    unfold State.is_sink; rw [b1]; exact hsink1
  have hb2 : ((input_state (input_state s d1) d2).info k).buffered_data = 20 := by
    rw [b4, hb1, h2]; decide
  have hpend : (input_state (input_state s d1) d2).pending k = d1 ++ d2 := by
    rw [hp2, hp1]
    unfold State.pending
    rw [hq]
    rfl
  have hflag2 : ((input_state (input_state s d1) d2).info k).have_overflowed = false := by
    rw [b2, a2]; exact hflag
  -- third read
  have hfull : (input_state (input_state s d1) d2).max_queue ≤
      ((input_state (input_state s d1) d2).info k).buffered_data := by
    rw [hb2, hm2, hm1, hmax]; decide
  have hstep3 := step_fanout_unmirrored (input_state (input_state s d1) d2) fd_in d3 mirror_ok
    hpool2 (hu2.trans (hu1.trans hstd)) (by omega) (by omega)
  obtain ⟨c1, c2, c3, c4⟩ := input_state_rejecting (input_state (input_state s d1) d2) d3 k
    (by omega) (hn2.trans (hn1.trans hno)) hinv2 hpool2 hsink2 hfull
  obtain ⟨t3, htr3, _, hc3⟩ := input_state_trace (input_state (input_state s d1) d2) d3
  refine ⟨input_state (input_state s d1) d2,
    input_state (input_state (input_state s d1) d2) d3, ?_, ?_, hpend, hb2, hsink2, ?_, hstep3,
    c2, c4.trans hpend, c3.trans hb2, ?_, ?_⟩
  · simp only [run, hstep1, hstep2]
  · rw [b3, a3, hq]
    rfl
  · refine ⟨t1 ++ t2, by rw [htr2, htr1, List.append_assoc], ?_⟩
    rw [overflow_count_append, hc1 k, hc2 k, if_neg (fun h => h.2.1 hacc.2),
      if_neg (fun h => h.2.1 hacc1.2)]
  · unfold State.is_sink; rw [c1]; exact hsink2
  · refine ⟨t3, htr3, ?_⟩
    rw [hc3 k, if_pos ⟨hsink2, by omega, hflag2⟩]

/-- Witness of the amended C3: `overflow_scenario` with its sink on descriptor 3 and
three chunks of ten bytes. -/
theorem overflow_scenario_amended_witness :
    RegistryInv overflow_scenario ∧ PoolInv overflow_scenario ∧
    overflow_scenario.max_queue = 16 ∧ overflow_scenario.is_sink 3 ∧
    ∃ s2 s3, run overflow_scenario
        [Event.fanout 0 (chunk 1) true, Event.fanout 0 (chunk 2) true] = some s2 ∧
      (s2.info 3).out_buffers.length = 2 ∧ s2.pending 3 = chunk 1 ++ chunk 2 ∧
      (s2.info 3).buffered_data = 20 ∧ s2.is_sink 3 ∧
      (∃ added, s2.trace = overflow_scenario.trace ++ added ∧ overflow_count 3 added = 0) ∧
      step s2 (Event.fanout 0 (chunk 3) true) = some s3 ∧
      (s3.info 3).out_buffers = (s2.info 3).out_buffers ∧ s3.pending 3 = chunk 1 ++ chunk 2 ∧
      (s3.info 3).buffered_data = 20 ∧ s3.is_sink 3 ∧
      (∃ added, s3.trace = s2.trace ++ added ∧ overflow_count 3 added = 1) :=
  ⟨by decide, by decide, by decide, by decide,
    overflow_scenario_amended overflow_scenario 3 0 (chunk 1) (chunk 2) (chunk 3) true
      (by decide) (by decide) (by decide) (by decide) (by decide) (by decide) (by decide)
      (by decide) (by decide) (by decide) (by decide) (by decide)⟩

/-! ## Claims on deregistration of an unregistered descriptor and on the budget option -/

/-- C11. Deregistering an unregistered identity is a no-op: for a descriptor that is
outside the table or whose type is `NONE`, `delpollfd` leaves `pollfds` and
`fdinfos` unchanged; the only effect is the line written to stderr. -/
theorem delpollfd_unregistered_noop (s : State) (fd : Nat)
    (h : fd ≥ s.fdinfos.length ∨ (s.info fd).type = FDTYPE.NONE) :
    (delpollfd s fd).pollfds = s.pollfds ∧ (delpollfd s fd).fdinfos = s.fdinfos ∧
    delpollfd s fd = { s with trace := s.trace ++ [Effect.remove_missing fd] } := by
  unfold delpollfd
  rw [if_pos h]
  exact ⟨rfl, rfl, rfl⟩

/-- Witness of C11: descriptor 7 is outside the table of `registry_example` and
descriptor 1 is inside it with type `NONE`. -/
theorem delpollfd_unregistered_noop_witness :
    (7 ≥ registry_example.fdinfos.length ∧ (registry_example.info 1).type = FDTYPE.NONE) ∧
    (delpollfd registry_example 7).pollfds = registry_example.pollfds ∧
    (delpollfd registry_example 7).fdinfos = registry_example.fdinfos ∧
    (delpollfd registry_example 1).pollfds = registry_example.pollfds ∧
    (delpollfd registry_example 1).fdinfos = registry_example.fdinfos :=
  ⟨⟨by decide, by decide⟩,
    (delpollfd_unregistered_noop registry_example 7 (Or.inl (by decide))).1,
    (delpollfd_unregistered_noop registry_example 7 (Or.inl (by decide))).2.1,
    (delpollfd_unregistered_noop registry_example 1 (Or.inr (by decide))).1,
    (delpollfd_unregistered_noop registry_example 1 (Or.inr (by decide))).2.1⟩

theorem shift_left_size_eq (x k : Nat) : shift_left_size x k = (x * 2 ^ k) % SIZE_MOD := by
  unfold shift_left_size
  rw [Nat.shiftLeft_eq]

/-- C15. Budget suffix arithmetic: when `strtoul` returns `N` (an `unsigned long`) and
leaves exactly `k`, `M` or `G` unparsed, `max_queue` becomes `N * 1024`,
`N * 1024 ^ 2` or `N * 1024 ^ 3` modulo `2 ^ 64`; when nothing is left unparsed it
becomes `N`. No diagnostic is written in these four cases. -/
theorem max_queue_suffix (N : Nat) (hN : N < SIZE_MOD) :
    option_max_queue N (some "k") = ((N * 1024) % SIZE_MOD, false) ∧
    option_max_queue N (some "M") = ((N * 1024 ^ 2) % SIZE_MOD, false) ∧
    option_max_queue N (some "G") = ((N * 1024 ^ 3) % SIZE_MOD, false) ∧
    option_max_queue N (some "") = (N, false) := by
  have h0 : N % SIZE_MOD = N := Nat.mod_eq_of_lt hN
  have k0 : ¬ ("k" = "") := by decide
  have m0 : ¬ ("M" = "") := by decide
  have mk : ¬ ("M" = "k") := by decide
  have g0 : ¬ ("G" = "") := by decide
  have gk : ¬ ("G" = "k") := by decide
  have gm : ¬ ("G" = "M") := by decide
  refine ⟨?_, ?_, ?_, ?_⟩
  · unfold option_max_queue
    simp only [h0, shift_left_size_eq]
    rw [if_neg k0, if_pos trivial]
    norm_num
  · unfold option_max_queue
    simp only [h0, shift_left_size_eq]
    rw [if_neg m0, if_neg mk, if_pos trivial]
    norm_num
  · unfold option_max_queue
    simp only [h0, shift_left_size_eq]
    rw [if_neg g0, if_neg gk, if_neg gm, if_pos trivial]
    norm_num
  · unfold option_max_queue
    simp only [h0]
    rw [if_pos trivial]

/-- Witness of C15: `-m 64k`, and a value whose product with `1024 ^ 3` wraps. -/
theorem max_queue_suffix_witness :
    (64 < SIZE_MOD ∧ option_max_queue 64 (some "k") = (65536, false)) ∧
    (2 ^ 40 < SIZE_MOD ∧ option_max_queue (2 ^ 40) (some "G") = (0, false)) :=
  ⟨⟨by decide, (max_queue_suffix 64 (by decide)).1.trans (by decide)⟩,
    ⟨by decide, (max_queue_suffix (2 ^ 40) (by decide)).2.2.1.trans (by decide)⟩⟩

/-! ## `poll` and the acquisition of a vector -/

theorem fill_revents_length (l : List pollfd) (r : List Nat) :
    (fill_revents l r).length = l.length := by
  induction l generalizing r with
  | nil => rfl
  | cons p ps ih =>
    cases r with
    | nil => simp [fill_revents, ih]
    | cons x xs => simp [fill_revents, ih]

theorem fill_revents_getD (l : List pollfd) (r : List Nat) (i : Nat) :
    ((fill_revents l r).getD i default).fd = (l.getD i default).fd ∧
    ((fill_revents l r).getD i default).events = (l.getD i default).events := by
  induction l generalizing r i with
  | nil => exact ⟨rfl, rfl⟩
  | cons p ps ih =>
    cases r with
    | nil =>
      cases i with
      | zero => exact ⟨rfl, rfl⟩
      | succ k => simpa [fill_revents] using ih [] k
    | cons x xs =>
      cases i with
      | zero => exact ⟨rfl, rfl⟩
      | succ k => simpa [fill_revents] using ih xs k

theorem poll_slot (s : State) (r : List Nat) (i : Nat) :
    ((poll s r).slot i).fd = (s.slot i).fd ∧ ((poll s r).slot i).events = (s.slot i).events :=
  fill_revents_getD s.pollfds r i

theorem poll_frame (s : State) (r : List Nat) :
    (poll s r).fdinfos = s.fdinfos ∧ (poll s r).buffers = s.buffers ∧
    (poll s r).free_buffers = s.free_buffers ∧ (poll s r).trace = s.trace ∧
    (poll s r).max_queue = s.max_queue ∧ (poll s r).input_fd = s.input_fd ∧
    (poll s r).pollfds.length = s.pollfds.length ∧ (∀ fd, (poll s r).info fd = s.info fd) :=
  ⟨rfl, rfl, rfl, rfl, rfl, rfl, fill_revents_length _ _, fun _ => rfl⟩

theorem poll_interest (s : State) (r : List Nat) (fd : Nat) :
    (poll s r).interest fd = s.interest fd :=
  (poll_slot s r _).2

theorem poll_registryInv (s : State) (r : List Nat) (hinv : RegistryInv s) :
    RegistryInv (poll s r) :=
  registryInv_congr s (poll s r) (poll_frame s r).2.2.2.2.2.2.1 rfl
    (fun i => (poll_slot s r i).1) (fun _ => ⟨rfl, rfl⟩) hinv

theorem set_revents_self (s : State) (i : Nat) :
    set_revents s i (s.slot i).revents = s := by
  unfold set_revents State.set_slot
  have : s.pollfds.set i { s.slot i with revents := (s.slot i).revents } = s.pollfds := by
    apply List.ext_getElem?
    intro j
    rw [List.getElem?_set]
    by_cases h : i = j
    · subst h
      by_cases hlt : i < s.pollfds.length
      · simp only [hlt, if_true]
        simp [State.slot, List.getD_eq_getElem?_getD, List.getElem?_eq_getElem hlt]
      · simp only [hlt, if_false, if_true]
        rw [List.getElem?_eq_none (by omega)]
    · simp [h]
  rw [this]

theorem acquire_buffer_eq (s : State) :
    acquire_buffer s =
      { s with buffers := (acquire_buffer s).buffers,
               free_buffers := (getbuffer s).2.free_buffers } := by
  unfold acquire_buffer
  rw [getbuffer_snd s]

theorem acquire_buffer_frame (s : State) :
    (acquire_buffer s).fdinfos = s.fdinfos ∧ (acquire_buffer s).pollfds = s.pollfds ∧
    (acquire_buffer s).trace = s.trace ∧ (acquire_buffer s).max_queue = s.max_queue ∧
    (acquire_buffer s).input_fd = s.input_fd ∧ (acquire_buffer s).input_name = s.input_name ∧
    (acquire_buffer s).reopen_input = s.reopen_input ∧
    (acquire_buffer s).free_buffers = (getbuffer s).2.free_buffers ∧
    (acquire_buffer s).buffers.length = (getbuffer s).2.buffers.length ∧
    (∀ fd, (acquire_buffer s).info fd = s.info fd) := by
  rw [acquire_buffer_eq]
  refine ⟨rfl, rfl, rfl, rfl, rfl, rfl, rfl, rfl, ?_, fun _ => rfl⟩
  simp [acquire_buffer]

/-- Resizing the acquired vector does not change the bytes of any vector that some
queue holds. -/
theorem acquire_buffer_other (s : State) (hpool : PoolInv s) (fd : Nat)
    (e : fd_out_buffer) (he : e ∈ (s.info fd).out_buffers) :
    (acquire_buffer s).buffers.getD e.buffer [] = s.buffers.getD e.buffer [] := by
  obtain ⟨_, _, _, _, g5, g6⟩ := getbuffer_spec s hpool
  have hne := g5 fd e he
  unfold acquire_buffer
  simp only [List.getD_eq_getElem?_getD, List.getElem?_set]
  rw [if_neg (fun h => hne h.symm)]
  have := g6 e.buffer hne
  simp only [List.getD_eq_getElem?_getD] at this
  exact this

theorem acquire_buffer_poolInv (s : State) (hpool : PoolInv s) :
    PoolInv (acquire_buffer s) := by
  obtain ⟨g1, g2, g3, g4, g5, _⟩ := getbuffer_spec s hpool
  obtain ⟨_, _, _, _, _, _, _, a8, a9, a10⟩ := acquire_buffer_frame s
  have hpool' := (poolInv_iff s).mp hpool
  rw [poolInv_iff, a8, a9]
  refine ⟨g3, ?_, ?_⟩
  · intro b' hb'
    obtain ⟨hmem, _⟩ := g4 b' hb'
    refine ⟨by have := (hpool'.2.1 b' hmem).1; omega, ?_⟩
    intro fd e he
    rw [a10] at he
    exact (hpool'.2.1 b' hmem).2 fd e he
  · intro fd e he
    rw [a10] at he
    have := hpool'.2.2 fd e he
    omega

theorem acquire_buffer_registryInv (s : State) (hinv : RegistryInv s) :
    RegistryInv (acquire_buffer s) := by
  rw [acquire_buffer_eq]
  exact hinv

theorem acquire_buffer_idleInv (s : State) (hidle : IdleInv s) :
    IdleInv (acquire_buffer s) := by
  rw [acquire_buffer_eq]
  exact hidle

/-- Closed form of `read_input_fd` for an empty read. -/
theorem read_input_fd_eof (s : State) (fd : Nat) (cf : Bool) (data : List Nat)
    (reopen : Option Nat) (hdata : data.length = 0) :
    read_input_fd s fd cf { read := ReadResult.bytes data, reopen := reopen } =
      if s.reopen_input = true ∧ fd = s.input_fd then
        match reopen with
        | none => Except.error 1
        | some new_fd => Except.ok (none, false, reopen_state s fd new_fd)
      else Except.error 0 := by
  obtain ⟨_, _, _, _, a5, a6, a7, _⟩ := acquire_buffer_frame s
  have hname : ∀ (t : State), (delpollfd (close t fd) fd).input_name = t.input_name :=
    fun t => (delpollfd_frame (close t fd) fd).2.2.2.2.2.2.2
  have key : (delpollfd (close (acquire_buffer s) fd) fd).input_name = s.input_name := by
    rw [hname, a6]
  by_cases hc : s.reopen_input = true ∧ fd = s.input_fd
  · rw [if_pos hc]
    cases reopen with
    | none =>
      unfold read_input_fd
      simp only [hdata, if_true]
      change (if (acquire_buffer s).reopen_input = true ∧ fd = (acquire_buffer s).input_fd then _
        else _) = _
      rw [a5, a7, if_pos hc]
    | some new_fd =>
      unfold read_input_fd
      simp only [hdata, if_true]
      change (if (acquire_buffer s).reopen_input = true ∧ fd = (acquire_buffer s).input_fd then _
        else _) = _
      rw [a5, a7, if_pos hc]
      unfold reopen_state
      rw [← key]
      rfl
  · rw [if_neg hc]
    unfold read_input_fd
    simp only [hdata, if_true]
    change (if (acquire_buffer s).reopen_input = true ∧ fd = (acquire_buffer s).input_fd then _
      else _) = _
    rw [a5, a7, if_neg hc]

/-! ## The further invariants, entry by entry -/

theorem entryInv_iff (s : State) :
    EntryInv s ↔
      ∀ fd, ∀ e ∈ (s.info fd).out_buffers, e.offset < (s.buffers.getD e.buffer []).length := by
  constructor
  · intro h fd e he
    by_cases hlt : fd < s.fdinfos.length
    · exact h (s.info fd) ((mem_fdinfos_iff s _).mpr ⟨fd, hlt, rfl⟩) e he
    · rw [info_default_of_ge s fd (by omega), default_queue] at he
      exact absurd he (List.not_mem_nil _)
  · intro h x hx e he
    obtain ⟨fd, _, hfd⟩ := (mem_fdinfos_iff s x).mp hx
    rw [← hfd] at he
    exact h fd e he

theorem wakeInv_iff (s : State) :
    WakeInv s ↔
      ∀ fd, s.is_sink fd → (s.info fd).out_buffers ≠ [] → s.interest fd &&& POLLOUT ≠ 0 := by
  constructor
  · intro h fd hs hq
    exact h fd (is_sink_lt s fd hs) hs hq
  · intro h fd _ hs hq
    exact h fd hs hq

theorem queued_bytes_eq (s : State) (fd : Nat) :
    s.queued_bytes fd = unsent_count s.buffers (s.info fd).out_buffers := rfl

theorem unsent_count_nil (B : List (List Nat)) : unsent_count B [] = 0 := rfl

theorem unsent_count_cons (B : List (List Nat)) (e : fd_out_buffer) (q : List fd_out_buffer) :
    unsent_count B (e :: q) = ((B.getD e.buffer []).length - e.offset) + unsent_count B q := by
  simp [unsent_count]

theorem unsent_count_append (B : List (List Nat)) (q r : List fd_out_buffer) :
    unsent_count B (q ++ r) = unsent_count B q + unsent_count B r := by
  simp [unsent_count]

theorem unsent_count_congr (B B' : List (List Nat)) (q : List fd_out_buffer)
    (h : ∀ e ∈ q, B'.getD e.buffer [] = B.getD e.buffer []) :
    unsent_count B' q = unsent_count B q := by
  induction q with
  | nil => rfl
  | cons e q ih =>
    rw [unsent_count_cons, unsent_count_cons, h e (List.mem_cons_self _ _),
      ih (fun e' he' => h e' (List.mem_cons_of_mem _ he'))]

theorem budgetInv_iff (s : State) :
    BudgetInv s ↔
      ∀ fd, s.queued_bytes fd ≤ (s.info fd).buffered_data ∧
        (s.info fd).buffered_data ≤ s.max_queue + 4095 := by
  constructor
  · intro h fd
    by_cases hlt : fd < s.fdinfos.length
    · exact h fd hlt
    · rw [queued_bytes_eq, info_default_of_ge s fd (by omega), default_queue]
      exact ⟨Nat.zero_le _, Nat.zero_le _⟩
  · intro h fd _
    exact h fd

theorem entryInv_of (s t : State)
    (h : ∀ fd, ∀ e ∈ (t.info fd).out_buffers,
      (e ∈ (s.info fd).out_buffers ∧ t.buffers.getD e.buffer [] = s.buffers.getD e.buffer []) ∨
        e.offset < (t.buffers.getD e.buffer []).length)
    (hs : EntryInv s) : EntryInv t := by
  rw [entryInv_iff] at hs ⊢
  intro fd e he
  rcases h fd e he with ⟨h1, h2⟩ | h1
  · rw [h2]; exact hs fd e h1
  · exact h1

theorem wakeInv_of (s t : State)
    (h : ∀ fd, t.is_sink fd → (t.info fd).out_buffers ≠ [] →
      t.interest fd &&& POLLOUT ≠ 0 ∨
        (s.is_sink fd ∧ (s.info fd).out_buffers ≠ [] ∧ t.interest fd = s.interest fd))
    (hs : WakeInv s) : WakeInv t := by
  rw [wakeInv_iff] at hs ⊢
  intro fd hsink hq
  rcases h fd hsink hq with h1 | ⟨h1, h2, h3⟩
  · exact h1
  · rw [h3]; exact hs fd h1 h2

theorem budgetInv_of (s t : State) (hm : t.max_queue = s.max_queue)
    (h : ∀ fd, (t.queued_bytes fd ≤ (t.info fd).buffered_data ∧
        (t.info fd).buffered_data ≤ t.max_queue + 4095) ∨
      (t.queued_bytes fd ≤ s.queued_bytes fd ∧
        (t.info fd).buffered_data = (s.info fd).buffered_data))
    (hs : BudgetInv s) : BudgetInv t := by
  rw [budgetInv_iff] at hs ⊢
  intro fd
  rcases h fd with h1 | ⟨h1, h2⟩
  · exact h1
  · rw [h2, hm]
    exact ⟨Nat.le_trans h1 (hs fd).1, (hs fd).2⟩

/-- The three further invariants only read the queues, the counters, the roles, the
vectors and the wait interests. -/
theorem further_congr (s t : State) (hinfo : ∀ fd, t.info fd = s.info fd)
    (hb : t.buffers = s.buffers) (hev : ∀ i, (t.slot i).events = (s.slot i).events)
    (hm : t.max_queue = s.max_queue) :
    (EntryInv s → EntryInv t) ∧ (WakeInv s → WakeInv t) ∧ (BudgetInv s → BudgetInv t) := by
  refine ⟨?_, ?_, ?_⟩
  · refine entryInv_of s t ?_
    intro fd e he
    rw [hinfo] at he
    exact Or.inl ⟨he, by rw [hb]⟩
  · refine wakeInv_of s t ?_
    intro fd hsink hq
    refine Or.inr ⟨?_, ?_, ?_⟩
    · unfold State.is_sink at hsink ⊢; rw [← hinfo]; exact hsink
    · rw [← hinfo]; exact hq
    · unfold State.interest; rw [hinfo, hev]
  · refine budgetInv_of s t hm ?_
    intro fd
    refine Or.inr ⟨?_, by rw [hinfo]⟩
    rw [queued_bytes_eq, queued_bytes_eq, hinfo, hb]

theorem emit_further (s : State) (e : Effect) :
    (EntryInv s → EntryInv (s.emit e)) ∧ (WakeInv s → WakeInv (s.emit e)) ∧
    (BudgetInv s → BudgetInv (s.emit e)) :=
  further_congr s (s.emit e) (fun _ => rfl) rfl (fun _ => rfl) rfl

theorem finished_with_buffer_further (s : State) (b : Nat) :
    (EntryInv s → EntryInv (finished_with_buffer s b)) ∧
    (WakeInv s → WakeInv (finished_with_buffer s b)) ∧
    (BudgetInv s → BudgetInv (finished_with_buffer s b)) := by
  obtain ⟨f1, f2, f3, f4, f5, _⟩ := finished_with_buffer_frame s b
  refine further_congr s _ (finished_with_buffer_info s b) f3 ?_ f5
  intro i
  unfold State.slot
  rw [f2]

theorem poll_further (s : State) (r : List Nat) :
    (EntryInv s → EntryInv (poll s r)) ∧ (WakeInv s → WakeInv (poll s r)) ∧
    (BudgetInv s → BudgetInv (poll s r)) :=
  further_congr s _ (fun _ => rfl) rfl (fun i => (poll_slot s r i).2) rfl

theorem set_revents_further (s : State) (i r : Nat) :
    (EntryInv s → EntryInv (set_revents s i r)) ∧ (WakeInv s → WakeInv (set_revents s i r)) ∧
    (BudgetInv s → BudgetInv (set_revents s i r)) := by
  refine further_congr s _ (fun _ => rfl) rfl ?_ rfl
  intro j
  unfold set_revents
  rw [slot_set_slot]
  split
  · rename_i h; rw [h.1]
  · rfl

theorem entry_budget_congr (s t : State) (hinfo : ∀ fd, t.info fd = s.info fd)
    (hb : t.buffers = s.buffers) (hm : t.max_queue = s.max_queue) :
    (EntryInv s → EntryInv t) ∧ (BudgetInv s → BudgetInv t) := by
  refine ⟨?_, ?_⟩
  · refine entryInv_of s t ?_
    intro fd e he
    rw [hinfo] at he
    exact Or.inl ⟨he, by rw [hb]⟩
  · refine budgetInv_of s t hm ?_
    intro fd
    refine Or.inr ⟨?_, by rw [hinfo]⟩
    rw [queued_bytes_eq, queued_bytes_eq, hinfo, hb]

theorem addpollfd_further (s : State) (fd events : Nat) (type : FDTYPE) (name : String)
    (hinv : RegistryInv s) (hidle : IdleInv s) :
    (EntryInv s → EntryInv (addpollfd s fd events type name)) ∧
    (WakeInv s → WakeInv (addpollfd s fd events type name)) ∧
    (BudgetInv s → BudgetInv (addpollfd s fd events type name)) := by
  obtain ⟨f1, _, f3, _⟩ := addpollfd_frame s fd events type name
  refine ⟨?_, ?_, ?_⟩
  · refine entryInv_of s _ ?_
    intro fd' e he
    rw [(addpollfd_queue s fd events type name fd').1] at he
    exact Or.inl ⟨he, by rw [f1]⟩
  · by_cases h : (s.info fd).type = FDTYPE.NONE
    · refine wakeInv_of s _ ?_
      intro fd' hsink hq
      rw [(addpollfd_queue s fd events type name fd').1] at hq
      by_cases hfd : fd' = fd
      · exfalso
        apply hq
        rw [hfd]
        apply (idleInv_iff s).mp hidle
        unfold State.is_sink
        rw [h]
        decide
      · have hi := addpollfd_new_info s fd events type name h fd'
        rw [if_neg hfd] at hi
        have hsink' : s.is_sink fd' := by
          unfold State.is_sink at hsink ⊢
          rw [hi] at hsink
          exact hsink
        refine Or.inr ⟨hsink', hq, ?_⟩
        have hoff := (hinv.1 fd' (is_sink_lt s fd' hsink') (is_sink_ne_none s fd' hsink')).1
        unfold State.interest State.slot
        rw [hi, addpollfd_new_pollfds s fd events type name h]
        simp only [List.getD_eq_getElem?_getD]
        rw [List.getElem?_append_left hoff]
    · rw [addpollfd_dup s fd events type name h]
      exact (emit_further s _).2.1
  · refine budgetInv_of s _ f3 ?_
    intro fd'
    refine Or.inr ⟨?_, (addpollfd_queue s fd events type name fd').2.1⟩
    rw [queued_bytes_eq, queued_bytes_eq, (addpollfd_queue s fd events type name fd').1, f1]

theorem delpollfd_further (s : State) (fd : Nat) (hinv : RegistryInv s) :
    (EntryInv s → EntryInv (delpollfd s fd)) ∧ (WakeInv s → WakeInv (delpollfd s fd)) ∧
    (BudgetInv s → BudgetInv (delpollfd s fd)) := by
  obtain ⟨f1, _, f3, _⟩ := delpollfd_frame s fd
  refine ⟨?_, ?_, ?_⟩
  · refine entryInv_of s _ ?_
    intro fd' e he
    rw [(delpollfd_queue s fd fd').1] at he
    split at he
    · exact absurd he (List.not_mem_nil _)
    · exact Or.inl ⟨he, by rw [f1]⟩
  · refine wakeInv_of s _ ?_
    intro fd' hsink hq
    have ht := (delpollfd_queue s fd fd').2.2.2.2
    by_cases hfd : fd' = fd
    · exfalso
      rw [if_pos hfd] at ht
      exact is_sink_ne_none _ _ hsink ht
    · rw [if_neg hfd] at ht
      have hsink' : s.is_sink fd' := by
        unfold State.is_sink at hsink ⊢
        rw [ht] at hsink
        exact hsink
      obtain ⟨_, _, o3, _, _, o6⟩ := delpollfd_other s fd fd' hinv hfd
        (is_sink_ne_none s fd' hsink')
      rw [o3] at hq
      exact Or.inr ⟨hsink', hq, o6⟩
  · refine budgetInv_of s _ f3 ?_
    intro fd'
    refine Or.inr ⟨?_, (delpollfd_queue s fd fd').2.1⟩
    rw [queued_bytes_eq, queued_bytes_eq, (delpollfd_queue s fd fd').1, f1]
    split
    · rw [unsent_count_nil]; exact Nat.zero_le _
    · exact Nat.le_refl _

theorem acquire_buffer_further (s : State) (hpool : PoolInv s) :
    (EntryInv s → EntryInv (acquire_buffer s)) ∧ (WakeInv s → WakeInv (acquire_buffer s)) ∧
    (BudgetInv s → BudgetInv (acquire_buffer s)) := by
  obtain ⟨_, a2, _, a4, _, _, _, _, _, a10⟩ := acquire_buffer_frame s
  refine ⟨?_, ?_, ?_⟩
  · refine entryInv_of s _ ?_
    intro fd e he
    rw [a10] at he
    exact Or.inl ⟨he, acquire_buffer_other s hpool fd e he⟩
  · refine wakeInv_of s _ ?_
    intro fd hsink hq
    rw [a10] at hq
    refine Or.inr ⟨?_, hq, ?_⟩
    · unfold State.is_sink at hsink ⊢; rw [a10] at hsink; exact hsink
    · unfold State.interest State.slot; rw [a10, a2]
  · refine budgetInv_of s _ a4 ?_
    intro fd
    refine Or.inr ⟨?_, by rw [a10]⟩
    rw [queued_bytes_eq, queued_bytes_eq, a10]
    exact Nat.le_of_eq (unsent_count_congr _ _ _
      (fun e he => acquire_buffer_other s hpool fd e he))

/-- Lines 461-464: the interest of a sink whose queue is empty is reduced. -/
theorem set_events_further (s : State) (i events : Nat) (hinv : RegistryInv s)
    (hq : (s.info (s.slot i).fd).out_buffers = []) :
    (EntryInv s → EntryInv (s.set_slot i { s.slot i with events := events })) ∧
    (WakeInv s → WakeInv (s.set_slot i { s.slot i with events := events })) ∧
    (BudgetInv s → BudgetInv (s.set_slot i { s.slot i with events := events })) := by
  obtain ⟨h1, h2⟩ := entry_budget_congr s (s.set_slot i { s.slot i with events := events })
    (fun _ => rfl) rfl rfl
  refine ⟨h1, ?_, h2⟩
  refine wakeInv_of s _ ?_
  intro fd hsink hne
  refine Or.inr ⟨hsink, hne, ?_⟩
  have hsink' : s.is_sink fd := hsink
  have hne' : (s.info fd).out_buffers ≠ [] := hne
  obtain ⟨_, hslot⟩ := hinv.1 fd (is_sink_lt s fd hsink') (is_sink_ne_none s fd hsink')
  change ((s.set_slot i _).slot (s.info fd).pollfd_offset).events = _
  rw [slot_set_slot]
  split
  · rename_i h
    exfalso
    apply hne'
    rw [← hslot, ← h.1]
    exact hq
  · rfl

theorem close_pending_further (s : State) (fds : List Nat) (hinv : RegistryInv s) :
    (EntryInv s → EntryInv (close_pending s fds)) ∧
    (WakeInv s → WakeInv (close_pending s fds)) ∧
    (BudgetInv s → BudgetInv (close_pending s fds)) := by
  induction fds generalizing s with
  | nil => exact ⟨id, id, id⟩
  | cons fd fds ih =>
    rw [close_pending_cons]
    have hinv1 : RegistryInv (close s fd) := hinv
    obtain ⟨e1, e2, e3⟩ := emit_further s (Effect.closed fd)
    obtain ⟨d1, d2, d3⟩ := delpollfd_further (close s fd) fd hinv1
    obtain ⟨i1, i2, i3⟩ := ih (delpollfd (close s fd) fd) (delpollfd_registryInv _ _ hinv1)
    exact ⟨fun h => i1 (d1 (e1 h)), fun h => i2 (d2 (e2 h)), fun h => i3 (d3 (e3 h))⟩

theorem load_buffer_further (s : State) (data : List Nat) (hpool : PoolInv s) :
    (EntryInv s → EntryInv (load_buffer s data)) ∧
    (WakeInv s → WakeInv (load_buffer s data)) ∧
    (BudgetInv s → BudgetInv (load_buffer s data)) := by
  obtain ⟨_, _, l3, l4, _, _, _, l8, _⟩ := load_buffer_frame s data
  refine ⟨?_, ?_, ?_⟩
  · refine entryInv_of s _ ?_
    intro fd e he
    rw [l3] at he
    exact Or.inl ⟨he, load_buffer_other s data hpool fd e he⟩
  · refine wakeInv_of s _ ?_
    intro fd hsink hq
    rw [l3] at hq
    refine Or.inr ⟨?_, hq, ?_⟩
    · unfold State.is_sink at hsink ⊢; rw [l3] at hsink; exact hsink
    · unfold State.interest State.slot; rw [l3, l8]
  · refine budgetInv_of s _ l4 ?_
    intro fd
    refine Or.inr ⟨?_, by rw [l3]⟩
    rw [queued_bytes_eq, queued_bytes_eq, l3]
    exact Nat.le_of_eq (unsent_count_congr _ _ _
      (fun e he => load_buffer_other s data hpool fd e he))

theorem fanout_info_accepting (m b n : Nat) (x : fdinfo)
    (h : (x.type = FDTYPE.CONN ∨ x.type = FDTYPE.FIFO) ∧ x.buffered_data < m) :
    (fanout_info m b n x).out_buffers = x.out_buffers ++ [{ buffer := b, offset := 0 }] ∧
    (fanout_info m b n x).buffered_data = (x.buffered_data + n) % SIZE_MOD := by
  unfold fanout_info
  rw [if_pos h.1, if_pos h.2]
  exact ⟨rfl, rfl⟩

theorem fanout_info_rejecting (m b n : Nat) (x : fdinfo)
    (h : ¬ ((x.type = FDTYPE.CONN ∨ x.type = FDTYPE.FIFO) ∧ x.buffered_data < m)) :
    (fanout_info m b n x).out_buffers = x.out_buffers ∧
    (fanout_info m b n x).buffered_data = x.buffered_data := by
  unfold fanout_info
  by_cases h1 : x.type = FDTYPE.CONN ∨ x.type = FDTYPE.FIFO
  · rw [if_pos h1, if_neg (fun h2 => h ⟨h1, h2⟩)]
    exact ⟨rfl, rfl⟩
  · rw [if_neg h1]
    exact ⟨rfl, rfl⟩

theorem pollout_in_interest : (POLLOUT ||| POLLERR) &&& POLLOUT ≠ 0 := by decide

/-- The fan-out loop keeps the further invariants when the vector it queues is not
empty and at most one read long. -/
theorem fanout_loop_further (s : State) (b n : Nat) (hinv : RegistryInv s)
    (hpos : 0 < (s.buffers.getD b []).length) (hn : (s.buffers.getD b []).length ≤ n)
    (hle : n ≤ 4096) :
    (EntryInv s → EntryInv (fanout_loop s b n).1) ∧
    (WakeInv s → WakeInv (fanout_loop s b n).1) ∧
    (s.max_queue + 4095 < SIZE_MOD → BudgetInv s → BudgetInv (fanout_loop s b n).1) := by
  obtain ⟨f1, _, _, _, _, _, f7, _⟩ := fanout_loop_frame s b n
  refine ⟨?_, ?_, ?_⟩
  · refine entryInv_of s _ ?_
    intro fd e he
    rw [fanout_loop_info] at he
    rcases fanout_info_queue _ _ _ _ e he with h | h
    · exact Or.inl ⟨h, by rw [f7]⟩
    · right
      rw [f7, h]
      exact hpos
  · refine wakeInv_of s _ ?_
    intro fd hsink hq
    have hsink' : s.is_sink fd := by
      unfold State.is_sink at hsink ⊢
      rw [fanout_loop_info, (fanout_info_type _ _ _ _).1] at hsink
      exact hsink
    rw [fanout_loop_interest s b n fd hinv (is_sink_ne_none s fd hsink')]
    by_cases hacc : s.accepts fd
    · left
      rw [if_pos hacc]
      exact pollout_in_interest
    · right
      rw [if_neg hacc]
      refine ⟨hsink', ?_, rfl⟩
      rw [fanout_loop_info, (fanout_info_rejecting _ _ _ _ hacc).1] at hq
      exact hq
  · intro hM hs
    refine budgetInv_of s _ f1 ?_ hs
    intro fd
    rw [f1, queued_bytes_eq, queued_bytes_eq, f7, fanout_loop_info]
    by_cases hacc : s.accepts fd
    · left
      obtain ⟨q1, q2⟩ := fanout_info_accepting s.max_queue b n (s.info fd) hacc
      have hb := ((budgetInv_iff s).mp hs fd).1
      rw [queued_bytes_eq] at hb
      have hlt : (s.info fd).buffered_data < s.max_queue := hacc.2
      rw [q1, q2, unsent_count_append, unsent_count_cons, unsent_count_nil,
        Nat.mod_eq_of_lt (by omega)]
      simp only [Nat.sub_zero, Nat.add_zero]
      omega
    · right
      obtain ⟨q1, q2⟩ := fanout_info_rejecting s.max_queue b n (s.info fd) hacc
      rw [q1, q2]
      exact ⟨Nat.le_refl _, rfl⟩


theorem fanout_state_further (s : State) (data : List Nat) (hlen : 0 < data.length)
    (hle : data.length ≤ 4096) (hinv : RegistryInv s) (hpool : PoolInv s) :
    (EntryInv s → EntryInv (fanout_state s data)) ∧
    (WakeInv s → WakeInv (fanout_state s data)) ∧
    (s.max_queue + 4095 < SIZE_MOD → BudgetInv s → BudgetInv (fanout_state s data)) := by
  have hfree : ∀ b ∈ s.free_buffers, b < s.buffers.length := fun b hb => (hpool.2.1 b hb).1
  have hcontent := load_buffer_content s data hfree
  have hinvL := load_buffer_registryInv s data hinv
  have hm := (load_buffer_frame s data).2.2.2.1
  obtain ⟨l1, l2, l3⟩ := load_buffer_further s data hpool
  obtain ⟨f1, f2, f3⟩ := fanout_loop_further (load_buffer s data) (getbuffer s).1 data.length
    hinvL (by rw [hcontent]; exact hlen) (by rw [hcontent]) hle
  obtain ⟨c1, c2, c3⟩ := close_pending_further
    (fanout_loop (load_buffer s data) (getbuffer s).1 data.length).1
    (fanout_loop (load_buffer s data) (getbuffer s).1 data.length).2
    (fanout_loop_registryInv _ _ _ hinvL)
  unfold fanout_state
  refine ⟨fun h => c1 (f1 (l1 h)), fun h => c2 (f2 (l2 h)), fun hM h => c3 (f3 ?_ (l3 h))⟩
  rw [hm]
  exact hM

theorem input_state_further (s : State) (data : List Nat) (hlen : 0 < data.length)
    (hle : data.length ≤ 4096) (hinv : RegistryInv s) (hpool : PoolInv s) :
    (EntryInv s → EntryInv (input_state s data)) ∧
    (WakeInv s → WakeInv (input_state s data)) ∧
    (s.max_queue + 4095 < SIZE_MOD → BudgetInv s → BudgetInv (input_state s data)) := by
  obtain ⟨f1, f2, f3⟩ := fanout_state_further s data hlen hle hinv hpool
  unfold input_state
  cases hu : s.use_stdout
  · simp only [Bool.false_eq_true, if_false]
    obtain ⟨g1, g2, g3⟩ := finished_with_buffer_further (fanout_state s data) (getbuffer s).1
    exact ⟨fun h => g1 (f1 h), fun h => g2 (f2 h), fun hM h => g3 (f3 hM h)⟩
  · simp only [if_true]
    obtain ⟨e1, e2, e3⟩ := emit_further (fanout_state s data) (Effect.stdout data)
    obtain ⟨g1, g2, g3⟩ := finished_with_buffer_further
      ((fanout_state s data).emit (Effect.stdout data)) (getbuffer s).1
    exact ⟨fun h => g1 (e1 (f1 h)), fun h => g2 (e2 (f2 h)), fun hM h => g3 (e3 (f3 hM h))⟩

/-! ## The write loop keeps the further invariants -/

theorem set_info_view (s : State) (fd : Nat) (x : fdinfo) (h1 : x.type = (s.info fd).type)
    (h2 : x.pollfd_offset = (s.info fd).pollfd_offset) (fd' : Nat) :
    ((s.set_info fd x).info fd').type = (s.info fd').type ∧
    ((s.set_info fd x).is_sink fd' ↔ s.is_sink fd') ∧
    (s.set_info fd x).interest fd' = s.interest fd' := by
  have ht : ((s.set_info fd x).info fd').type = (s.info fd').type := by
    rw [info_set_info]
    split
    · rename_i h; rw [h1, h.1]
    · rfl
  have ho : ((s.set_info fd x).info fd').pollfd_offset = (s.info fd').pollfd_offset := by
    rw [info_set_info]
    split
    · rename_i h; rw [h2, h.1]
    · rfl
  refine ⟨ht, ?_, ?_⟩
  · unfold State.is_sink
    rw [ht]
  · unfold State.interest
    rw [ho]
    rfl

theorem after_write_buffered_data (s : State) (fd : Nat) (item : fd_out_buffer)
    (result fd' : Nat) :
    ((after_write s fd item result).info fd').buffered_data =
      if fd = fd' ∧ fd < s.fdinfos.length then
        ((s.info fd).buffered_data + SIZE_MOD - result) % SIZE_MOD
      else (s.info fd').buffered_data := by
  unfold after_write
  rw [info_set_info]
  by_cases h : fd = fd' ∧ fd < s.fdinfos.length
  · rw [if_pos h, if_pos (show fd = fd' ∧ fd < (s.emit _).fdinfos.length from h)]
  · rw [if_neg h, if_neg (show ¬ (fd = fd' ∧ fd < (s.emit _).fdinfos.length) from h)]
    rfl

theorem after_write_view (s : State) (fd : Nat) (item : fd_out_buffer) (result fd' : Nat) :
    ((after_write s fd item result).is_sink fd' ↔ s.is_sink fd') ∧
    (after_write s fd item result).interest fd' = s.interest fd' := by
  obtain ⟨a1, a2, _, _, _⟩ := after_write_info s fd item result fd'
  obtain ⟨_, _, f3, _⟩ := after_write_frame s fd item result
  refine ⟨?_, ?_⟩
  · unfold State.is_sink
    rw [a1]
  · unfold State.interest State.slot
    rw [a2, f3]

theorem size_sub_mod (bd r : Nat) (h1 : r ≤ bd) (h2 : bd < SIZE_MOD) :
    (bd + SIZE_MOD - r) % SIZE_MOD = bd - r := by
  have : bd + SIZE_MOD - r = (bd - r) + SIZE_MOD := by omega
  rw [this, Nat.add_mod_right, Nat.mod_eq_of_lt (by omega)]

theorem write_loop_entryInv (s : State) (fd : Nat) (cf : Bool) (item : fd_out_buffer)
    (ws : List WriteResult) (t : State) (cf' : Bool) (hinv : RegistryInv s)
    (hentry : EntryInv s) (hrun : write_loop s fd cf item ws = some (t, cf')) :
    EntryInv t := by
  refine write_loop_rule fd cf (fun s _ => RegistryInv s ∧ EntryInv s)
    (fun t _ => EntryInv t) ?_ ?_ ?_ ?_ ws s item t cf' ⟨hinv, hentry⟩ hrun
  · intro s item h _
    exact (finished_with_buffer_further s _).1 h.2
  · intro s item h hgt
    refine entryInv_of s _ ?_ h.2
    intro fd' e he
    rw [info_set_info] at he
    split at he
    · rename_i hh
      simp only [List.mem_cons] at he
      rcases he with he | he
      · right
        rw [he]
        exact hgt
      · left
        rw [← hh.1]
        exact ⟨he, rfl⟩
    · exact Or.inl ⟨he, rfl⟩
  · intro s item epipe h _
    apply (finished_with_buffer_further _ _).1
    have key : ∀ X : State, RegistryInv X → EntryInv X → EntryInv (delpollfd (close X fd) fd) :=
      fun X h1 h2 => (delpollfd_further (close X fd) fd h1).1 ((emit_further X _).1 h2)
    cases epipe
    · rw [if_neg Bool.false_ne_true]
      exact key _ h.1 ((emit_further s _).1 h.2)
    · rw [if_pos rfl]
      exact key _ h.1 h.2
  · intro s item result h _ _
    refine ⟨after_write_registryInv s fd item result h.1, ?_⟩
    refine entryInv_of s _ ?_ h.2
    intro fd' e he
    rw [(after_write_info s fd item result fd').2.2.2.1] at he
    exact Or.inl ⟨he, by rw [(after_write_frame s fd item result).1]⟩

theorem write_loop_wakeInv (s : State) (fd : Nat) (cf : Bool) (item : fd_out_buffer)
    (ws : List WriteResult) (t : State) (cf' : Bool) (hinv : RegistryInv s)
    (hwake : ∀ fd', s.is_sink fd' → ((s.info fd').out_buffers ≠ [] ∨ fd' = fd) →
      s.interest fd' &&& POLLOUT ≠ 0)
    (hrun : write_loop s fd cf item ws = some (t, cf')) : WakeInv t := by
  refine write_loop_rule fd cf
    (fun s _ => RegistryInv s ∧ ∀ fd', s.is_sink fd' →
      ((s.info fd').out_buffers ≠ [] ∨ fd' = fd) → s.interest fd' &&& POLLOUT ≠ 0)
    (fun t _ => WakeInv t) ?_ ?_ ?_ ?_ ws s item t cf' ⟨hinv, hwake⟩ hrun
  · intro s item h _
    apply (finished_with_buffer_further s _).2.1
    rw [wakeInv_iff]
    exact fun fd' hs hq => h.2 fd' hs (Or.inl hq)
  · intro s item h _
    rw [wakeInv_iff]
    intro fd' hs hq
    obtain ⟨_, v2, v3⟩ := set_info_view s fd
      { s.info fd with out_buffers := item :: (s.info fd).out_buffers } rfl rfl fd'
    rw [v3]
    apply h.2 fd' (v2.mp hs)
    by_cases hfd : fd' = fd
    · exact Or.inr hfd
    · left
      rw [info_set_info_ne s fd fd' _ (fun hh => hfd hh.symm)] at hq
      exact hq
  · intro s item epipe h _
    apply (finished_with_buffer_further _ _).2.1
    have key : ∀ X : State, RegistryInv X → (∀ fd', X.is_sink fd' →
        ((X.info fd').out_buffers ≠ [] ∨ fd' = fd) → X.interest fd' &&& POLLOUT ≠ 0) →
        WakeInv (delpollfd (close X fd) fd) := by
      intro X0 hX0 hw0
      have hX : RegistryInv (close X0 fd) := hX0
      have hw : ∀ fd', (close X0 fd).is_sink fd' →
          (((close X0 fd).info fd').out_buffers ≠ [] ∨ fd' = fd) →
          (close X0 fd).interest fd' &&& POLLOUT ≠ 0 := hw0
      generalize close X0 fd = X at hX hw ⊢
      rw [wakeInv_iff]
      intro fd' hs hq
      have ht := (delpollfd_queue X fd fd').2.2.2.2
      by_cases hfd : fd' = fd
      · exfalso
        rw [if_pos hfd] at ht
        exact is_sink_ne_none _ _ hs ht
      · rw [if_neg hfd] at ht
        have hs' : X.is_sink fd' := by
          unfold State.is_sink at hs ⊢
          rw [ht] at hs
          exact hs
        obtain ⟨_, _, o3, _, _, o6⟩ := delpollfd_other X fd fd' hX hfd
          (is_sink_ne_none X fd' hs')
        rw [o3] at hq
        rw [o6]
        exact hw fd' hs' (Or.inl hq)
    cases epipe
    · rw [if_neg Bool.false_ne_true]
      exact key (s.emit _) h.1 h.2
    · rw [if_pos rfl]
      exact key s h.1 h.2
  · intro s item result h _ _
    refine ⟨after_write_registryInv s fd item result h.1, ?_⟩
    intro fd' hs hq
    obtain ⟨v1, v2⟩ := after_write_view s fd item result fd'
    rw [v2]
    apply h.2 fd' (v1.mp hs)
    rw [(after_write_info s fd item result fd').2.2.2.1] at hq
    exact hq

theorem write_loop_budgetInv (s : State) (fd : Nat) (cf : Bool) (item : fd_out_buffer)
    (ws : List WriteResult) (t : State) (cf' : Bool) (hinv : RegistryInv s)
    (hM : s.max_queue + 4095 < SIZE_MOD)
    (hbudget : ∀ fd', (if fd' = fd then (s.buffers.getD item.buffer []).length - item.offset
        else 0) + s.queued_bytes fd' ≤ (s.info fd').buffered_data ∧
      (s.info fd').buffered_data ≤ s.max_queue + 4095)
    (hrun : write_loop s fd cf item ws = some (t, cf')) : BudgetInv t := by
  refine write_loop_rule fd cf
    (fun s item => RegistryInv s ∧ s.max_queue + 4095 < SIZE_MOD ∧
      ∀ fd', (if fd' = fd then (s.buffers.getD item.buffer []).length - item.offset
        else 0) + s.queued_bytes fd' ≤ (s.info fd').buffered_data ∧
      (s.info fd').buffered_data ≤ s.max_queue + 4095)
    (fun t _ => BudgetInv t) ?_ ?_ ?_ ?_ ws s item t cf' ⟨hinv, hM, hbudget⟩ hrun
  · intro s item h _
    apply (finished_with_buffer_further s _).2.2
    rw [budgetInv_iff]
    intro fd'
    have := h.2.2 fd'
    exact ⟨by omega, this.2⟩
  · intro s item h hgt
    rw [budgetInv_iff]
    intro fd'
    have hb := h.2.2 fd'
    rw [queued_bytes_eq] at hb ⊢
    change unsent_count s.buffers _ ≤ _ ∧ _ ≤ s.max_queue + 4095
    rw [info_set_info]
    by_cases hc : fd = fd' ∧ fd < s.fdinfos.length
    · rw [if_pos hc]
      rw [if_pos hc.1.symm, ← hc.1] at hb
      change unsent_count s.buffers (item :: (s.info fd).out_buffers) ≤
        (s.info fd).buffered_data ∧ (s.info fd).buffered_data ≤ s.max_queue + 4095
      rw [unsent_count_cons]
      exact hb
    · rw [if_neg hc]
      exact ⟨by omega, hb.2⟩
  · intro s item epipe h _
    apply (finished_with_buffer_further _ _).2.2
    have hb : BudgetInv s := by
      rw [budgetInv_iff]
      intro fd'
      have := h.2.2 fd'
      exact ⟨by omega, this.2⟩
    have key : ∀ X : State, RegistryInv X → BudgetInv X →
        BudgetInv (delpollfd (close X fd) fd) :=
      fun X h1 h2 => (delpollfd_further (close X fd) fd h1).2.2 ((emit_further X _).2.2 h2)
    cases epipe
    · rw [if_neg Bool.false_ne_true]
      exact key _ h.1 ((emit_further s _).2.2 hb)
    · rw [if_pos rfl]
      exact key _ h.1 hb
  · intro s item result h hgt hres
    obtain ⟨a1, _, _, _, a5, _⟩ := after_write_frame s fd item result
    refine ⟨after_write_registryInv s fd item result h.1, by rw [a5]; exact h.2.1, ?_⟩
    intro fd'
    have hb := h.2.2 fd'
    have hq : (after_write s fd item result).queued_bytes fd' = s.queued_bytes fd' := by
      rw [queued_bytes_eq, queued_bytes_eq, a1, (after_write_info s fd item result fd').2.2.2.1]
    rw [hq, a1, a5, after_write_buffered_data]
    change (if fd' = fd then (s.buffers.getD item.buffer []).length - (item.offset + result)
      else 0) + _ ≤ _ ∧ _
    by_cases hfd : fd' = fd
    · rw [if_pos hfd] at hb ⊢
      by_cases hlt : fd < s.fdinfos.length
      · rw [if_pos ⟨hfd.symm, hlt⟩]
        rw [hfd] at hb
        rw [size_sub_mod _ _ (by omega) (by have := h.2.1; omega), hfd]
        omega
      · rw [if_neg (fun hc => hlt hc.2)]
        omega
    · rw [if_neg hfd] at hb ⊢
      rw [if_neg (fun hc => hfd hc.1.symm)]
      exact hb

/-- The sink case of the reactor loop keeps the further invariants. -/
theorem dispatch_sink_further (s : State) (i : Nat) (cf : Bool) (ws : List WriteResult)
    (t : State) (cf' : Bool) (hinv : RegistryInv s)
    (hrun : dispatch_sink s i cf ws = some (t, cf')) :
    (EntryInv s → EntryInv t) ∧ (WakeInv s → WakeInv t) ∧
    (s.max_queue + 4095 < SIZE_MOD → BudgetInv s → BudgetInv t) := by
  unfold dispatch_sink at hrun
  simp only [] at hrun
  split at hrun
  · simp only [Option.some.injEq, Prod.mk.injEq] at hrun
    rw [← hrun.1]
    have hinv1 : RegistryInv (close s (s.slot i).fd) := hinv
    obtain ⟨e1, e2, e3⟩ := emit_further s (Effect.closed (s.slot i).fd)
    obtain ⟨d1, d2, d3⟩ := delpollfd_further (close s (s.slot i).fd) (s.slot i).fd hinv1
    exact ⟨fun h => d1 (e1 h), fun h => d2 (e2 h), fun _ h => d3 (e3 h)⟩
  · split at hrun
    · rename_i hq
      simp only [Option.some.injEq, Prod.mk.injEq] at hrun
      rw [← hrun.1]
      obtain ⟨d1, d2, d3⟩ := set_events_further s i POLLERR hinv hq
      exact ⟨d1, d2, fun _ h => d3 h⟩
    · rename_i item rest hq
      have hreg1 : RegistryInv (s.set_info (s.slot i).fd
          { s.info (s.slot i).fd with out_buffers := rest }) :=
        registryInv_set_info s _ _ rfl rfl hinv
      have hlt : (s.slot i).fd < s.fdinfos.length := by
        by_contra hge
        rw [info_default_of_ge s _ (by omega), default_queue] at hq
        exact absurd hq (by simp)
      have hqueue : ∀ fd', ((s.set_info (s.slot i).fd
          { s.info (s.slot i).fd with out_buffers := rest }).info fd').out_buffers =
            if fd' = (s.slot i).fd then rest else (s.info fd').out_buffers := by
        intro fd'
        rw [info_set_info]
        by_cases hfd : fd' = (s.slot i).fd
        · rw [if_pos ⟨hfd.symm, hlt⟩, if_pos hfd]
        · rw [if_neg (fun hc => hfd hc.1.symm), if_neg hfd]
      have hbd : ∀ fd', ((s.set_info (s.slot i).fd
          { s.info (s.slot i).fd with out_buffers := rest }).info fd').buffered_data =
            (s.info fd').buffered_data := by
        intro fd'
        rw [info_set_info]
        split
        · rename_i hc; rw [← hc.1]
        · rfl
      refine ⟨?_, ?_, ?_⟩
      · intro hentry
        refine write_loop_entryInv _ _ _ _ _ _ _ hreg1 ?_ hrun
        refine entryInv_of s _ ?_ hentry
        intro fd' e he
        rw [hqueue] at he
        split at he
        · rename_i hfd
          rw [hfd, hq]
          exact Or.inl ⟨List.mem_cons_of_mem _ he, rfl⟩
        · exact Or.inl ⟨he, rfl⟩
      · intro hwake
        refine write_loop_wakeInv _ _ _ _ _ _ _ hreg1 ?_ hrun
        intro fd' hs hne
        obtain ⟨_, v2, v3⟩ := set_info_view s (s.slot i).fd
          { s.info (s.slot i).fd with out_buffers := rest } rfl rfl fd'
        rw [v3]
        apply (wakeInv_iff s).mp hwake fd' (v2.mp hs)
        by_cases hfd : fd' = (s.slot i).fd
        · rw [hfd, hq]
          simp
        · rcases hne with hne | hne
          · rw [hqueue, if_neg hfd] at hne
            exact hne
          · exact absurd hne hfd
      · intro hM hbudget
        refine write_loop_budgetInv _ _ _ _ _ _ _ hreg1 hM ?_ hrun
        intro fd'
        have hb := (budgetInv_iff s).mp hbudget fd'
        rw [queued_bytes_eq] at hb ⊢
        rw [hqueue, hbd]
        change _ + unsent_count s.buffers _ ≤ _ ∧ _ ≤ s.max_queue + 4095
        change (if fd' = (s.slot i).fd then (s.buffers.getD item.buffer []).length - item.offset
          else 0) + _ ≤ _ ∧ _
        by_cases hfd : fd' = (s.slot i).fd
        · rw [if_pos hfd, if_pos hfd]
          rw [hfd, hq, unsent_count_cons] at hb
          rw [hfd]
          exact hb
        · rw [if_neg hfd, if_neg hfd]
          exact ⟨by omega, hb.2⟩

/-! ## Closed forms of the input case and of `dispatch` -/

theorem read_input_fd_fanout (s : State) (fd : Nat) (cf : Bool) (data : List Nat)
    (reopen : Option Nat) (hdata : data.length ≠ 0)
    (hpool : ∀ b ∈ s.free_buffers, b < s.buffers.length) :
    read_input_fd s fd cf { read := ReadResult.bytes data, reopen := reopen } =
      Except.ok (some (getbuffer s).1,
        (if (fanout_loop (load_buffer s data) (getbuffer s).1 data.length).2 = [] then cf
          else false),
        fanout_state s data) := by
  rw [read_input_fd_data s fd cf data reopen hdata, load_buffer_content s data hpool]
  by_cases h : (fanout_loop (load_buffer s data) (getbuffer s).1 data.length).2 = []
  · rw [if_neg (by rw [h]; simp), if_pos h]
    unfold fanout_state
    rw [h]
    rfl
  · rw [if_pos (by simpa using h), if_neg h]
    rfl

theorem dispatch_input_data (s : State) (fd : Nat) (cf : Bool) (data : List Nat)
    (reopen : Option Nat) (mirror_ok : Bool) (hpool : PoolInv s) (hlen : data.length ≠ 0) :
    dispatch_input s fd cf { read := ReadResult.bytes data, reopen := reopen } mirror_ok =
      if s.use_stdout = true ∧ mirror_ok = false then Except.error 1
      else Except.ok (input_state s data,
        if (fanout_loop (load_buffer s data) (getbuffer s).1 data.length).2 = [] then cf
          else false) := by
  have hfree : ∀ b ∈ s.free_buffers, b < s.buffers.length := fun b hb => (hpool.2.1 b hb).1
  have hres := read_input_fd_fanout s fd cf data reopen hlen hfree
  have hcontent : (fanout_state s data).buffers.getD (getbuffer s).1 [] = data := by
    rw [fanout_state_buffers]
    exact load_buffer_content s data hfree
  have hu := (fanout_state_frame s data).1
  simp only [dispatch_input, hres, hcontent, hu, input_state]
  cases h1 : s.use_stdout <;> cases h2 : mirror_ok <;> simp

theorem dispatch_input_eof (s : State) (fd : Nat) (cf : Bool) (reopen : Option Nat)
    (mirror_ok : Bool) :
    dispatch_input s fd cf { read := ReadResult.bytes [], reopen := reopen } mirror_ok =
      if s.reopen_input = true ∧ fd = s.input_fd then
        match reopen with
        | none => Except.error 1
        | some new_fd => Except.ok (reopen_state s fd new_fd, false)
      else Except.error 0 := by
  unfold dispatch_input
  rw [read_input_fd_eof s fd cf [] reopen rfl]
  by_cases hc : s.reopen_input = true ∧ fd = s.input_fd
  · rw [if_pos hc, if_pos hc]
    cases reopen <;> rfl
  · rw [if_neg hc, if_neg hc]

/-- The ways in which the input case returns to the reactor loop. -/
theorem dispatch_input_next (s : State) (fd : Nat) (cf : Bool) (env : InputEnv)
    (mirror_ok : Bool) (s1 : State) (cf1 : Bool) (hpool : PoolInv s)
    (h : dispatch_input s fd cf env mirror_ok = Except.ok (s1, cf1)) :
    (∃ data, env.read = ReadResult.bytes data ∧ 0 < data.length ∧
      s1 = input_state s data ∧
      cf1 = (if (fanout_loop (load_buffer s data) (getbuffer s).1 data.length).2 = [] then cf
        else false)) ∨
    (∃ new_fd, env.read = ReadResult.bytes [] ∧ env.reopen = some new_fd ∧
      s.reopen_input = true ∧ fd = s.input_fd ∧ s1 = reopen_state s fd new_fd ∧
      cf1 = false) := by
  obtain ⟨read, reopen⟩ := env
  cases read with
  | error =>
    exfalso
    unfold dispatch_input read_input_fd at h
    simp at h
  | bytes data =>
    by_cases hlen : data.length = 0
    · right
      have hnil : data = [] := List.length_eq_zero.mp hlen
      subst hnil
      rw [dispatch_input_eof] at h
      split at h
      · rename_i hc
        cases reopen with
        | none => simp at h
        | some new_fd =>
          simp only [Except.ok.injEq, Prod.mk.injEq] at h
          exact ⟨new_fd, rfl, rfl, hc.1, hc.2, h.1.symm, h.2.symm⟩
      · simp at h
    · left
      rw [dispatch_input_data s fd cf data reopen mirror_ok hpool hlen] at h
      split at h
      · simp at h
      · simp only [Except.ok.injEq, Prod.mk.injEq] at h
        exact ⟨data, rfl, by omega, h.1.symm, h.2.symm⟩

/-- The ways in which one dispatch returns to the reactor loop. -/
theorem dispatch_next (s : State) (i : Nat) (cf : Bool) (env : DispatchEnv) (s1 : State)
    (cf1 : Bool) (hpool : PoolInv s) (h : dispatch s i cf env = Outcome.next s1 cf1) :
    ((s.slot i).revents = 0 ∧ s1 = s ∧ cf1 = cf) ∨
    ((s.slot i).revents ≠ 0 ∧ (s.info (s.slot i).fd).type = FDTYPE.INPUT ∧
      ∃ data, env.input.read = ReadResult.bytes data ∧ 0 < data.length ∧ data.length ≤ 4096 ∧
        s1 = input_state s data ∧
        cf1 = (if (fanout_loop (load_buffer s data) (getbuffer s).1 data.length).2 = [] then cf
          else false)) ∨
    ((s.slot i).revents ≠ 0 ∧ (s.info (s.slot i).fd).type = FDTYPE.INPUT ∧
      ∃ new_fd, env.input.read = ReadResult.bytes [] ∧ env.input.reopen = some new_fd ∧
        s.reopen_input = true ∧ (s.slot i).fd = s.input_fd ∧
        s1 = reopen_state s (s.slot i).fd new_fd ∧ cf1 = false) ∨
    ((s.slot i).revents ≠ 0 ∧ (s.info (s.slot i).fd).type = FDTYPE.LISTENER ∧
      ∃ newsock, env.accepted = some newsock ∧
        s1 = addpollfd s newsock POLLERR FDTYPE.CONN (s.info (s.slot i).fd).name ∧ cf1 = cf) ∨
    ((s.slot i).revents ≠ 0 ∧ s.is_sink (s.slot i).fd ∧
      dispatch_sink s i cf env.writes = some (s1, cf1)) := by
  unfold dispatch at h
  by_cases hrev : (s.slot i).revents = 0
  · rw [if_pos hrev] at h
    simp only [Outcome.next.injEq] at h
    exact Or.inl ⟨hrev, h.1.symm, h.2.symm⟩
  · rw [if_neg hrev] at h
    right
    cases ht : (s.info (s.slot i).fd).type with
    | NONE =>
      rw [ht] at h
      simp at h
    | INPUT =>
      rw [ht] at h
      simp only [] at h
      by_cases hv : read_valid env.input.read = true
      · rw [if_pos hv] at h
        cases hd : dispatch_input s (s.slot i).fd cf env.input env.mirror_ok with
        | error c =>
          rw [hd] at h
          simp at h
        | ok r =>
          obtain ⟨s2, cf2⟩ := r
          rw [hd] at h
          simp only [Outcome.next.injEq] at h
          rw [← h.1, ← h.2]
          rcases dispatch_input_next s _ cf _ _ s2 cf2 hpool hd with
            ⟨data, d1, d2, d3, d4⟩ | ⟨new_fd, d1, d2, d3, d4, d5, d6⟩
          · left
            refine ⟨hrev, rfl, data, d1, d2, ?_, d3, d4⟩
            rw [d1] at hv
            simpa [read_valid] using hv
          · right; left
            exact ⟨hrev, rfl, new_fd, d1, d2, d3, d4, d5, d6⟩
      · rw [if_neg hv] at h
        simp at h
    | LISTENER =>
      rw [ht] at h
      simp only [] at h
      right; right; left
      unfold dispatch_listener at h
      cases ha : env.accepted with
      | none =>
        rw [ha] at h
        simp at h
      | some newsock =>
        rw [ha] at h
        simp only [Outcome.next.injEq] at h
        exact ⟨hrev, rfl, newsock, rfl, h.1.symm, h.2.symm⟩
    | CONN =>
      rw [ht] at h
      simp only [] at h
      right; right; right
      refine ⟨hrev, Or.inl ht, ?_⟩
      cases hd : dispatch_sink s i cf env.writes with
      | none =>
        rw [hd] at h
        simp at h
      | some r =>
        obtain ⟨s2, cf2⟩ := r
        rw [hd] at h
        simp only [Outcome.next.injEq] at h
        rw [h.1, h.2]
    | FIFO =>
      rw [ht] at h
      simp only [] at h
      right; right; right
      refine ⟨hrev, Or.inr ht, ?_⟩
      cases hd : dispatch_sink s i cf env.writes with
      | none =>
        rw [hd] at h
        simp at h
      | some r =>
        obtain ⟨s2, cf2⟩ := r
        rw [hd] at h
        simp only [Outcome.next.injEq] at h
        rw [h.1, h.2]

/-! ## Every action keeps all the invariants -/

theorem sound_emit (s : State) (e : Effect) (h : Sound s) : Sound (s.emit e) := h

theorem sound_input_fd (s : State) (n : Nat) (h : Sound s) :
    Sound { s with input_fd := n } := h

theorem addpollfd_sound (s : State) (fd events : Nat) (type : FDTYPE) (name : String)
    (ht : type ≠ FDTYPE.NONE) (h : Sound s) : Sound (addpollfd s fd events type name) := by
  obtain ⟨h1, h2, h3, h4, h5, h6⟩ := h
  obtain ⟨f1, f2, f3⟩ := addpollfd_further s fd events type name h1 h3
  refine ⟨addpollfd_registryInv s fd events type name h1 ht, addpollfd_poolInv _ _ _ _ _ h2,
    addpollfd_idleInv _ _ _ _ _ h3, f1 h4, f2 h5, ?_⟩
  rw [(addpollfd_frame s fd events type name).2.2.1]
  exact fun hM => f3 (h6 hM)

theorem delpollfd_sound (s : State) (fd : Nat) (h : Sound s) : Sound (delpollfd s fd) := by
  obtain ⟨h1, h2, h3, h4, h5, h6⟩ := h
  obtain ⟨f1, f2, f3⟩ := delpollfd_further s fd h1
  refine ⟨delpollfd_registryInv s fd h1, delpollfd_poolInv _ _ h2,
    delpollfd_idleInv _ _ h3, f1 h4, f2 h5, ?_⟩
  rw [(delpollfd_frame s fd).2.2.1]
  exact fun hM => f3 (h6 hM)

theorem input_state_sound (s : State) (data : List Nat) (hlen : 0 < data.length)
    (hle : data.length ≤ 4096) (h : Sound s) : Sound (input_state s data) := by
  obtain ⟨h1, h2, h3, h4, h5, h6⟩ := h
  obtain ⟨f1, f2, f3⟩ := input_state_further s data hlen hle h1 h2
  obtain ⟨g1, g2⟩ := input_state_invariants s data h1 h2
  refine ⟨g1, g2, input_state_idleInv s data h3, f1 h4, f2 h5, ?_⟩
  rw [(input_state_frame s data).2.1]
  exact fun hM => f3 hM (h6 hM)

theorem write_loop_max_queue (s : State) (fd : Nat) (cf : Bool) (item : fd_out_buffer)
    (ws : List WriteResult) (t : State) (cf' : Bool)
    (hrun : write_loop s fd cf item ws = some (t, cf')) : t.max_queue = s.max_queue := by
  refine write_loop_rule fd cf (fun u _ => u.max_queue = s.max_queue)
    (fun t _ => t.max_queue = s.max_queue) ?_ ?_ ?_ ?_ ws s item t cf' rfl hrun
  · intro u item h _
    rw [(finished_with_buffer_frame u _).2.2.2.2.1]
    exact h
  · intro u item h _
    exact h
  · intro u item epipe h _
    rw [(finished_with_buffer_frame _ _).2.2.2.2.1, (delpollfd_frame _ fd).2.2.1]
    cases epipe
    · exact h
    · exact h
  · intro u item result h _ _
    rw [(after_write_frame u fd item result).2.2.2.2.1]
    exact h

theorem dispatch_sink_max_queue (s : State) (i : Nat) (cf : Bool) (ws : List WriteResult)
    (t : State) (cf' : Bool) (hrun : dispatch_sink s i cf ws = some (t, cf')) :
    t.max_queue = s.max_queue := by
  unfold dispatch_sink at hrun
  simp only [] at hrun
  split at hrun
  · simp only [Option.some.injEq, Prod.mk.injEq] at hrun
    rw [← hrun.1, (delpollfd_frame _ _).2.2.1]
    rfl
  · split at hrun
    · simp only [Option.some.injEq, Prod.mk.injEq] at hrun
      rw [← hrun.1]
      rfl
    · rw [write_loop_max_queue _ _ _ _ _ _ _ hrun]
      rfl

theorem dispatch_sink_sound (s : State) (i : Nat) (cf : Bool) (ws : List WriteResult)
    (t : State) (cf' : Bool) (hsink : s.is_sink (s.slot i).fd) (h : Sound s)
    (hrun : dispatch_sink s i cf ws = some (t, cf')) : Sound t := by
  obtain ⟨h1, h2, h3, h4, h5, h6⟩ := h
  obtain ⟨f1, f2, f3⟩ := dispatch_sink_further s i cf ws t cf' h1 hrun
  obtain ⟨g1, g2⟩ := dispatch_sink_invariants s i cf ws t cf' h1 h2 hrun
  refine ⟨g1, g2, dispatch_sink_idleInv s i cf ws t cf' h3 hsink hrun, f1 h4, f2 h5, ?_⟩
  rw [dispatch_sink_max_queue s i cf ws t cf' hrun]
  exact fun hM => f3 hM (h6 hM)

theorem poll_sound (s : State) (r : List Nat) (h : Sound s) : Sound (poll s r) := by
  obtain ⟨h1, h2, h3, h4, h5, h6⟩ := h
  obtain ⟨f1, f2, f3⟩ := poll_further s r
  exact ⟨poll_registryInv s r h1, h2, h3, f1 h4, f2 h5, fun hM => f3 (h6 hM)⟩

theorem set_revents_sound (s : State) (i r : Nat) (h : Sound s) :
    Sound (set_revents s i r) := by
  obtain ⟨h1, h2, h3, h4, h5, h6⟩ := h
  obtain ⟨f1, f2, f3⟩ := set_revents_further s i r
  obtain ⟨g1, g2⟩ := set_revents_invariants s i r h1 h2
  exact ⟨g1, g2, h3, f1 h4, f2 h5, fun hM => f3 (h6 hM)⟩

theorem acquire_buffer_sound (s : State) (h : Sound s) : Sound (acquire_buffer s) := by
  obtain ⟨h1, h2, h3, h4, h5, h6⟩ := h
  obtain ⟨f1, f2, f3⟩ := acquire_buffer_further s h2
  refine ⟨acquire_buffer_registryInv s h1, acquire_buffer_poolInv s h2,
    acquire_buffer_idleInv s h3, f1 h4, f2 h5, ?_⟩
  rw [(acquire_buffer_frame s).2.2.2.1]
  exact fun hM => f3 (h6 hM)

theorem reopen_state_sound (s : State) (fd new_fd : Nat) (h : Sound s) :
    Sound (reopen_state s fd new_fd) := by
  unfold reopen_state
  apply addpollfd_sound _ _ _ _ _ (by decide)
  apply sound_input_fd
  apply delpollfd_sound
  exact sound_emit _ _ (acquire_buffer_sound s h)

theorem dispatch_sound (s : State) (i : Nat) (cf : Bool) (env : DispatchEnv) (s1 : State)
    (cf1 : Bool) (h : Sound s) (hd : dispatch s i cf env = Outcome.next s1 cf1) : Sound s1 := by
  rcases dispatch_next s i cf env s1 cf1 h.2.1 hd with
    ⟨_, h1, _⟩ | ⟨_, _, data, _, d2, d3, d4, _⟩ | ⟨_, _, new_fd, _, _, _, _, d5, _⟩ |
    ⟨_, _, newsock, _, d2, _⟩ | ⟨_, d1, d2⟩
  · rw [h1]; exact h
  · rw [d4]; exact input_state_sound s data d2 d3 h
  · rw [d5]; exact reopen_state_sound s _ new_fd h
  · rw [d2]; exact addpollfd_sound s _ _ _ _ (by decide) h
  · exact dispatch_sink_sound s i cf _ s1 cf1 d1 h d2

theorem step_sound (s s' : State) (e : Event) (h : Sound s) (hstep : step s e = some s') :
    Sound s' := by
  cases e with
  | register fd events type name =>
    simp only [step] at hstep
    split at hstep
    · exact absurd hstep (by simp)
    · rename_i ht
      simp only [Option.some.injEq] at hstep
      rw [← hstep]
      exact addpollfd_sound s fd events type name ht h
  | deregister fd =>
    simp only [step, Option.some.injEq] at hstep
    rw [← hstep]
    exact delpollfd_sound s fd h
  | fanout fd data mirror_ok =>
    by_cases hlen : data.length = 0 ∨ 4096 < data.length
    · simp only [step, if_pos hlen] at hstep
      exact absurd hstep (by simp)
    · rw [step_fanout_eq s fd data mirror_ok h.2.1 (by omega) (by omega)] at hstep
      split at hstep
      · exact absurd hstep (by simp)
      · simp only [Option.some.injEq] at hstep
        rw [← hstep]
        exact input_state_sound s data (by omega) (by omega) h
  | drain i revents ws =>
    simp only [step] at hstep
    split at hstep
    · rename_i hc
      cases hd : dispatch_sink (set_revents s i revents) i true ws with
      | none =>
        rw [hd] at hstep
        exact absurd hstep (by simp)
      | some r =>
        obtain ⟨t, cf'⟩ := r
        rw [hd] at hstep
        simp only [Option.map_some', Option.some.injEq] at hstep
        rw [← hstep]
        refine dispatch_sink_sound (set_revents s i revents) i true ws t cf' ?_
          (set_revents_sound s i revents h) hd
        have : ((set_revents s i revents).slot i).fd = (s.slot i).fd :=
          set_revents_slot_fd s i revents i
        unfold State.is_sink
        rw [this]
        exact hc.2.2
    · exact absurd hstep (by simp)

theorem act_sound (s s' : State) (a : Action) (h : Sound s) (hact : act s a = some s') :
    Sound s' := by
  cases a with
  | step e => exact step_sound s s' e h hact
  | poll revents =>
    simp only [act, Option.some.injEq] at hact
    rw [← hact]
    exact poll_sound s revents h
  | dispatch i env =>
    simp only [act] at hact
    split at hact
    · cases hd : dispatch s i true env with
      | next s1 cf1 =>
        rw [hd] at hact
        simp only [Option.some.injEq] at hact
        rw [← hact]
        exact dispatch_sound s i true env s1 cf1 h hd
      | exit c =>
        rw [hd] at hact
        exact absurd hact (by simp)
      | stuck =>
        rw [hd] at hact
        exact absurd hact (by simp)
    · exact absurd hact (by simp)

theorem run_actions_sound (as : List Action) (s s' : State) (h : Sound s)
    (hrun : run_actions s as = some s') : Sound s' := by
  induction as generalizing s with
  | nil =>
    simp only [run_actions, Option.some.injEq] at hrun
    rw [← hrun]
    exact h
  | cons a as ih =>
    simp only [run_actions] at hrun
    cases ha : act s a with
    | none =>
      rw [ha] at hrun
      exact absurd hrun (by simp)
    | some s1 =>
      rw [ha] at hrun
      exact ih s1 (act_sound s s1 a h ha) hrun

theorem startup_sound (s : State) (h : is_startup s) : Sound s := by
  obtain ⟨h1, h2, h3⟩ := startup_invariants s h
  obtain ⟨_, hf, _, _, _, _⟩ := h
  refine ⟨h1, h2, h3, ?_, ?_, ?_⟩
  · intro x hx
    rw [hf] at hx
    exact absurd hx (List.not_mem_nil _)
  · intro fd hlt
    rw [hf] at hlt
    exact absurd hlt (Nat.not_lt_zero _)
  · intro _ fd hlt
    rw [hf] at hlt
    exact absurd hlt (Nat.not_lt_zero _)

/-- Every state of the program satisfies all the invariants. -/
theorem progReachable_sound (s : State) (h : ProgReachable s) : Sound s := by
  obtain ⟨s0, as, h0, hrun⟩ := h
  exact run_actions_sound as s0 s (startup_sound s0 h0) hrun

theorem run_actions_steps (es : List Event) (s : State) :
    run_actions s (es.map Action.step) = run s es := by
  induction es generalizing s with
  | nil => rfl
  | cons e es ih =>
    simp only [List.map_cons, run_actions, run, act]
    cases step s e with
    | none => rfl
    | some s1 => exact ih s1

theorem reachable_prog (s : State) (h : Reachable s) : ProgReachable s := by
  obtain ⟨s0, es, h0, hrun⟩ := h
  exact ⟨s0, es.map Action.step, h0, by rw [run_actions_steps]; exact hrun⟩

theorem mainReachable_prog (s : State) (h : MainReachable s) : ProgReachable s := by
  obtain ⟨s0, as, h0, _, hrun⟩ := h
  refine ⟨s0, Action.step (Event.register s0.input_fd (POLLIN ||| POLLERR) FDTYPE.INPUT
    s0.input_name) :: as, h0, ?_⟩
  simp only [run_actions, act, step]
  rw [if_neg (by decide)]
  exact hrun

theorem run_actions_append (as bs : List Action) (s : State) :
    run_actions s (as ++ bs) =
      match run_actions s as with
      | none => none
      | some s1 => run_actions s1 bs := by
  induction as generalizing s with
  | nil => rfl
  | cons a as ih =>
    simp only [List.cons_append, run_actions]
    cases act s a with
    | none => rfl
    | some s1 => exact ih s1

theorem progReachable_act (s s' : State) (a : Action) (h : ProgReachable s)
    (hact : act s a = some s') : ProgReachable s' := by
  obtain ⟨s0, as, h0, hrun⟩ := h
  refine ⟨s0, as ++ [a], h0, ?_⟩
  rw [run_actions_append, hrun]
  simp only [run_actions, hact]

/-! ## What a dispatch does to the roles, to `input_fd` and to the number of closes -/

theorem closes_append (a b : List Effect) : closes (a ++ b) = closes a + closes b := by
  induction a with
  | nil => simp [closes]
  | cons e a ih =>
    cases e <;> simp [closes, ih, Nat.add_assoc]

theorem finished_with_buffer_input_fd (s : State) (b : Nat) :
    (finished_with_buffer s b).input_fd = s.input_fd := by
  unfold finished_with_buffer
  split <;> rfl

theorem addpollfd_input_fd (s : State) (fd events : Nat) (type : FDTYPE) (name : String) :
    (addpollfd s fd events type name).input_fd = s.input_fd := by
  by_cases h : (s.info fd).type = FDTYPE.NONE
  · rw [addpollfd_new s fd events type name h]
    unfold grow
    split <;> rfl
  · rw [addpollfd_dup s fd events type name h]
    rfl

theorem addpollfd_closes (s : State) (fd events : Nat) (type : FDTYPE) (name : String) :
    closes (addpollfd s fd events type name).trace = closes s.trace := by
  by_cases h : (s.info fd).type = FDTYPE.NONE
  · rw [addpollfd_new s fd events type name h]
    unfold grow
    split <;> rfl
  · rw [addpollfd_dup s fd events type name h]
    change closes (s.trace ++ [Effect.duplicate_add fd]) = _
    rw [closes_append]
    rfl

/-- Registration does not touch a descriptor that is already registered. -/
theorem addpollfd_other (s : State) (fd events : Nat) (type : FDTYPE) (name : String)
    (k : Nat) (hinv : RegistryInv s) (hk : (s.info k).type ≠ FDTYPE.NONE) :
    (addpollfd s fd events type name).info k = s.info k ∧
    (addpollfd s fd events type name).interest k = s.interest k := by
  by_cases h : (s.info fd).type = FDTYPE.NONE
  · have hne : k ≠ fd := fun hh => hk (hh ▸ h)
    have hi := addpollfd_new_info s fd events type name h k
    rw [if_neg hne] at hi
    refine ⟨hi, ?_⟩
    have hoff := (hinv.1 k (info_lt_of_type s k hk) hk).1
    unfold State.interest State.slot
    rw [hi, addpollfd_new_pollfds s fd events type name h]
    simp only [List.getD_eq_getElem?_getD]
    rw [List.getElem?_append_left hoff]
  · rw [addpollfd_dup s fd events type name h]
    exact ⟨rfl, rfl⟩

theorem fanout_fold_closes (b n : Nat) (l : List Nat) (acc : State × List Nat) :
    closes (l.foldl (fanout_fd b n) acc).1.trace = closes acc.1.trace := by
  induction l generalizing acc with
  | nil => rfl
  | cons fd l ih =>
    rw [List.foldl_cons, ih, fanout_fd_trace, closes_append]
    split <;> rfl

theorem fanout_loop_closes (s : State) (b n : Nat) :
    closes (fanout_loop s b n).1.trace = closes s.trace :=
  fanout_fold_closes b n _ (s, [])

theorem close_pending_kept (s : State) (fds : List Nat) :
    (close_pending s fds).input_fd = s.input_fd ∧
    ∀ k, ((close_pending s fds).info k).type = (s.info k).type ∨
      ((close_pending s fds).info k).type = FDTYPE.NONE := by
  induction fds generalizing s with
  | nil => exact ⟨rfl, fun _ => Or.inl rfl⟩
  | cons fd fds ih =>
    rw [close_pending_cons]
    obtain ⟨i1, i2⟩ := ih (delpollfd (close s fd) fd)
    refine ⟨by rw [i1, (delpollfd_frame _ fd).2.2.2.2.2.1]; rfl, ?_⟩
    intro k
    rcases i2 k with h | h
    · rw [h, (delpollfd_queue (close s fd) fd k).2.2.2.2]
      split
      · exact Or.inr rfl
      · exact Or.inl rfl
    · exact Or.inr h

theorem load_buffer_input_fd (s : State) (data : List Nat) :
    (load_buffer s data).input_fd = s.input_fd := by
  rw [load_buffer_eq]

theorem input_state_kept (s : State) (data : List Nat) :
    (input_state s data).input_fd = s.input_fd ∧
    (∀ k, ((input_state s data).info k).type = (s.info k).type ∨
      ((input_state s data).info k).type = FDTYPE.NONE) ∧
    ((fanout_loop (load_buffer s data) (getbuffer s).1 data.length).2 = [] →
      (∀ k, ((input_state s data).info k).type = (s.info k).type) ∧
      closes (input_state s data).trace = closes s.trace) := by
  obtain ⟨c1, c2⟩ := close_pending_kept
    (fanout_loop (load_buffer s data) (getbuffer s).1 data.length).1
    (fanout_loop (load_buffer s data) (getbuffer s).1 data.length).2
  have hty : ∀ k, ((fanout_loop (load_buffer s data) (getbuffer s).1 data.length).1.info k).type =
      (s.info k).type := by
    intro k
    rw [fanout_loop_info, (fanout_info_type _ _ _ _).1, (load_buffer_frame s data).2.2.1]
  have hin : (fanout_state s data).input_fd = s.input_fd := by
    unfold fanout_state
    rw [c1, (fanout_loop_frame _ _ _).2.2.2.1, load_buffer_input_fd]
  refine ⟨?_, ?_, ?_⟩
  · unfold input_state
    rw [finished_with_buffer_input_fd]
    split
    · exact hin
    · exact hin
  · intro k
    rw [input_state_info]
    unfold fanout_state
    rw [← hty k]
    exact c2 k
  · intro hp
    have hfs : fanout_state s data =
        (fanout_loop (load_buffer s data) (getbuffer s).1 data.length).1 := by
      unfold fanout_state
      rw [hp]
      rfl
    refine ⟨?_, ?_⟩
    · intro k
      rw [input_state_info, hfs]
      exact hty k
    · have hcl : closes (fanout_state s data).trace = closes s.trace := by
        rw [hfs, fanout_loop_closes, (load_buffer_frame s data).2.2.2.2.2.2.1]
      unfold input_state
      rw [(finished_with_buffer_frame _ _).2.2.2.1]
      split
      · change closes ((fanout_state s data).trace ++ [Effect.stdout data]) = _
        rw [closes_append, hcl]
        rfl
      · exact hcl

theorem write_loop_kept (s : State) (fd : Nat) (cf : Bool) (item : fd_out_buffer)
    (ws : List WriteResult) (t : State) (cf' : Bool)
    (hrun : write_loop s fd cf item ws = some (t, cf')) :
    t.input_fd = s.input_fd ∧
    (∀ k, (t.info k).type = (s.info k).type ∨ (t.info k).type = FDTYPE.NONE) ∧
    (cf' = false ∨
      (cf' = cf ∧ (∀ k, (t.info k).type = (s.info k).type) ∧ closes t.trace = closes s.trace)) := by
  refine write_loop_rule fd cf
    (fun u _ => u.input_fd = s.input_fd ∧ (∀ k, (u.info k).type = (s.info k).type) ∧
      closes u.trace = closes s.trace)
    (fun t c => t.input_fd = s.input_fd ∧
      (∀ k, (t.info k).type = (s.info k).type ∨ (t.info k).type = FDTYPE.NONE) ∧
      (c = false ∨
        (c = cf ∧ (∀ k, (t.info k).type = (s.info k).type) ∧ closes t.trace = closes s.trace)))
    ?_ ?_ ?_ ?_ ws s item t cf' ⟨rfl, fun _ => rfl, rfl⟩ hrun
  · intro u item h _
    obtain ⟨h1, h2, h3⟩ := h
    have hi := finished_with_buffer_info u item.buffer
    refine ⟨by rw [finished_with_buffer_input_fd]; exact h1, ?_, Or.inr ⟨rfl, ?_, ?_⟩⟩
    · intro k; rw [hi]; exact Or.inl (h2 k)
    · intro k; rw [hi]; exact h2 k
    · rw [(finished_with_buffer_frame _ _).2.2.2.1]; exact h3
  · intro u item h _
    obtain ⟨h1, h2, h3⟩ := h
    have hty : ∀ k, ((u.set_info fd
        { u.info fd with out_buffers := item :: (u.info fd).out_buffers }).info k).type =
        (s.info k).type := by
      intro k
      exact (set_info_view u fd
        { u.info fd with out_buffers := item :: (u.info fd).out_buffers } rfl rfl k).1.trans (h2 k)
    exact ⟨h1, fun k => Or.inl (hty k), Or.inr ⟨rfl, hty, h3⟩⟩
  · intro u item epipe h _
    obtain ⟨h1, h2, h3⟩ := h
    have key : ∀ X : State, X.input_fd = s.input_fd →
        (∀ k, (X.info k).type = (s.info k).type) →
        (finished_with_buffer (delpollfd (close X fd) fd) item.buffer).input_fd = s.input_fd ∧
        ∀ k, ((finished_with_buffer (delpollfd (close X fd) fd) item.buffer).info k).type =
            (s.info k).type ∨
          ((finished_with_buffer (delpollfd (close X fd) fd) item.buffer).info k).type =
            FDTYPE.NONE := by
      intro X x1 x2
      refine ⟨?_, ?_⟩
      · rw [finished_with_buffer_input_fd, (delpollfd_frame _ fd).2.2.2.2.2.1]
        exact x1
      · intro k
        rw [finished_with_buffer_info, (delpollfd_queue (close X fd) fd k).2.2.2.2]
        split
        · exact Or.inr rfl
        · exact Or.inl (x2 k)
    cases epipe
    · rw [if_neg Bool.false_ne_true]
      obtain ⟨k1, k2⟩ := key (u.emit _) h1 h2
      exact ⟨k1, k2, Or.inl rfl⟩
    · rw [if_pos rfl]
      obtain ⟨k1, k2⟩ := key u h1 h2
      exact ⟨k1, k2, Or.inl rfl⟩
  · intro u item result h _ _
    obtain ⟨h1, h2, h3⟩ := h
    refine ⟨h1, ?_, ?_⟩
    · intro k
      rw [(after_write_info u fd item result k).1]
      exact h2 k
    · rw [(after_write_frame u fd item result).2.2.2.2.2, closes_append]
      exact h3

theorem dispatch_sink_kept (s : State) (i : Nat) (cf : Bool) (ws : List WriteResult)
    (t : State) (cf' : Bool) (hrun : dispatch_sink s i cf ws = some (t, cf')) :
    t.input_fd = s.input_fd ∧
    (∀ k, (t.info k).type = (s.info k).type ∨ (t.info k).type = FDTYPE.NONE) ∧
    (cf' = false ∨
      (cf' = cf ∧ (∀ k, (t.info k).type = (s.info k).type) ∧ closes t.trace = closes s.trace)) := by
  unfold dispatch_sink at hrun
  simp only [] at hrun
  split at hrun
  · simp only [Option.some.injEq, Prod.mk.injEq] at hrun
    rw [← hrun.1, ← hrun.2]
    refine ⟨by rw [(delpollfd_frame _ _).2.2.2.2.2.1]; rfl, ?_, Or.inl rfl⟩
    intro k
    rw [(delpollfd_queue (close s (s.slot i).fd) (s.slot i).fd k).2.2.2.2]
    split
    · exact Or.inr rfl
    · exact Or.inl rfl
  · split at hrun
    · simp only [Option.some.injEq, Prod.mk.injEq] at hrun
      rw [← hrun.1, ← hrun.2]
      exact ⟨rfl, fun _ => Or.inl rfl, Or.inr ⟨rfl, fun _ => rfl, rfl⟩⟩
    · rename_i item rest hq
      obtain ⟨w1, w2, w3⟩ := write_loop_kept _ _ _ _ _ _ _ hrun
      have hty : ∀ k, ((s.set_info (s.slot i).fd
          { s.info (s.slot i).fd with out_buffers := rest }).info k).type = (s.info k).type :=
        fun k => (set_info_view s (s.slot i).fd
          { s.info (s.slot i).fd with out_buffers := rest } rfl rfl k).1
      refine ⟨w1, ?_, ?_⟩
      · intro k
        rw [← hty k]
        exact w2 k
      · rcases w3 with w3 | ⟨w3, w4, w5⟩
        · exact Or.inl w3
        · refine Or.inr ⟨w3, ?_, w5⟩
          intro k
          rw [w4 k]
          exact hty k

/-! ## The reopened input -/

theorem addpollfd_new_trace (s : State) (fd events : Nat) (type : FDTYPE) (name : String)
    (h : (s.info fd).type = FDTYPE.NONE) : (addpollfd s fd events type name).trace = s.trace := by
  rw [addpollfd_new s fd events type name h]
  unfold grow
  split <;> rfl

theorem reopen_state_input_fd (s : State) (fd new_fd : Nat) :
    (reopen_state s fd new_fd).input_fd = new_fd := by
  unfold reopen_state
  rw [addpollfd_input_fd]

theorem reopen_state_max_queue (s : State) (fd new_fd : Nat) :
    (reopen_state s fd new_fd).max_queue = s.max_queue := by
  unfold reopen_state
  rw [(addpollfd_frame _ _ _ _ _).2.2.1]
  change (delpollfd (close (acquire_buffer s) fd) fd).max_queue = _
  rw [(delpollfd_frame _ fd).2.2.1]
  exact (acquire_buffer_frame s).2.2.2.1

/-- Roles before the new descriptor is registered: the old input is gone, every other
descriptor keeps its role. -/
theorem reopen_state_before (s : State) (fd new_fd k : Nat) :
    (({ delpollfd (close (acquire_buffer s) fd) fd with input_fd := new_fd } : State).info
      k).type = if k = fd then FDTYPE.NONE else (s.info k).type := by
  change ((delpollfd (close (acquire_buffer s) fd) fd).info k).type = _
  rw [(delpollfd_queue (close (acquire_buffer s) fd) fd k).2.2.2.2]
  split
  · rfl
  · change ((acquire_buffer s).info k).type = _
    rw [(acquire_buffer_frame s).2.2.2.2.2.2.2.2.2]

/-- After a reopen only the new descriptor can have the role `INPUT`, when the closed
descriptor was the only one before. -/
theorem reopen_state_single (s : State) (fd new_fd : Nat)
    (hsingle : ∀ k, (s.info k).type = FDTYPE.INPUT → k = fd) (k : Nat)
    (hk : ((reopen_state s fd new_fd).info k).type = FDTYPE.INPUT) : k = new_fd := by
  by_contra hne
  have hb := reopen_state_before s fd new_fd k
  have hE : (({ delpollfd (close (acquire_buffer s) fd) fd with input_fd := new_fd } :
      State).info k).type = FDTYPE.INPUT := by
    unfold reopen_state at hk
    by_cases h : (({ delpollfd (close (acquire_buffer s) fd) fd with input_fd := new_fd } :
        State).info new_fd).type = FDTYPE.NONE
    · rw [addpollfd_new_info _ _ _ _ _ h, if_neg hne] at hk
      exact hk
    · rw [addpollfd_dup _ _ _ _ _ h] at hk
      exact hk
  rw [hE] at hb
  by_cases hfd : k = fd
  · rw [if_pos hfd] at hb
    exact absurd hb (by decide)
  · rw [if_neg hfd] at hb
    exact hfd (hsingle k hb.symm)

/-- The state after a reopen, when the descriptor obtained is not one that is still
registered. -/
theorem reopen_state_spec (s : State) (fd new_fd : Nat) (hsound : Sound s)
    (hreg : (s.info fd).type ≠ FDTYPE.NONE)
    (hfresh : new_fd = fd ∨ (s.info new_fd).type = FDTYPE.NONE) :
    ((reopen_state s fd new_fd).info new_fd).type = FDTYPE.INPUT ∧
    (reopen_state s fd new_fd).trace = s.trace ++ [Effect.closed fd] ∧
    ∀ k, (s.info k).type ≠ FDTYPE.NONE → k ≠ fd →
      ((reopen_state s fd new_fd).info k).type = (s.info k).type ∧
      ((reopen_state s fd new_fd).info k).name = (s.info k).name ∧
      ((reopen_state s fd new_fd).info k).out_buffers = (s.info k).out_buffers ∧
      ((reopen_state s fd new_fd).info k).buffered_data = (s.info k).buffered_data ∧
      ((reopen_state s fd new_fd).info k).have_overflowed = (s.info k).have_overflowed ∧
      (reopen_state s fd new_fd).interest k = s.interest k ∧
      (reopen_state s fd new_fd).pending k = s.pending k := by
  have hA := acquire_buffer_sound s hsound
  have hC : Sound (close (acquire_buffer s) fd) := hA
  have hD := delpollfd_sound _ fd hC
  have hE : Sound { delpollfd (close (acquire_buffer s) fd) fd with input_fd := new_fd } := hD
  have hinfoA : ∀ k, (close (acquire_buffer s) fd).info k = s.info k :=
    (acquire_buffer_frame s).2.2.2.2.2.2.2.2.2
  have hnew : (({ delpollfd (close (acquire_buffer s) fd) fd with input_fd := new_fd } :
      State).info new_fd).type = FDTYPE.NONE := by
    rw [reopen_state_before]
    rcases hfresh with h | h
    · rw [if_pos h]
    · split
      · rfl
      · exact h
  have hregC : ((close (acquire_buffer s) fd).info fd).type ≠ FDTYPE.NONE := by
    rw [hinfoA]; exact hreg
  refine ⟨?_, ?_, ?_⟩
  · unfold reopen_state
    rw [addpollfd_new_info _ _ _ _ _ hnew, if_pos rfl]
  · unfold reopen_state
    rw [addpollfd_new_trace _ _ _ _ _ hnew]
    change (delpollfd (close (acquire_buffer s) fd) fd).trace = _
    rw [delpollfd_trace _ fd hregC]
    change (acquire_buffer s).trace ++ _ = _
    rw [(acquire_buffer_frame s).2.2.1]
  · intro k hk hne
    have hkC : ((close (acquire_buffer s) fd).info k).type ≠ FDTYPE.NONE := by
      rw [hinfoA]; exact hk
    obtain ⟨o1, o2, o3, o4, o5, o6⟩ := delpollfd_other (close (acquire_buffer s) fd) fd k
      hC.1 hne hkC
    rw [hinfoA] at o1 o2 o3 o4 o5
    have hkE : (({ delpollfd (close (acquire_buffer s) fd) fd with input_fd := new_fd } :
        State).info k).type ≠ FDTYPE.NONE := by
      change ((delpollfd (close (acquire_buffer s) fd) fd).info k).type ≠ _
      rw [o1]; exact hk
    obtain ⟨a1, a2⟩ := addpollfd_other
      { delpollfd (close (acquire_buffer s) fd) fd with input_fd := new_fd } new_fd
      (POLLIN ||| POLLERR) FDTYPE.INPUT s.input_name k hE.1 hkE
    have hinfo : (reopen_state s fd new_fd).info k =
        (delpollfd (close (acquire_buffer s) fd) fd).info k := a1
    have hint : (reopen_state s fd new_fd).interest k = s.interest k := by
      have h1 : (reopen_state s fd new_fd).interest k =
          (delpollfd (close (acquire_buffer s) fd) fd).interest k := a2
      rw [h1, o6]
      unfold State.interest State.slot
      rw [hinfoA]
      change ((acquire_buffer s).pollfds.getD _ default).events = _
      rw [(acquire_buffer_frame s).2.1]
    refine ⟨by rw [hinfo, o1], by rw [hinfo, o2], by rw [hinfo, o3], by rw [hinfo, o4],
      by rw [hinfo, o5], hint, ?_⟩
    unfold State.pending
    rw [hinfo, o3]
    apply unsent_congr
    intro e he
    have hb : (reopen_state s fd new_fd).buffers = (acquire_buffer s).buffers := by
      unfold reopen_state
      rw [(addpollfd_frame _ _ _ _ _).1]
      change (delpollfd (close (acquire_buffer s) fd) fd).buffers = _
      rw [(delpollfd_frame _ fd).1]
      rfl
    rw [hb]
    exact acquire_buffer_other s hsound.2.1 k e he

/-! ## The bytes of a queued vector -/

theorem write_loop_buffers (s : State) (fd : Nat) (cf : Bool) (item : fd_out_buffer)
    (ws : List WriteResult) (t : State) (cf' : Bool)
    (hrun : write_loop s fd cf item ws = some (t, cf')) : t.buffers = s.buffers := by
  refine write_loop_rule fd cf (fun u _ => u.buffers = s.buffers)
    (fun t _ => t.buffers = s.buffers) ?_ ?_ ?_ ?_ ws s item t cf' rfl hrun
  · intro u item h _
    rw [(finished_with_buffer_frame u _).2.2.1]
    exact h
  · intro u item h _
    exact h
  · intro u item epipe h _
    rw [(finished_with_buffer_frame _ _).2.2.1, (delpollfd_frame _ fd).1]
    cases epipe
    · exact h
    · exact h
  · intro u item result h _ _
    rw [(after_write_frame u fd item result).1]
    exact h

theorem dispatch_sink_buffers (s : State) (i : Nat) (cf : Bool) (ws : List WriteResult)
    (t : State) (cf' : Bool) (hrun : dispatch_sink s i cf ws = some (t, cf')) :
    t.buffers = s.buffers := by
  unfold dispatch_sink at hrun
  simp only [] at hrun
  split at hrun
  · simp only [Option.some.injEq, Prod.mk.injEq] at hrun
    rw [← hrun.1, (delpollfd_frame _ _).1]
    rfl
  · split at hrun
    · simp only [Option.some.injEq, Prod.mk.injEq] at hrun
      rw [← hrun.1]
      rfl
    · rw [write_loop_buffers _ _ _ _ _ _ _ hrun]
      rfl

theorem queue_holds_iff (s : State) (b : Nat) :
    queue_holds s b = true ↔ ∃ fd, ∃ e ∈ (s.info fd).out_buffers, e.buffer = b := by
  constructor
  · intro h
    by_contra hne
    have : queue_holds s b = false := by
      rw [queue_holds_false_iff]
      intro fd e he heq
      exact hne ⟨fd, e, he, heq⟩
    rw [this] at h
    exact absurd h (by decide)
  · intro h
    obtain ⟨fd, e, he, heq⟩ := h
    by_contra hne
    have hf : queue_holds s b = false := by
      cases hq : queue_holds s b
      · rfl
      · exact absurd hq hne
    exact (queue_holds_false_iff s b).mp hf fd e he heq

theorem reopen_state_buffers (s : State) (fd new_fd : Nat) :
    (reopen_state s fd new_fd).buffers = (acquire_buffer s).buffers := by
  unfold reopen_state
  rw [(addpollfd_frame _ _ _ _ _).1]
  change (delpollfd (close (acquire_buffer s) fd) fd).buffers = _
  rw [(delpollfd_frame _ fd).1]
  rfl

theorem dispatch_buffers_held (s : State) (i : Nat) (cf : Bool) (env : DispatchEnv)
    (s1 : State) (cf1 : Bool) (hpool : PoolInv s) (hd : dispatch s i cf env = Outcome.next s1 cf1)
    (b : Nat) (hb : queue_holds s b = true) : s1.buffers.getD b [] = s.buffers.getD b [] := by
  obtain ⟨fd, e, he, heq⟩ := (queue_holds_iff s b).mp hb
  rcases dispatch_next s i cf env s1 cf1 hpool hd with
    ⟨_, h1, _⟩ | ⟨_, _, data, _, _, _, d4, _⟩ | ⟨_, _, new_fd, _, _, _, _, d5, _⟩ |
    ⟨_, _, newsock, _, d2, _⟩ | ⟨_, _, d2⟩
  · rw [h1]
  · rw [d4, input_state_buffers, ← heq]
    exact load_buffer_other s data hpool fd e he
  · rw [d5, reopen_state_buffers, ← heq]
    exact acquire_buffer_other s hpool fd e he
  · rw [d2, (addpollfd_frame _ _ _ _ _).1]
  · rw [dispatch_sink_buffers s i cf _ s1 cf1 d2]

theorem step_buffers_held (s s' : State) (e : Event) (hpool : PoolInv s)
    (hstep : step s e = some s') (b : Nat) (hb : queue_holds s b = true) :
    s'.buffers.getD b [] = s.buffers.getD b [] := by
  obtain ⟨fd', e', he', heq⟩ := (queue_holds_iff s b).mp hb
  cases e with
  | register fd events type name =>
    simp only [step] at hstep
    split at hstep
    · exact absurd hstep (by simp)
    · simp only [Option.some.injEq] at hstep
      rw [← hstep, (addpollfd_frame _ _ _ _ _).1]
  | deregister fd =>
    simp only [step, Option.some.injEq] at hstep
    rw [← hstep, (delpollfd_frame _ _).1]
  | fanout fd data mirror_ok =>
    by_cases hlen : data.length = 0 ∨ 4096 < data.length
    · simp only [step, if_pos hlen] at hstep
      exact absurd hstep (by simp)
    · rw [step_fanout_eq s fd data mirror_ok hpool (by omega) (by omega)] at hstep
      split at hstep
      · exact absurd hstep (by simp)
      · simp only [Option.some.injEq] at hstep
        rw [← hstep, input_state_buffers, ← heq]
        exact load_buffer_other s data hpool fd' e' he'
  | drain i revents ws =>
    simp only [step] at hstep
    split at hstep
    · cases hd : dispatch_sink (set_revents s i revents) i true ws with
      | none =>
        rw [hd] at hstep
        exact absurd hstep (by simp)
      | some r =>
        obtain ⟨t, cf'⟩ := r
        rw [hd] at hstep
        simp only [Option.map_some', Option.some.injEq] at hstep
        rw [← hstep, dispatch_sink_buffers _ i true ws t cf' hd]
        rfl
    · exact absurd hstep (by simp)

/-- No action changes the bytes of a vector that some queue holds. -/
theorem act_buffers_held (s s' : State) (a : Action) (hpool : PoolInv s)
    (hact : act s a = some s') (b : Nat) (hb : queue_holds s b = true) :
    s'.buffers.getD b [] = s.buffers.getD b [] := by
  cases a with
  | step e => exact step_buffers_held s s' e hpool hact b hb
  | poll revents =>
    simp only [act, Option.some.injEq] at hact
    rw [← hact]
    rfl
  | dispatch i env =>
    simp only [act] at hact
    split at hact
    · cases hd : dispatch s i true env with
      | next s1 cf1 =>
        rw [hd] at hact
        simp only [Option.some.injEq] at hact
        rw [← hact]
        exact dispatch_buffers_held s i true env s1 cf1 hpool hd b hb
      | exit c =>
        rw [hd] at hact
        exact absurd hact (by simp)
      | stuck =>
        rw [hd] at hact
        exact absurd hact (by simp)
    · exact absurd hact (by simp)

theorem run_actions_buffers_held (as : List Action) (s s' : State) (hs : Sound s) (b : Nat)
    (hheld : held_throughout b s as = true) (hrun : run_actions s as = some s') :
    s'.buffers.getD b [] = s.buffers.getD b [] := by
  induction as generalizing s with
  | nil =>
    simp only [run_actions, Option.some.injEq] at hrun
    rw [← hrun]
  | cons a as ih =>
    simp only [run_actions] at hrun
    simp only [held_throughout, Bool.and_eq_true] at hheld
    cases ha : act s a with
    | none =>
      rw [ha] at hrun
      exact absurd hrun (by simp)
    | some s1 =>
      rw [ha] at hrun hheld
      rw [ih s1 (act_sound s s1 a hs ha) hheld.2 hrun]
      exact act_buffers_held s s1 a hs.2.1 ha b hheld.1

/-! ## Only one input -/

theorem singleInput_iff (s : State) :
    SingleInput s ↔ ∀ k, (s.info k).type = FDTYPE.INPUT → k = s.input_fd := by
  constructor
  · intro h k hk
    exact h k (info_lt_of_type s k (by rw [hk]; decide)) hk
  · intro h k _ hk
    exact h k hk

theorem singleInput_of (s t : State) (hin : t.input_fd = s.input_fd)
    (hty : ∀ k, (t.info k).type = (s.info k).type ∨ (t.info k).type ≠ FDTYPE.INPUT)
    (h : SingleInput s) : SingleInput t := by
  rw [singleInput_iff] at h ⊢
  intro k hk
  rw [hin]
  rcases hty k with h1 | h1
  · exact h k (by rw [← h1]; exact hk)
  · exact absurd hk h1

theorem addpollfd_type (s : State) (fd events : Nat) (type : FDTYPE) (name : String) (k : Nat) :
    ((addpollfd s fd events type name).info k).type = (s.info k).type ∨
    ((addpollfd s fd events type name).info k).type = type := by
  by_cases h : (s.info fd).type = FDTYPE.NONE
  · rw [addpollfd_new_info s fd events type name h]
    split
    · exact Or.inr rfl
    · exact Or.inl rfl
  · rw [addpollfd_dup s fd events type name h]
    exact Or.inl rfl

theorem addpollfd_single (s : State) (fd events : Nat) (type : FDTYPE) (name : String)
    (ht : type ≠ FDTYPE.INPUT) (h : SingleInput s) :
    SingleInput (addpollfd s fd events type name) := by
  refine singleInput_of s _ (addpollfd_input_fd s fd events type name) ?_ h
  intro k
  rcases addpollfd_type s fd events type name k with h1 | h1
  · exact Or.inl h1
  · right
    rw [h1]
    exact ht

theorem dispatch_single (s : State) (i : Nat) (cf : Bool) (env : DispatchEnv) (s1 : State)
    (cf1 : Bool) (hpool : PoolInv s) (h : SingleInput s)
    (hd : dispatch s i cf env = Outcome.next s1 cf1) : SingleInput s1 := by
  rcases dispatch_next s i cf env s1 cf1 hpool hd with
    ⟨_, h1, _⟩ | ⟨_, _, data, _, _, _, d4, _⟩ | ⟨_, _, new_fd, _, _, _, d4, d5, _⟩ |
    ⟨_, _, newsock, _, d2, _⟩ | ⟨_, _, d2⟩
  · rw [h1]; exact h
  · rw [d4]
    obtain ⟨k1, k2, _⟩ := input_state_kept s data
    refine singleInput_of s _ k1 ?_ h
    intro k
    rcases k2 k with h1 | h1
    · exact Or.inl h1
    · right; rw [h1]; decide
  · rw [d5, singleInput_iff]
    intro k hk
    rw [reopen_state_input_fd]
    refine reopen_state_single s _ new_fd ?_ k hk
    intro k' hk'
    rw [d4]
    exact (singleInput_iff s).mp h k' hk'
  · rw [d2]
    exact addpollfd_single s _ _ _ _ (by decide) h
  · obtain ⟨k1, k2, _⟩ := dispatch_sink_kept s i cf _ s1 cf1 d2
    refine singleInput_of s _ k1 ?_ h
    intro k
    rcases k2 k with h1 | h1
    · exact Or.inl h1
    · right; rw [h1]; decide

theorem act_single (s s' : State) (a : Action) (hpool : PoolInv s) (h : SingleInput s)
    (hm : main_action a = true) (hact : act s a = some s') : SingleInput s' := by
  cases a with
  | step e =>
    cases e with
    | register fd events type name =>
      simp only [main_action, decide_eq_true_eq] at hm
      simp only [act, step] at hact
      split at hact
      · exact absurd hact (by simp)
      · simp only [Option.some.injEq] at hact
        rw [← hact]
        refine addpollfd_single s fd events type name ?_ h
        intro hc
        rw [hc] at hm
        rcases hm with hm | hm <;> exact absurd hm (by decide)
    | deregister fd => exact absurd hm (by simp [main_action])
    | fanout fd data mirror_ok => exact absurd hm (by simp [main_action])
    | drain i revents ws => exact absurd hm (by simp [main_action])
  | poll revents =>
    simp only [act, Option.some.injEq] at hact
    rw [← hact]
    exact h
  | dispatch i env =>
    simp only [act] at hact
    split at hact
    · cases hd : dispatch s i true env with
      | next s1 cf1 =>
        rw [hd] at hact
        simp only [Option.some.injEq] at hact
        rw [← hact]
        exact dispatch_single s i true env s1 cf1 hpool h hd
      | exit c =>
        rw [hd] at hact
        exact absurd hact (by simp)
      | stuck =>
        rw [hd] at hact
        exact absurd hact (by simp)
    · exact absurd hact (by simp)

theorem run_actions_single (as : List Action) (s s' : State) (hs : Sound s)
    (h : SingleInput s) (hm : as.all main_action = true) (hrun : run_actions s as = some s') :
    SingleInput s' := by
  induction as generalizing s with
  | nil =>
    simp only [run_actions, Option.some.injEq] at hrun
    rw [← hrun]
    exact h
  | cons a as ih =>
    simp only [run_actions] at hrun
    simp only [List.all_cons, Bool.and_eq_true] at hm
    cases ha : act s a with
    | none =>
      rw [ha] at hrun
      exact absurd hrun (by simp)
    | some s1 =>
      rw [ha] at hrun
      exact ih s1 (act_sound s s1 a hs ha) (act_single s s1 a hs.2.1 h hm.1 ha) hm.2 hrun

/-- In every state of the program proper the only descriptor with the role `INPUT` is
`input_fd`. -/
theorem mainReachable_single (s : State) (h : MainReachable s) : SingleInput s := by
  obtain ⟨s0, as, h0, hm, hrun⟩ := h
  have hs0 := startup_sound s0 h0
  refine run_actions_single as _ s
    (addpollfd_sound s0 _ _ _ _ (by decide) hs0) ?_ hm hrun
  rw [singleInput_iff]
  intro k hk
  rw [addpollfd_input_fd]
  have hnone : ∀ j, (s0.info j).type = FDTYPE.NONE := by
    intro j
    rw [info_default_of_ge s0 j (by rw [h0.2.1]; exact Nat.zero_le _)]
    rfl
  rw [addpollfd_new_info _ _ _ _ _ (hnone _)] at hk
  by_contra hne
  rw [if_neg hne, hnone] at hk
  exact absurd hk (by decide)

/-! ## Destructive events and the pass -/

theorem pass_loop_stopped (s : State) (i : Nat) (envs : List DispatchEnv) :
    pass_loop s i false envs = Outcome.next s false := by
  cases envs with
  | nil =>
    unfold pass_loop
    rw [if_neg (by simp)]
  | cons env envs =>
    unfold pass_loop
    rw [if_neg (by simp)]

theorem pass_loop_dispatch (s : State) (i : Nat) (env : DispatchEnv) (envs : List DispatchEnv)
    (s1 : State) (cf1 : Bool) (hi : i < s.pollfds.length)
    (hd : dispatch s i true env = Outcome.next s1 cf1) :
    pass_loop s i true (env :: envs) = pass_loop s1 (i + 1) cf1 envs := by
  rw [pass_loop, if_pos ⟨hi, rfl⟩, hd]

/-- A dispatch that does not clear `continue_flag` keeps the role of every registered
descriptor and closes nothing. -/
theorem dispatch_kept (s : State) (i : Nat) (cf : Bool) (env : DispatchEnv) (s1 : State)
    (cf1 : Bool) (hs : Sound s) (hd : dispatch s i cf env = Outcome.next s1 cf1) :
    cf1 = false ∨
      (cf1 = cf ∧ (∀ k, (s.info k).type ≠ FDTYPE.NONE → (s1.info k).type = (s.info k).type) ∧
        closes s1.trace = closes s.trace) := by
  rcases dispatch_next s i cf env s1 cf1 hs.2.1 hd with
    ⟨_, h1, h2⟩ | ⟨_, _, data, _, _, _, d4, d5⟩ | ⟨_, _, new_fd, _, _, _, _, _, d6⟩ |
    ⟨_, _, newsock, _, d2, d3⟩ | ⟨_, _, d2⟩
  · rw [h1]
    exact Or.inr ⟨h2, fun _ _ => rfl, rfl⟩
  · by_cases hp : (fanout_loop (load_buffer s data) (getbuffer s).1 data.length).2 = []
    · right
      rw [if_pos hp] at d5
      obtain ⟨_, _, k3⟩ := input_state_kept s data
      obtain ⟨k4, k5⟩ := k3 hp
      rw [d4]
      exact ⟨d5, fun k _ => k4 k, k5⟩
    · left
      rw [if_neg hp] at d5
      exact d5
  · exact Or.inl d6
  · right
    rw [d2]
    refine ⟨d3, ?_, addpollfd_closes _ _ _ _ _⟩
    intro k hk
    rw [(addpollfd_other s _ _ _ _ k hs.1 hk).1]
  · rcases (dispatch_sink_kept s i cf _ s1 cf1 d2).2.2 with h | ⟨h1, h2, h3⟩
    · exact Or.inl h
    · exact Or.inr ⟨h1, fun k _ => h2 k, h3⟩

/-! ## The exit codes of a dispatch -/

theorem dispatch_input_codes (s : State) (fd : Nat) (cf : Bool) (env : InputEnv)
    (mirror_ok : Bool) (c : Nat) (hpool : PoolInv s)
    (h : dispatch_input s fd cf env mirror_ok = Except.error c) : c = 0 ∨ c = 1 := by
  obtain ⟨read, reopen⟩ := env
  cases read with
  | error =>
    unfold dispatch_input read_input_fd at h
    simp only [Except.error.injEq] at h
    exact Or.inr h.symm
  | bytes data =>
    by_cases hlen : data.length = 0
    · have hnil : data = [] := List.length_eq_zero.mp hlen
      subst hnil
      rw [dispatch_input_eof] at h
      split at h
      · cases reopen with
        | none =>
          simp only [Except.error.injEq] at h
          exact Or.inr h.symm
        | some new_fd => simp at h
      · simp only [Except.error.injEq] at h
        exact Or.inl h.symm
    · rw [dispatch_input_data s fd cf data reopen mirror_ok hpool hlen] at h
      split at h
      · simp only [Except.error.injEq] at h
        exact Or.inr h.symm
      · simp at h

theorem dispatch_codes (s : State) (i : Nat) (cf : Bool) (env : DispatchEnv) (c : Nat)
    (hs : Sound s) (hi : i < s.pollfds.length) (h : dispatch s i cf env = Outcome.exit c) :
    c = 0 ∨ c = 1 := by
  have hreg := (hs.1.2 i hi).1
  unfold dispatch at h
  split at h
  · simp at h
  · cases ht : (s.info (s.slot i).fd).type with
    | NONE => exact absurd ht hreg
    | INPUT =>
      rw [ht] at h
      simp only [] at h
      split at h
      · cases hd : dispatch_input s (s.slot i).fd cf env.input env.mirror_ok with
        | error c' =>
          rw [hd] at h
          simp only [Outcome.exit.injEq] at h
          rw [← h]
          exact dispatch_input_codes s _ cf _ _ c' hs.2.1 hd
        | ok r =>
          obtain ⟨s2, cf2⟩ := r
          rw [hd] at h
          simp at h
      · simp at h
    | LISTENER =>
      rw [ht] at h
      simp only [] at h
      unfold dispatch_listener at h
      cases ha : env.accepted with
      | none =>
        rw [ha] at h
        simp only [Outcome.exit.injEq] at h
        exact Or.inr h.symm
      | some newsock =>
        rw [ha] at h
        simp at h
    | CONN =>
      rw [ht] at h
      simp only [] at h
      cases hd : dispatch_sink s i cf env.writes with
      | none => rw [hd] at h; simp at h
      | some r => obtain ⟨s2, cf2⟩ := r; rw [hd] at h; simp at h
    | FIFO =>
      rw [ht] at h
      simp only [] at h
      cases hd : dispatch_sink s i cf env.writes with
      | none => rw [hd] at h; simp at h
      | some r => obtain ⟨s2, cf2⟩ := r; rw [hd] at h; simp at h

theorem pass_loop_codes (envs : List DispatchEnv) (s : State) (i : Nat) (cf : Bool) (c : Nat)
    (hs : Sound s) (h : pass_loop s i cf envs = Outcome.exit c) : c = 0 ∨ c = 1 := by
  induction envs generalizing s i cf with
  | nil =>
    unfold pass_loop at h
    split at h <;> simp at h
  | cons env envs ih =>
    unfold pass_loop at h
    split at h
    · rename_i hg
      cases hd : dispatch s i cf env with
      | next s1 cf1 =>
        rw [hd] at h
        exact ih s1 (i + 1) cf1 (dispatch_sound s i cf env s1 cf1 hs hd) h
      | exit c' =>
        rw [hd] at h
        simp only [Outcome.exit.injEq] at h
        rw [← h]
        exact dispatch_codes s i cf env c' hs hg.1 hd
      | stuck =>
        rw [hd] at h
        simp at h
    · simp at h

theorem serving_state_main : MainReachable serving_state :=
  ⟨serving_start, serving_run, by decide, by decide, by decide!⟩

theorem serving_state_prog : ProgReachable serving_state :=
  mainReachable_prog _ serving_state_main

theorem serving_state_queue :
    (serving_state.info 6).out_buffers = [{ buffer := 0, offset := 4 }] ∧
    (serving_state.info 6).buffered_data = 6 ∧
    serving_state.buffers.getD 0 [] = chunk 7 := by decide!

/-! ## Claims on the queues -/

/-- C12. Queued buffers are never mutated: in every state of the program no vector of
the idle pool `free_buffers` is referenced by a queue entry; no action (a read with
its resize of the acquired vector, a drain with its release, a registration, a
removal, a reopen) changes the bytes of a vector that some queue holds; hence along
any run in which some queue holds the vector when each action is taken, its bytes at
the end are those at the beginning, however many sinks hold it. -/
theorem queued_buffers_immutable (s : State) (h : ProgReachable s) :
    (∀ b ∈ s.free_buffers, queue_holds s b = false) ∧
    (∀ a s' b, act s a = some s' → queue_holds s b = true →
      s'.buffers.getD b [] = s.buffers.getD b []) ∧
    (∀ as s' b, held_throughout b s as = true → run_actions s as = some s' →
      s'.buffers.getD b [] = s.buffers.getD b []) :=
  ⟨fun b hb => ((progReachable_sound s h).2.1.2.1 b hb).2,
    fun a s' b hact hb => act_buffers_held s s' a (progReachable_sound s h).2.1 hact b hb,
    fun as s' b hheld hrun =>
      run_actions_buffers_held as s s' (progReachable_sound s h) b hheld hrun⟩

/-- Witness of C12: vector 0 is queued for descriptor 6 with four bytes sent; a second
read is fanned out and two more bytes are written, and vector 0 still holds the
ten bytes of the first read. -/
theorem queued_buffers_immutable_witness :
    ProgReachable serving_state ∧ held_throughout 0 serving_state second_read_run = true ∧
    ∃ s', run_actions serving_state second_read_run = some s' ∧
      s'.buffers.getD 0 [] = serving_state.buffers.getD 0 [] ∧
      serving_state.buffers.getD 0 [] = chunk 7 :=
  have hheld : held_throughout 0 serving_state second_read_run = true := by decide!
  ⟨serving_state_prog, hheld,
    match h : run_actions serving_state second_read_run with
    | some s' =>
      ⟨s', rfl, (queued_buffers_immutable serving_state serving_state_prog).2.2
        second_read_run s' 0 hheld h, serving_state_queue.2.2⟩
    | none => absurd h (by decide!)⟩

/-- C13. Queue-entry invariant: in every state of the program every entry of every
queue `out_buffers` has `offset` below the length of its vector. -/
theorem queue_entry_invariant (s : State) (h : ProgReachable s) :
    ∀ fd, ∀ e ∈ (s.info fd).out_buffers, e.offset < (s.buffers.getD e.buffer []).length :=
  (entryInv_iff s).mp (progReachable_sound s h).2.2.2.1

/-- Witness of C13: after four of ten bytes are written the entry of descriptor 6 is
back at the head of its queue with offset 4. -/
theorem queue_entry_invariant_witness :
    ProgReachable serving_state ∧
    (serving_state.info 6).out_buffers = [{ buffer := 0, offset := 4 }] ∧
    ∀ fd, ∀ e ∈ (serving_state.info fd).out_buffers,
      e.offset < (serving_state.buffers.getD e.buffer []).length :=
  ⟨serving_state_prog, serving_state_queue.1,
    queue_entry_invariant serving_state serving_state_prog⟩

/-- C18. Per-sink memory bound: when `max_queue + 4095` fits a `size_t`, in every state
of the program every registered sink has `buffered_data` at most
`max_queue + 4095`, and the bytes it has queued are at most `buffered_data`. -/
theorem sink_memory_bound (s : State) (h : ProgReachable s)
    (hM : s.max_queue + 4095 < SIZE_MOD) :
    ∀ fd, s.is_sink fd →
      (s.info fd).buffered_data ≤ s.max_queue + 4095 ∧
        s.queued_bytes fd ≤ (s.info fd).buffered_data :=
  fun fd _ =>
    ⟨((budgetInv_iff s).mp ((progReachable_sound s h).2.2.2.2.2 hM) fd).2,
      ((budgetInv_iff s).mp ((progReachable_sound s h).2.2.2.2.2 hM) fd).1⟩

/-- Witness of C18: the sink on descriptor 6, with a budget of 16 bytes and six bytes
still counted. -/
theorem sink_memory_bound_witness :
    ProgReachable serving_state ∧ serving_state.max_queue + 4095 < SIZE_MOD ∧
    serving_state.is_sink 6 ∧ (serving_state.info 6).buffered_data = 6 ∧
    ∀ fd, serving_state.is_sink fd →
      (serving_state.info fd).buffered_data ≤ serving_state.max_queue + 4095 ∧
        serving_state.queued_bytes fd ≤ (serving_state.info fd).buffered_data :=
  ⟨serving_state_prog, by decide!, by decide!, serving_state_queue.2.1,
    sink_memory_bound serving_state serving_state_prog (by decide!)⟩

/-- C19. Queued data is always scheduled for writing: in every state of the program
every registered sink whose queue is not empty owns a slot of `pollfds` whose
`events` contain `POLLOUT`. -/
theorem queued_data_scheduled (s : State) (h : ProgReachable s) :
    ∀ fd, s.is_sink fd → (s.info fd).out_buffers ≠ [] →
      (s.info fd).pollfd_offset < s.pollfds.length ∧
      (s.slot (s.info fd).pollfd_offset).fd = fd ∧
      (s.slot (s.info fd).pollfd_offset).events &&& POLLOUT ≠ 0 :=
  fun fd hs hq =>
    ⟨((progReachable_sound s h).1.1 fd (is_sink_lt s fd hs) (is_sink_ne_none s fd hs)).1,
      ((progReachable_sound s h).1.1 fd (is_sink_lt s fd hs) (is_sink_ne_none s fd hs)).2,
      (wakeInv_iff s).mp (progReachable_sound s h).2.2.2.2.1 fd hs hq⟩

/-- Witness of C19: the sink on descriptor 6 has an entry queued and waits for
writability in slot 2. -/
theorem queued_data_scheduled_witness :
    ProgReachable serving_state ∧ serving_state.is_sink 6 ∧
    (serving_state.info 6).out_buffers ≠ [] ∧ (serving_state.info 6).pollfd_offset = 2 ∧
    ∀ fd, serving_state.is_sink fd → (serving_state.info fd).out_buffers ≠ [] →
      (serving_state.info fd).pollfd_offset < serving_state.pollfds.length ∧
      (serving_state.slot (serving_state.info fd).pollfd_offset).fd = fd ∧
      (serving_state.slot (serving_state.info fd).pollfd_offset).events &&& POLLOUT ≠ 0 :=
  ⟨serving_state_prog, by decide!, by decide!, by decide!,
    queued_data_scheduled serving_state serving_state_prog⟩

/-- C17. The internal-invariant exit is unreachable: in every state of the program
every slot of `pollfds` names a descriptor whose role is not `NONE`, so that no
dispatch and no pass of the reactor loop ends in `exit(2)`. -/
theorem none_branch_unreachable (s : State) (h : ProgReachable s) :
    (∀ i, i < s.pollfds.length → (s.info (s.slot i).fd).type ≠ FDTYPE.NONE) ∧
    (∀ i cf env, i < s.pollfds.length → dispatch s i cf env ≠ Outcome.exit 2) ∧
    (∀ revents envs, main_iteration s revents envs ≠ Outcome.exit 2) :=
  ⟨fun i hi => ((progReachable_sound s h).1.2 i hi).1,
    fun i cf env hi hd =>
      absurd (dispatch_codes s i cf env 2 (progReachable_sound s h) hi hd) (by decide),
    fun revents envs hd =>
      absurd (pass_loop_codes envs (poll s revents) 0 true 2
        (poll_sound s revents (progReachable_sound s h)) hd) (by decide)⟩

/-- Witness of C17: the three slots of the example state. -/
theorem none_branch_unreachable_witness :
    ProgReachable serving_state ∧ serving_state.pollfds.length = 3 ∧
    (∀ i, i < serving_state.pollfds.length →
      (serving_state.info (serving_state.slot i).fd).type ≠ FDTYPE.NONE) ∧
    (∀ i cf env, i < serving_state.pollfds.length →
      dispatch serving_state i cf env ≠ Outcome.exit 2) ∧
    (∀ revents envs, main_iteration serving_state revents envs ≠ Outcome.exit 2) :=
  ⟨serving_state_prog, by decide!, none_branch_unreachable serving_state serving_state_prog⟩

/-! ## Claims on the reopened input and on the pass -/

theorem reopen_core (s : State) (h : MainReachable s) (fd new_fd : Nat) (cf mirror_ok : Bool)
    (hfd : (s.info fd).type = FDTYPE.INPUT) (hre : s.reopen_input = true)
    (hfresh : new_fd = fd ∨ (s.info new_fd).type = FDTYPE.NONE) :
    read_input_fd s fd cf { read := ReadResult.bytes [], reopen := some new_fd } =
      Except.ok (none, false, reopen_state s fd new_fd) ∧
    dispatch_input s fd cf { read := ReadResult.bytes [], reopen := some new_fd } mirror_ok =
      Except.ok (reopen_state s fd new_fd, false) ∧
    (reopen_state s fd new_fd).trace = s.trace ++ [Effect.closed fd] ∧
    (∀ k, s.is_sink k →
      ((reopen_state s fd new_fd).info k).type = (s.info k).type ∧
      ((reopen_state s fd new_fd).info k).out_buffers = (s.info k).out_buffers ∧
      ((reopen_state s fd new_fd).info k).buffered_data = (s.info k).buffered_data ∧
      ((reopen_state s fd new_fd).info k).have_overflowed = (s.info k).have_overflowed ∧
      (reopen_state s fd new_fd).interest k = s.interest k ∧
      (reopen_state s fd new_fd).pending k = s.pending k) ∧
    ((reopen_state s fd new_fd).info new_fd).type = FDTYPE.INPUT ∧
    (∀ k, ((reopen_state s fd new_fd).info k).type = FDTYPE.INPUT → k = new_fd) ∧
    (reopen_state s fd new_fd).input_fd = new_fd := by
  have hs := progReachable_sound s (mainReachable_prog s h)
  have hsingle := (singleInput_iff s).mp (mainReachable_single s h)
  have hin : fd = s.input_fd := hsingle fd hfd
  obtain ⟨r1, r2, r3⟩ := reopen_state_spec s fd new_fd hs (by rw [hfd]; decide) hfresh
  refine ⟨?_, ?_, r2, ?_, r1, ?_, reopen_state_input_fd s fd new_fd⟩
  · rw [read_input_fd_eof s fd cf [] (some new_fd) rfl, if_pos ⟨hre, hin⟩]
  · rw [dispatch_input_eof, if_pos ⟨hre, hin⟩]
  · intro k hk
    have hne : k ≠ fd := by
      intro hc
      rw [hc] at hk
      rcases hk with hk | hk <;> rw [hfd] at hk <;> exact absurd hk (by decide)
    obtain ⟨o1, _, o3, o4, o5, o6, o7⟩ := r3 k (is_sink_ne_none s k hk) hne
    exact ⟨o1, o3, o4, o5, o6, o7⟩
  · exact reopen_state_single s fd new_fd (fun k hk => (hsingle k hk).trans hin.symm)

/-- C14. Reopen does not replay or disturb queued data. In every state of the program
proper in which `reopen_input` is set, when the read on the input descriptor
returns zero bytes and `open` then yields a descriptor that is not still
registered (the old input descriptor has just been closed, so it may be that
one), `read_input_fd` returns the empty pointer with `continue_flag` false, so
that the input case fans out and mirrors nothing; the only effect is the `close`
of the old descriptor; every sink keeps its role, queue, `buffered_data`,
`have_overflowed`, wait interest and unsent bytes; and the new descriptor is
registered as the only `INPUT` and recorded in `input_fd`. -/
theorem reopen_keeps_queues (s : State) (h : MainReachable s) (fd new_fd : Nat)
    (cf mirror_ok : Bool) (hfd : (s.info fd).type = FDTYPE.INPUT)
    (hre : s.reopen_input = true)
    (hfresh : new_fd = fd ∨ (s.info new_fd).type = FDTYPE.NONE) :
    read_input_fd s fd cf { read := ReadResult.bytes [], reopen := some new_fd } =
      Except.ok (none, false, reopen_state s fd new_fd) ∧
    dispatch_input s fd cf { read := ReadResult.bytes [], reopen := some new_fd } mirror_ok =
      Except.ok (reopen_state s fd new_fd, false) ∧
    (reopen_state s fd new_fd).trace = s.trace ++ [Effect.closed fd] ∧
    (∀ k, s.is_sink k →
      ((reopen_state s fd new_fd).info k).type = (s.info k).type ∧
      ((reopen_state s fd new_fd).info k).out_buffers = (s.info k).out_buffers ∧
      ((reopen_state s fd new_fd).info k).buffered_data = (s.info k).buffered_data ∧
      ((reopen_state s fd new_fd).info k).have_overflowed = (s.info k).have_overflowed ∧
      (reopen_state s fd new_fd).interest k = s.interest k ∧
      (reopen_state s fd new_fd).pending k = s.pending k) ∧
    ((reopen_state s fd new_fd).info new_fd).type = FDTYPE.INPUT ∧
    (∀ k, ((reopen_state s fd new_fd).info k).type = FDTYPE.INPUT → k = new_fd) ∧
    (reopen_state s fd new_fd).input_fd = new_fd :=
  reopen_core s h fd new_fd cf mirror_ok hfd hre hfresh

/-- Witness of C14: the input on descriptor 3 is exhausted while the sink on descriptor
6 still has six bytes queued, and is reopened on descriptor 3 again. -/
theorem reopen_keeps_queues_witness :
    MainReachable serving_state ∧ (serving_state.info 3).type = FDTYPE.INPUT ∧
    serving_state.reopen_input = true ∧ serving_state.is_sink 6 ∧
    serving_state.pending 6 = [7, 7, 7, 7, 7, 7] ∧
    read_input_fd serving_state 3 true { read := ReadResult.bytes [], reopen := some 3 } =
      Except.ok (none, false, reopen_state serving_state 3 3) ∧
    (reopen_state serving_state 3 3).pending 6 = serving_state.pending 6 ∧
    ((reopen_state serving_state 3 3).info 6).out_buffers = (serving_state.info 6).out_buffers ∧
    (∀ k, ((reopen_state serving_state 3 3).info k).type = FDTYPE.INPUT → k = 3) :=
  have hw := reopen_keeps_queues serving_state serving_state_main 3 3 true true (by decide!)
    (by decide!) (Or.inl rfl)
  have hsink : serving_state.is_sink 6 := by decide!
  ⟨serving_state_main, by decide!, by decide!, hsink, by decide!, hw.1,
    (hw.2.2.2.1 6 hsink).2.2.2.2.2, (hw.2.2.2.1 6 hsink).2.1, hw.2.2.2.2.2.1⟩

theorem destructive_core (s : State) (h : ProgReachable s) (i : Nat) (env : DispatchEnv)
    (envs : List DispatchEnv) (s1 : State) (cf1 : Bool) (hi : i < s.pollfds.length)
    (hd : dispatch s i true env = Outcome.next s1 cf1)
    (hdereg : (∃ k, (s.info k).type ≠ FDTYPE.NONE ∧ (s1.info k).type = FDTYPE.NONE) ∨
      closes s1.trace ≠ closes s.trace) :
    cf1 = false ∧ pass_loop s i true (env :: envs) = Outcome.next s1 false := by
  have hcf : cf1 = false := by
    rcases dispatch_kept s i true env s1 cf1 (progReachable_sound s h) hd with h1 | ⟨_, h2, h3⟩
    · exact h1
    · exfalso
      rcases hdereg with ⟨k, k1, k2⟩ | hc
      · rw [h2 k k1] at k2
        exact k1 k2
      · exact hc h3
  refine ⟨hcf, ?_⟩
  rw [pass_loop_dispatch s i env envs s1 cf1 hi hd, hcf, pass_loop_stopped]

/-- C16. Destructive events abort the pass: in every state of the program, when the
dispatch of slot `i` (input, listener or sink case) returns to the loop having
deregistered an endpoint (some registered descriptor has role `NONE` afterwards,
or a descriptor was closed, which is how every removal made by a dispatch
begins), `continue_flag` is false afterwards and the pass ends in that state
whatever the readiness of the further slots. -/
theorem destructive_dispatch_aborts_pass (s : State) (h : ProgReachable s) (i : Nat)
    (env : DispatchEnv) (envs : List DispatchEnv) (s1 : State) (cf1 : Bool)
    (hi : i < s.pollfds.length) (hd : dispatch s i true env = Outcome.next s1 cf1)
    (hdereg : (∃ k, (s.info k).type ≠ FDTYPE.NONE ∧ (s1.info k).type = FDTYPE.NONE) ∨
      closes s1.trace ≠ closes s.trace) :
    cf1 = false ∧ pass_loop s i true (env :: envs) = Outcome.next s1 false :=
  destructive_core s h i env envs s1 cf1 hi hd hdereg

/-- Witness of C16: the sink in slot 2 reports an error condition without writability
and is closed. -/
theorem destructive_dispatch_aborts_pass_witness :
    ProgReachable hangup_poll ∧ 2 < hangup_poll.pollfds.length ∧
    dispatch hangup_poll 2 true {} =
      Outcome.next (delpollfd (close hangup_poll 6) 6) false ∧
    (hangup_poll.info 6).type ≠ FDTYPE.NONE ∧
    ((delpollfd (close hangup_poll 6) 6).info 6).type = FDTYPE.NONE ∧
    pass_loop hangup_poll 2 true [{}, {}] =
      Outcome.next (delpollfd (close hangup_poll 6) 6) false :=
  have hr : ProgReachable hangup_poll :=
    progReachable_act serving_state hangup_poll (Action.poll [0, 0, POLLERR])
      serving_state_prog rfl
  have hi : 2 < hangup_poll.pollfds.length := by decide!
  have hd : dispatch hangup_poll 2 true {} =
      Outcome.next (delpollfd (close hangup_poll 6) 6) false := by decide!
  have h1 : (hangup_poll.info 6).type ≠ FDTYPE.NONE := by decide!
  have h2 : ((delpollfd (close hangup_poll 6) 6).info 6).type = FDTYPE.NONE := by decide!
  ⟨hr, hi, hd, h1, h2,
    (destructive_dispatch_aborts_pass hangup_poll hr 2 {} [{}] _ false hi hd
      (Or.inl ⟨6, h1, h2⟩)).2⟩

end Nbudstee
